import Mathlib

/-!
Shallow embedding of `martini.go` (package `martini`, flywave/go-martini).

Modelling conventions:
* Go `int` is modelled as `ℤ` (values stay far below 2^63 at the grid sizes
  the theorems quantify over, so 64-bit wraparound is not modelled).
* Go `uint16` values are modelled as integers in `[0, 65536)`; every Go
  `uint16` conversion and every arithmetic operation performed at type
  `uint16` goes through `u16` (reduction mod 2^16), mirroring Go's modular
  semantics.
* Go `>>1` on `int` is an arithmetic shift, i.e. floor division by 2
  (`Int.fdiv · 2`); on `uint16` values (which are non-negative here) plain
  division by 2 is the same thing.
* Go `float64` heights are modelled as `ℚ`: the algorithm only uses
  `+ - * / abs max` on heights, and the claims under study are about the
  exact-arithmetic behaviour of the algorithm.
* Go slices `Indices`, `Errors`, `Terrain` are modelled as total functions
  from the flattened index `y*gridSize + x` (Go panics on out-of-range
  accesses; all accesses in the verified runs are in range).  The `Coords`
  slice (4 entries per triangle) is modelled as a function from the triangle
  table position `i` to the quadruple `(ax, ay, bx, by)` stored at
  `Coords[4i..4i+3]`.
* The mutually-recursive descent `countElements` / `processTriangle`
  recurses on an explicit fuel parameter (`none` = fuel exhausted); the Go
  functions are partial on arbitrary arguments, and the fuel needed from the
  two root calls is itself one of the verified facts.
-/

namespace GoMartini

/-- Go `uint16(x)` conversion / `uint16` arithmetic result: reduction
modulo 2^16 (Lean's `%` on `ℤ` is `emod`, which yields a value in
`[0, 65536)`, exactly Go's unsigned semantics). -/
def u16 (x : ℤ) : ℤ := x % 65536

/-- Go's arithmetic right shift by one on `int` (floor division by 2). -/
def asr (x : ℤ) : ℤ := Int.fdiv x 2

/-- The `abs` helper of `martini.go` (lines 132-137). -/
def iabs (n : ℤ) : ℤ := if n < 0 then -n else n

/-- `NumTriangles` as computed in `NewMartini`: `tileSize*tileSize*2 - 2`. -/
def numTris (tileSize : ℤ) : ℤ := tileSize * tileSize * 2 - 2

/-- `NumParentTriangles`: `NumTriangles - tileSize*tileSize`. -/
def numParentTris (tileSize : ℤ) : ℤ := numTris tileSize - tileSize * tileSize

/-- The inner bisection loop of `NewMartini` (lines 48-71): while `id > 1`,
take one left/right half step selected by the low bit of `id` and shift
`id` right. -/
def bisectLoop (id : ℕ) (ax ay bx bY cx cy : ℤ) : ℤ × ℤ × ℤ × ℤ × ℤ × ℤ :=
  if h : 1 < id then
    let mx := asr (ax + bx)
    let my := asr (ay + bY)
    if id % 2 = 1 then
      -- left half: b ← a, a ← c, c ← m
      bisectLoop (id / 2) cx cy ax ay mx my
    else
      -- right half: a ← b, b ← c, c ← m
      bisectLoop (id / 2) bx bY cx cy mx my
  else
    (ax, ay, bx, bY, cx, cy)
termination_by id
decreasing_by all_goals exact Nat.div_lt_self (by omega) (by omega)

/-- One bisection step of the table construction (the loop body, lines
50-65 of `NewMartini`), applied to a corner 6-tuple `(a, b, c)`: step bit
1 picks the left half (`b ← a`, `a ← c`), 0 the right half (`a ← b`,
`b ← c`); the new third corner is the midpoint of the old hypotenuse. -/
def bisectStep (s : ℕ) (p : ℤ × ℤ × ℤ × ℤ × ℤ × ℤ) : ℤ × ℤ × ℤ × ℤ × ℤ × ℤ :=
  let mx := asr (p.1 + p.2.2.1)
  let my := asr (p.2.1 + p.2.2.2.1)
  if s = 1 then
    (p.2.2.2.2.1, p.2.2.2.2.2, p.1, p.2.1, mx, my)
  else
    (p.2.2.1, p.2.2.2.1, p.2.2.2.2.1, p.2.2.2.2.2, mx, my)

/-- Full corner computation for table position `i` (internal id `i + 2`),
lines 30-71 of `NewMartini`: the low bit of the id picks the initial root
triangle, the remaining bits (low to high, below the top set bit) drive
`bisectLoop`. -/
def triangleCorners (tileSize : ℤ) (i : ℕ) : ℤ × ℤ × ℤ × ℤ × ℤ × ℤ :=
  let id := i + 2
  if id % 2 = 1 then
    bisectLoop (id / 2) 0 0 tileSize tileSize tileSize 0
  else
    bisectLoop (id / 2) tileSize tileSize 0 0 0 tileSize

/-- What `NewMartini` stores in `Coords[4i..4i+3]`: the `(a, b)` corners of
triangle `i`, converted to `uint16`. -/
def coordsAt (tileSize : ℤ) (i : ℕ) : ℤ × ℤ × ℤ × ℤ :=
  let tc := triangleCorners tileSize i
  (u16 tc.1, u16 tc.2.1, u16 tc.2.2.1, u16 tc.2.2.2.1)

/-- The `Martini` struct (grid-size dependent, terrain independent). -/
structure Martini where
  gridSize : ℤ
  numTriangles : ℤ
  numParentTriangles : ℤ
  indices : ℤ → ℤ
  coords : ℕ → ℤ × ℤ × ℤ × ℤ

/-- The two ways `NewMartini` can abort: the explicit `InvalidGridSize`
error returned when `tileSize & (tileSize-1) > 0` (line 24), and the
runtime panic of `make([]uint16, mt.NumTriangles*4)` at line 29 when the
requested length is negative (`len(Indices)` at line 28 is
`gridSize*gridSize ≥ 0` and never panics). -/
inductive MartiniFailure where
  | invalidGridSize
  | makePanic

/-- `NewMartini` (lines 19-80): returns the `InvalidGridSize` error iff
`tileSize & (tileSize-1) > 0` (`Int.land` is two's-complement bitwise AND,
Go's `&` on `int`); past that test it panics iff `NumTriangles*4 < 0`
(the `make` at line 29); otherwise it builds the coordinate table. -/
def newMartini (gridSize : ℤ) : Except MartiniFailure Martini :=
  let tileSize := gridSize - 1
  if Int.land tileSize (tileSize - 1) > 0 then
    .error .invalidGridSize
  else if numTris tileSize * 4 < 0 then
    .error .makePanic
  else
    .ok { gridSize := gridSize
          numTriangles := numTris tileSize
          numParentTriangles := numParentTris tileSize
          indices := fun _ => 0
          coords := coordsAt tileSize }

/-- The `Tile` struct, flattened together with the `Martini` it points to
(the Go `Tile` holds `Terrain`, `Errors` and a pointer to its `Martini`). -/
structure Tile where
  gridSize : ℤ
  numTriangles : ℤ
  numParentTriangles : ℤ
  indices : ℤ → ℤ
  coords : ℕ → ℤ × ℤ × ℤ × ℤ
  terrain : ℤ → ℚ
  errors : ℤ → ℚ

/-- One iteration of the `Tile.Update` loop body (lines 107-129) at table
position `i`.  All coordinate arithmetic is done at Go type `uint16`
(the `Coords` entries are `uint16`), hence the `u16` reductions; the array
indexing `int(ay)*size + int(ax)` then happens at `int`. -/
def updateStep (t : Tile) (i : ℕ) : Tile :=
  let size := t.gridSize
  let cq := t.coords i
  let ax := cq.1
  let ay := cq.2.1
  let bx := cq.2.2.1
  let bY := cq.2.2.2
  let mx := u16 (ax + bx) / 2
  let my := u16 (ay + bY) / 2
  let cx := u16 (mx + my - ay)
  let cy := u16 (my + ax - mx)
  let interpolatedHeight := (t.terrain (ay * size + ax) + t.terrain (bY * size + bx)) / 2
  let middleIndex := my * size + mx
  let middleError := |interpolatedHeight - t.terrain middleIndex|
  let e1 := Function.update t.errors middleIndex (max (t.errors middleIndex) middleError)
  if (i : ℤ) < t.numParentTriangles then
    let leftChildIndex := u16 (ay + cy) / 2 * size + u16 (ax + cx) / 2
    let rightChildIndex := u16 (bY + cy) / 2 * size + u16 (bx + cx) / 2
    let e2 := Function.update e1 middleIndex
      (max (max (e1 middleIndex) (e1 leftChildIndex)) (e1 rightChildIndex))
    { t with errors := e2 }
  else
    { t with errors := e1 }

/-- Runs the `Tile.Update` loop for table positions `n-1, n-2, …, 0`
(descending ids, as in the source). -/
def updateAux : ℕ → Tile → Tile
  | 0, t => t
  | n + 1, t => updateAux n (updateStep t n)

/-- `Tile.Update` (lines 103-130): visit every triangle id in descending
order. -/
def tileUpdate (t : Tile) : Tile := updateAux t.numTriangles.toNat t

/-- `NewTile`/`CreateTile` (lines 92-101): fresh zero error field, then
`Update`.  (The terrain-length check is not modelled: terrains are total
functions here.) -/
def newTile (m : Martini) (terrain : ℤ → ℚ) : Tile :=
  tileUpdate
    { gridSize := m.gridSize
      numTriangles := m.numTriangles
      numParentTriangles := m.numParentTriangles
      indices := m.indices
      coords := m.coords
      terrain := terrain
      errors := fun _ => 0 }

/-- The body of the vertex-deduplication `if` in `countElements`
(lines 150-153 and analogues): if the grid vertex `(x, y)` has no index
yet, bump the counter and store it (as `uint16`). -/
def assignVertex (t : Tile) (numV : ℤ) (x y : ℤ) : Tile × ℤ :=
  let idx := y * t.gridSize + x
  if t.indices idx = 0 then
    ({ t with indices := Function.update t.indices idx (u16 (numV + 1)) }, numV + 1)
  else
    (t, numV)

/-- The `else` branch of `countElements` (lines 149-162): assign indices to
the three corners, count one more triangle. -/
def leafAssign (t : Tile) (numT numV : ℤ) (ax ay bx bY cx cy : ℤ) : Tile × ℤ × ℤ :=
  let s1 := assignVertex t numV ax ay
  let s2 := assignVertex s1.1 s1.2 bx bY
  let s3 := assignVertex s2.1 s2.2 cx cy
  (s3.1, numT + 1, s3.2)

/-- `Tile.countElements` (lines 139-164), with explicit fuel.  State is
`(tile, numTriangles, numVertices)`; only `tile.indices` and the two
counters change. -/
def countElements (maxError : ℚ) :
    ℕ → ℤ → ℤ → ℤ → ℤ → ℤ → ℤ → Tile × ℤ × ℤ → Option (Tile × ℤ × ℤ)
  | 0, _, _, _, _, _, _, _ => none
  | fuel + 1, ax, ay, bx, bY, cx, cy, s =>
    let size := s.1.gridSize
    let mx := asr (ax + bx)
    let my := asr (ay + bY)
    if iabs (ax - cx) + iabs (ay - cy) > 1 ∧ s.1.errors (my * size + mx) > maxError then
      (countElements maxError fuel cx cy ax ay mx my s).bind
        (countElements maxError fuel bx bY cx cy mx my)
    else
      some (leafAssign s.1 s.2.1 s.2.2 ax ay bx bY cx cy)

/-- Output state of the emit pass: `triIndex` and the two output arrays
(`vertices` and `triangles`, modelled as functions from slice position). -/
structure EmitState where
  triIndex : ℤ
  vertices : ℤ → ℤ
  triangles : ℤ → ℤ

/-- The `else` branch of `processTriangle` (lines 177-197): look the three
corners up in `Indices`, write their coordinates into `vertices` and the
triple into `triangles`.  The `- 1` and `2*a`, `2*a+1` are computed at Go
type `uint16`. -/
def emitLeaf (t : Tile) (st : EmitState) (ax ay bx bY cx cy : ℤ) : EmitState :=
  let size := t.gridSize
  let a := u16 (t.indices (ay * size + ax) - 1)
  let b := u16 (t.indices (bY * size + bx) - 1)
  let c := u16 (t.indices (cy * size + cx) - 1)
  let v1 := Function.update st.vertices (u16 (2 * a)) (u16 ax)
  let v2 := Function.update v1 (u16 (2 * a + 1)) (u16 ay)
  let v3 := Function.update v2 (u16 (2 * b)) (u16 bx)
  let v4 := Function.update v3 (u16 (2 * b + 1)) (u16 bY)
  let v5 := Function.update v4 (u16 (2 * c)) (u16 cx)
  let v6 := Function.update v5 (u16 (2 * c + 1)) (u16 cy)
  let t1 := Function.update st.triangles st.triIndex a
  let t2 := Function.update t1 (st.triIndex + 1) b
  let t3 := Function.update t2 (st.triIndex + 2) c
  { triIndex := st.triIndex + 3, vertices := v6, triangles := t3 }

/-- `Tile.processTriangle` (lines 166-198), with explicit fuel.  It reads
(but never writes) the tile, and writes the output arrays. -/
def processTriangle (t : Tile) (maxError : ℚ) :
    ℕ → ℤ → ℤ → ℤ → ℤ → ℤ → ℤ → EmitState → Option EmitState
  | 0, _, _, _, _, _, _, _ => none
  | fuel + 1, ax, ay, bx, bY, cx, cy, st =>
    let size := t.gridSize
    let mx := asr (ax + bx)
    let my := asr (ay + bY)
    if iabs (ax - cx) + iabs (ay - cy) > 1 ∧ t.errors (my * size + mx) > maxError then
      (processTriangle t maxError fuel cx cy ax ay mx my st).bind
        (processTriangle t maxError fuel bx bY cx cy mx my)
    else
      some (emitLeaf t st ax ay bx bY cx cy)

/-- Result of `Tile.GetMesh`: the two output arrays together with their
exact sizes (`vertices` has `2*numVertices` entries, `triangles` has
`3*numTriangles`). -/
structure Mesh where
  numVertices : ℤ
  numTriangles : ℤ
  vertices : ℤ → ℤ
  triangles : ℤ → ℤ

/-- `Tile.GetMesh` (lines 200-223): zero the shared `Indices` scratch,
run the count pass from the two root triangles, allocate, run the emit
pass from the two root triangles.  Returns the tile as mutated by the call
together with the mesh. -/
def getMesh (t : Tile) (maxError : ℚ) (fuel : ℕ) : Option (Tile × Mesh) :=
  let mx := t.gridSize - 1
  let t0 : Tile := { t with indices := fun _ => 0 }
  (countElements maxError fuel 0 0 mx mx mx 0 (t0, 0, 0)).bind fun s1 =>
    (countElements maxError fuel mx mx 0 0 0 mx s1).bind fun s2 =>
      (processTriangle s2.1 maxError fuel 0 0 mx mx mx 0
          { triIndex := 0, vertices := fun _ => 0, triangles := fun _ => 0 }).bind fun e1 =>
        (processTriangle s2.1 maxError fuel mx mx 0 0 0 mx e1).map fun e2 =>
          (s2.1, { numVertices := s2.2.2
                   numTriangles := s2.2.1
                   vertices := e2.vertices
                   triangles := e2.triangles })


/-! ### Recursion-tree data for the two descents

`countElements` and `processTriangle` branch on exactly the same test
(they read only `errors`, `gridSize` and the threshold, none of which they
modify), so the shape of either recursion is captured by the list of leaf
triangles it visits, in visit order.  The two passes are then folds of
their respective leaf effects over that list. -/

/-- The list of leaf triangles (corner 6-tuples, in visit order) of the
descent from a given start triangle, with the same fuel discipline as
`countElements`/`processTriangle`. -/
def leafTris (errors : ℤ → ℚ) (size : ℤ) (maxError : ℚ) :
    ℕ → ℤ → ℤ → ℤ → ℤ → ℤ → ℤ → Option (List (ℤ × ℤ × ℤ × ℤ × ℤ × ℤ))
  | 0, _, _, _, _, _, _ => none
  | fuel + 1, ax, ay, bx, bY, cx, cy =>
    let mx := asr (ax + bx)
    let my := asr (ay + bY)
    if 1 < iabs (ax - cx) + iabs (ay - cy) ∧ maxError < errors (my * size + mx) then
      (leafTris errors size maxError fuel cx cy ax ay mx my).bind fun L1 =>
        (leafTris errors size maxError fuel bx bY cx cy mx my).map fun L2 => L1 ++ L2
    else
      some [(ax, ay, bx, bY, cx, cy)]

/-- One vertex-assignment step on the bare `(indices, numVertices)` state:
the body of the `if m.Indices[...] == 0` blocks of `countElements`. -/
def assignStep (p : (ℤ → ℤ) × ℤ) (v : ℤ) : (ℤ → ℤ) × ℤ :=
  if p.1 v = 0 then (Function.update p.1 v (u16 (p.2 + 1)), p.2 + 1) else p

/-- Sequential vertex assignment over a list of flattened grid indices. -/
def assignSeq : List ℤ → (ℤ → ℤ) × ℤ → (ℤ → ℤ) × ℤ
  | [], p => p
  | v :: vs, p => assignSeq vs (assignStep p v)

/-- The corners of a leaf list, as `(x, y)` pairs in visit order
(`a`, `b`, `c` of each leaf). -/
def cornerList (L : List (ℤ × ℤ × ℤ × ℤ × ℤ × ℤ)) : List (ℤ × ℤ) :=
  L.flatMap fun l => [(l.1, l.2.1), (l.2.2.1, l.2.2.2.1), (l.2.2.2.2.1, l.2.2.2.2.2)]

/-- Flattened linear index of a grid vertex. -/
def flatIdx (size : ℤ) (p : ℤ × ℤ) : ℤ := p.2 * size + p.1

/-- The flattened corner indices of a leaf list, in visit order. -/
def flatCorners (size : ℤ) (L : List (ℤ × ℤ × ℤ × ℤ × ℤ × ℤ)) : List ℤ :=
  (cornerList L).map (flatIdx size)

/-- `countElements`-leaf effects folded over a leaf list. -/
def assignLeaves : List (ℤ × ℤ × ℤ × ℤ × ℤ × ℤ) → Tile × ℤ × ℤ → Tile × ℤ × ℤ
  | [], s => s
  | l :: ls, s =>
      assignLeaves ls (leafAssign s.1 s.2.1 s.2.2 l.1 l.2.1 l.2.2.1 l.2.2.2.1 l.2.2.2.2.1 l.2.2.2.2.2)

/-- `processTriangle`-leaf effects folded over a leaf list. -/
def emitLeaves (t : Tile) : List (ℤ × ℤ × ℤ × ℤ × ℤ × ℤ) → EmitState → EmitState
  | [], st => st
  | l :: ls, st =>
      emitLeaves t ls (emitLeaf t st l.1 l.2.1 l.2.2.1 l.2.2.2.1 l.2.2.2.2.1 l.2.2.2.2.2)

/-! ### Concrete instances used by witnesses and counterexamples -/

/-- The table for `gridSize = 3` (`tileSize = 2`), as built by
`NewMartini(3)`. -/
def martini3 : Martini :=
  { gridSize := 3, numTriangles := 6, numParentTriangles := 2,
    indices := fun _ => 0, coords := coordsAt 2 }

/-- A raw 3×3 tile with an explicitly-given all-zero error field, used by
extraction witnesses (no `Update` evaluation involved). -/
def tileC3 : Tile :=
  { gridSize := 3, numTriangles := 6, numParentTriangles := 2,
    indices := fun _ => 0, coords := coordsAt 2,
    terrain := fun _ => 0, errors := fun _ => 0 }

/-- `GetMesh` result of `tileC3` at threshold 0. -/
def meshesC3a : Tile × Mesh := (getMesh tileC3 0 5).get (by decide)

/-- `GetMesh` result of `tileC3` at threshold 1. -/
def meshesC3b : Tile × Mesh := (getMesh tileC3 1 5).get (by decide)

/-- Shape invariant for the extraction descent (axis class): the legs
`a − c` and `b − c` of the right angle are axis-aligned of length `2^t`,
with `b − c` a quarter-turn of `a − c`. -/
def legsAxis (t : ℕ) (ax ay bx bY cx cy : ℤ) : Prop :=
  ((iabs (ax - cx) = 2 ^ t ∧ ay - cy = 0) ∨ (ax - cx = 0 ∧ iabs (ay - cy) = 2 ^ t)) ∧
  ((bx - cx = -(ay - cy) ∧ bY - cy = ax - cx) ∨ (bx - cx = ay - cy ∧ bY - cy = -(ax - cx)))

/-- Shape invariant for the extraction descent (diagonal class): both
legs are diagonal with components `±2^t`, with `b − c` a quarter-turn of
`a − c`. -/
def legsDiag (t : ℕ) (ax ay bx bY cx cy : ℤ) : Prop :=
  (iabs (ax - cx) = 2 ^ t ∧ iabs (ay - cy) = 2 ^ t) ∧
  ((bx - cx = -(ay - cy) ∧ bY - cy = ax - cx) ∨ (bx - cx = ay - cy ∧ bY - cy = -(ax - cx)))

/-- A raw 3×3 tile whose error field is identically 1, used to exhibit
the recursion depth of a full extraction descent. -/
def tileC8 : Tile :=
  { gridSize := 3, numTriangles := 6, numParentTriangles := 2,
    indices := fun _ => 0, coords := coordsAt 2,
    terrain := fun _ => 0, errors := fun _ => 1 }

/-- Orientation invariant of the table triangles: `b − c` is the
clockwise quarter-turn of `a − c` (this is what makes the code's
reconstruction `cx = mx + my − ay`, `cy = my + ax − mx` correct). -/
def oriented (ax ay bx bY cx cy : ℤ) : Prop :=
  bx - cx = ay - cy ∧ bY - cy = -(ax - cx)

/-- Axis-class table triangle of scale `2^e`, correctly oriented. -/
def axisOri (e : ℕ) (ax ay bx bY cx cy : ℤ) : Prop :=
  ((iabs (ax - cx) = 2 ^ e ∧ ay - cy = 0) ∨ (ax - cx = 0 ∧ iabs (ay - cy) = 2 ^ e)) ∧
  oriented ax ay bx bY cx cy

/-- Diagonal-class table triangle of scale `2^e`, correctly oriented. -/
def diagOri (e : ℕ) (ax ay bx bY cx cy : ℤ) : Prop :=
  (iabs (ax - cx) = 2 ^ e ∧ iabs (ay - cy) = 2 ^ e) ∧
  oriented ax ay bx bY cx cy

/-- All six corner coordinates lie in the grid `[0, tileSize]`. -/
def inGrid (ts ax ay bx bY cx cy : ℤ) : Prop :=
  0 ≤ ax ∧ ax ≤ ts ∧ 0 ≤ ay ∧ ay ≤ ts ∧ 0 ≤ bx ∧ bx ≤ ts ∧
  0 ≤ bY ∧ bY ≤ ts ∧ 0 ≤ cx ∧ cx ≤ ts ∧ 0 ≤ cy ∧ cy ≤ ts

/-- Fuel-based (structurally recursive, hence computable-by-the-kernel)
twin of `bisectLoop`; agrees with it whenever `id ≤ fuel`
(`bisectLoopF_eq`). -/
def bisectLoopF : ℕ → ℕ → ℤ → ℤ → ℤ → ℤ → ℤ → ℤ → ℤ × ℤ × ℤ × ℤ × ℤ × ℤ
  | 0, _, ax, ay, bx, bY, cx, cy => (ax, ay, bx, bY, cx, cy)
  | f + 1, id, ax, ay, bx, bY, cx, cy =>
    if 1 < id then
      if id % 2 = 1 then
        bisectLoopF f (id / 2) cx cy ax ay (asr (ax + bx)) (asr (ay + bY))
      else
        bisectLoopF f (id / 2) bx bY cx cy (asr (ax + bx)) (asr (ay + bY))
    else
      (ax, ay, bx, bY, cx, cy)

/-- Fuel-based twin of `triangleCorners` (same root selection). -/
def triangleCornersF (tileSize : ℤ) (i : ℕ) : ℤ × ℤ × ℤ × ℤ × ℤ × ℤ :=
  let id := i + 2
  if id % 2 = 1 then
    bisectLoopF id (id / 2) 0 0 tileSize tileSize tileSize 0
  else
    bisectLoopF id (id / 2) tileSize tileSize 0 0 0 tileSize

/-- Flat grid index of the hypotenuse midpoint of table triangle `i`
(the grid vertex the spec calls "the hypotenuse midpoint of some
triangle in the hierarchy"). -/
def triMid (ts size : ℤ) (i : ℕ) : ℤ :=
  let tc := triangleCornersF ts i
  asr (tc.2.1 + tc.2.2.2.1) * size + asr (tc.1 + tc.2.2.1)

/-- The local interpolation error of table triangle `i`:
`|avg(height(a), height(b)) − height(m)|`, the quantity the spec
aggregates over sub-hierarchies. -/
def localErr (terrain : ℤ → ℚ) (ts size : ℤ) (i : ℕ) : ℚ :=
  let tc := triangleCornersF ts i
  |(terrain (tc.2.1 * size + tc.1) + terrain (tc.2.2.2.1 * size + tc.2.2.1)) / 2 -
    terrain (triMid ts size i)|

/-- Largest power of two not exceeding `n` (fuel-based; `topPowF n n` is
the top set bit of `n ≥ 1`). -/
def topPowF : ℕ → ℕ → ℕ
  | 0, _ => 1
  | f + 1, n => if n ≤ 1 then 1 else 2 * topPowF f (n / 2)

/-- Spec-side sub-hierarchy maximum: the maximum of the local
interpolation errors over the sub-hierarchy rooted at table triangle
`i`, following the implicit child relation (children of id `n` with top
bit `p` are ids `n + p` and `n + 2p`), restricted to the table
(`numT` triangles) and truncated at recursion depth `fuel`. -/
def subErrMax (terrain : ℤ → ℚ) (ts size : ℤ) (numT : ℕ) : ℕ → ℕ → ℚ
  | 0, i => localErr terrain ts size i
  | f + 1, i =>
    let p := topPowF (i + 2) (i + 2)
    if i + 2 * p < numT then
      max (localErr terrain ts size i)
        (max (subErrMax terrain ts size numT f (i + p))
          (subErrMax terrain ts size numT f (i + 2 * p)))
    else
      localErr terrain ts size i

/-- A raw 5×5 tile (tileSize 4) whose terrain is a single spike of
height 100 at the grid vertex `(4, 1)` (flat index 9), with the
all-zero error field `Tile.Update` starts from. -/
def tile5 : Tile :=
  { gridSize := 5, numTriangles := 30, numParentTriangles := 14,
    indices := fun _ => 0, coords := coordsAt 4,
    terrain := fun v => if v = 9 then 100 else 0, errors := fun _ => 0 }

/-- The successive error fields of the `Tile.Update` run on `tile5`:
`errU (30-i)` is the field after processing table positions `29 … i`. -/
def errU1 : ℤ → ℚ := Function.update (fun _ => (0 : ℚ)) 7 0
def errU2 : ℤ → ℚ := Function.update errU1 17 0
def errU3 : ℤ → ℚ := Function.update errU2 13 0
def errU4 : ℤ → ℚ := Function.update errU3 11 0
def errU5 : ℤ → ℚ := Function.update errU4 1 0
def errU6 : ℤ → ℚ := Function.update errU5 23 0
def errU7 : ℤ → ℚ := Function.update errU6 9 100
def errU8 : ℤ → ℚ := Function.update errU7 15 0
def errU9 : ℤ → ℚ := Function.update errU8 3 0
def errU10 : ℤ → ℚ := Function.update errU9 21 0
def errU11 : ℤ → ℚ := Function.update errU10 19 0
def errU12 : ℤ → ℚ := Function.update errU11 5 0
def errU13 : ℤ → ℚ := Function.update errU12 7 0
def errU14 : ℤ → ℚ := Function.update errU13 17 0
def errU15 : ℤ → ℚ := Function.update errU14 13 0
def errU16 : ℤ → ℚ := Function.update errU15 11 0
def errU17 : ℤ → ℚ := Function.update errU16 8 0
def errU18 : ℤ → ℚ := Function.update errU17 16 0
def errU19 : ℤ → ℚ := Function.update errU18 18 0
def errU20 : ℤ → ℚ := Function.update errU19 6 0
def errU21 : ℤ → ℚ := Function.update errU20 6 0
def errU22 : ℤ → ℚ := Function.update errU21 18 0
def errU23 : ℤ → ℚ := Function.update errU22 8 100
def errU24 : ℤ → ℚ := Function.update errU23 16 0
def errU25 : ℤ → ℚ := Function.update errU24 2 100
def errU26 : ℤ → ℚ := Function.update errU25 22 0
def errU27 : ℤ → ℚ := Function.update errU26 14 100
def errU28 : ℤ → ℚ := Function.update errU27 10 0
def errU29 : ℤ → ℚ := Function.update errU28 12 100
def errU30 : ℤ → ℚ := Function.update errU29 12 100

/-! ### Basic facts about the embedding -/

theorem u16_eq_of_range (x : ℤ) (h0 : 0 ≤ x) (h1 : x < 65536) : u16 x = x := by
  unfold u16; omega

theorem u16_nonneg (x : ℤ) : 0 ≤ u16 x := by unfold u16; omega

theorem u16_lt (x : ℤ) : u16 x < 65536 := by unfold u16; omega

theorem iabs_eq (n : ℤ) : iabs n = |n| := by
  unfold iabs; rcases abs_cases n with ⟨h, _⟩ | ⟨h, _⟩ <;> omega

/-- `updateStep` changes only the `errors` field. -/
theorem updateStep_gridSize (t : Tile) (i : ℕ) : (updateStep t i).gridSize = t.gridSize := by
  unfold updateStep; split <;> rfl

theorem updateStep_terrain (t : Tile) (i : ℕ) : (updateStep t i).terrain = t.terrain := by
  unfold updateStep; split <;> rfl

theorem updateStep_coords (t : Tile) (i : ℕ) : (updateStep t i).coords = t.coords := by
  unfold updateStep; split <;> rfl

theorem updateStep_indices (t : Tile) (i : ℕ) : (updateStep t i).indices = t.indices := by
  unfold updateStep; split <;> rfl

theorem updateStep_numTriangles (t : Tile) (i : ℕ) :
    (updateStep t i).numTriangles = t.numTriangles := by
  unfold updateStep; split <;> rfl

theorem updateStep_numParentTriangles (t : Tile) (i : ℕ) :
    (updateStep t i).numParentTriangles = t.numParentTriangles := by
  unfold updateStep; split <;> rfl

theorem updateAux_gridSize (n : ℕ) (t : Tile) : (updateAux n t).gridSize = t.gridSize := by
  induction n generalizing t with
  | zero => rfl
  | succ n ih => rw [updateAux, ih, updateStep_gridSize]

theorem updateAux_terrain (n : ℕ) (t : Tile) : (updateAux n t).terrain = t.terrain := by
  induction n generalizing t with
  | zero => rfl
  | succ n ih => rw [updateAux, ih, updateStep_terrain]

theorem updateAux_coords (n : ℕ) (t : Tile) : (updateAux n t).coords = t.coords := by
  induction n generalizing t with
  | zero => rfl
  | succ n ih => rw [updateAux, ih, updateStep_coords]

theorem updateAux_indices (n : ℕ) (t : Tile) : (updateAux n t).indices = t.indices := by
  induction n generalizing t with
  | zero => rfl
  | succ n ih => rw [updateAux, ih, updateStep_indices]

theorem updateAux_numTriangles (n : ℕ) (t : Tile) :
    (updateAux n t).numTriangles = t.numTriangles := by
  induction n generalizing t with
  | zero => rfl
  | succ n ih => rw [updateAux, ih, updateStep_numTriangles]

theorem updateAux_numParentTriangles (n : ℕ) (t : Tile) :
    (updateAux n t).numParentTriangles = t.numParentTriangles := by
  induction n generalizing t with
  | zero => rfl
  | succ n ih => rw [updateAux, ih, updateStep_numParentTriangles]

/-! ### Constant terrain gives an all-zero error field -/

/-- On a constant terrain, one `Update` iteration keeps an all-zero error
field all-zero: the interpolated height equals the actual height, and
propagation folds zeros. -/
theorem updateStep_errors_zero (t : Tile) (i : ℕ) (q : ℚ)
    (hterr : ∀ v, t.terrain v = q) (hz : ∀ v, t.errors v = 0) :
    ∀ v, (updateStep t i).errors v = 0 := by
  intro v
  have habs : |(q + q) / 2 - q| = (0 : ℚ) := by rw [abs_eq_zero]; ring
  unfold updateStep
  simp only [hterr, habs]
  split
  · simp [Function.update_apply, hz]
  · simp [Function.update_apply, hz]

theorem updateAux_errors_zero (n : ℕ) (t : Tile) (q : ℚ)
    (hterr : ∀ v, t.terrain v = q) (hz : ∀ v, t.errors v = 0) :
    ∀ v, (updateAux n t).errors v = 0 := by
  induction n generalizing t with
  | zero => exact hz
  | succ n ih =>
    rw [updateAux]
    refine ih _ ?_ (updateStep_errors_zero t n q hterr hz)
    rw [updateStep_terrain]; exact hterr

/-- `computeErrors` on a constant heightfield is identically zero. -/
theorem newTile_errors_zero (m : Martini) (q : ℚ) :
    ∀ v, (newTile m (fun _ => q)).errors v = 0 := by
  unfold newTile tileUpdate
  exact updateAux_errors_zero _ _ q (fun _ => rfl) (fun _ => rfl)

/-! ### Unfolding lemmas for the two descents -/

/-- `countElements` at a triangle where the subdivision test fails: emit a
leaf. -/
theorem countElements_leaf (maxError : ℚ) (fuel : ℕ) (ax ay bx bY cx cy : ℤ)
    (s : Tile × ℤ × ℤ)
    (h : ¬(1 < iabs (ax - cx) + iabs (ay - cy) ∧
        maxError < s.1.errors (asr (ay + bY) * s.1.gridSize + asr (ax + bx)))) :
    countElements maxError (fuel + 1) ax ay bx bY cx cy s =
      some (leafAssign s.1 s.2.1 s.2.2 ax ay bx bY cx cy) := by
  rw [countElements]
  exact if_neg h

/-- `countElements` at a triangle where the subdivision test holds: recurse
into the two children. -/
theorem countElements_rec (maxError : ℚ) (fuel : ℕ) (ax ay bx bY cx cy : ℤ)
    (s : Tile × ℤ × ℤ)
    (h : 1 < iabs (ax - cx) + iabs (ay - cy) ∧
        maxError < s.1.errors (asr (ay + bY) * s.1.gridSize + asr (ax + bx))) :
    countElements maxError (fuel + 1) ax ay bx bY cx cy s =
      (countElements maxError fuel cx cy ax ay (asr (ax + bx)) (asr (ay + bY)) s).bind
        (countElements maxError fuel bx bY cx cy (asr (ax + bx)) (asr (ay + bY))) := by
  rw [countElements]
  exact if_pos h

theorem processTriangle_leaf (t : Tile) (maxError : ℚ) (fuel : ℕ)
    (ax ay bx bY cx cy : ℤ) (st : EmitState)
    (h : ¬(1 < iabs (ax - cx) + iabs (ay - cy) ∧
        maxError < t.errors (asr (ay + bY) * t.gridSize + asr (ax + bx)))) :
    processTriangle t maxError (fuel + 1) ax ay bx bY cx cy st =
      some (emitLeaf t st ax ay bx bY cx cy) := by
  rw [processTriangle]
  exact if_neg h

theorem processTriangle_rec (t : Tile) (maxError : ℚ) (fuel : ℕ)
    (ax ay bx bY cx cy : ℤ) (st : EmitState)
    (h : 1 < iabs (ax - cx) + iabs (ay - cy) ∧
        maxError < t.errors (asr (ay + bY) * t.gridSize + asr (ax + bx))) :
    processTriangle t maxError (fuel + 1) ax ay bx bY cx cy st =
      (processTriangle t maxError fuel cx cy ax ay (asr (ax + bx)) (asr (ay + bY)) st).bind
        (processTriangle t maxError fuel bx bY cx cy (asr (ax + bx)) (asr (ay + bY))) := by
  rw [processTriangle]
  exact if_pos h

/-! ### `NewMartini` / `NewTile` accessors -/

theorem newMartini_eq_ok (g : ℤ) (m : Martini) (h : newMartini g = .ok m) :
    m.gridSize = g ∧ m.numTriangles = numTris (g - 1) ∧
    m.numParentTriangles = numParentTris (g - 1) ∧ m.indices = (fun _ => 0) ∧
    m.coords = coordsAt (g - 1) := by
  simp only [newMartini] at h
  split at h
  · exact absurd h (by simp)
  · split at h
    · exact absurd h (by simp)
    · obtain rfl := Except.ok.inj h
      exact ⟨rfl, rfl, rfl, rfl, rfl⟩

theorem newTile_gridSize (m : Martini) (f : ℤ → ℚ) : (newTile m f).gridSize = m.gridSize := by
  unfold newTile tileUpdate; rw [updateAux_gridSize]

theorem newTile_terrain (m : Martini) (f : ℤ → ℚ) : (newTile m f).terrain = f := by
  unfold newTile tileUpdate; rw [updateAux_terrain]

theorem newTile_coords (m : Martini) (f : ℤ → ℚ) : (newTile m f).coords = m.coords := by
  unfold newTile tileUpdate; rw [updateAux_coords]

theorem newTile_indices (m : Martini) (f : ℤ → ℚ) : (newTile m f).indices = m.indices := by
  unfold newTile tileUpdate; rw [updateAux_indices]

theorem newTile_numTriangles (m : Martini) (f : ℤ → ℚ) :
    (newTile m f).numTriangles = m.numTriangles := by
  unfold newTile tileUpdate; rw [updateAux_numTriangles]

theorem newTile_numParentTriangles (m : Martini) (f : ℤ → ℚ) :
    (newTile m f).numParentTriangles = m.numParentTriangles := by
  unfold newTile tileUpdate; rw [updateAux_numParentTriangles]

/-- Preservation: `assignVertex` changes only `indices` (and the counter). -/
theorem assignVertex_errors (t : Tile) (nv x y : ℤ) :
    (assignVertex t nv x y).1.errors = t.errors := by
  simp only [assignVertex]
  split <;> rfl

theorem assignVertex_gridSize (t : Tile) (nv x y : ℤ) :
    (assignVertex t nv x y).1.gridSize = t.gridSize := by
  simp only [assignVertex]
  split <;> rfl

theorem leafAssign_errors (t : Tile) (nt nv ax ay bx bY cx cy : ℤ) :
    (leafAssign t nt nv ax ay bx bY cx cy).1.errors = t.errors := by
  unfold leafAssign; rw [assignVertex_errors, assignVertex_errors, assignVertex_errors]

theorem leafAssign_gridSize (t : Tile) (nt nv ax ay bx bY cx cy : ℤ) :
    (leafAssign t nt nv ax ay bx bY cx cy).1.gridSize = t.gridSize := by
  unfold leafAssign; rw [assignVertex_gridSize, assignVertex_gridSize, assignVertex_gridSize]

/-- Full evaluation of `GetMesh` at threshold 0 on a tile whose error field
is identically zero: both passes stop at the two root triangles, yielding
the four grid corners and the two root triangles. -/
theorem getMesh_zero_errors (t : Tile) (hz : ∀ v, t.errors v = 0) (hgs : 2 ≤ t.gridSize)
    (fuel : ℕ) :
    (getMesh t 0 (fuel + 1)).map (fun r =>
        (r.2.numVertices, r.2.numTriangles,
         r.2.triangles 0, r.2.triangles 1, r.2.triangles 2,
         r.2.triangles 3, r.2.triangles 4, r.2.triangles 5,
         r.2.vertices 0, r.2.vertices 1, r.2.vertices 2, r.2.vertices 3,
         r.2.vertices 4, r.2.vertices 5, r.2.vertices 6, r.2.vertices 7)) =
      some (4, 2, 0, 1, 2, 1, 0, 3,
            0, 0, u16 (t.gridSize - 1), u16 (t.gridSize - 1),
            u16 (t.gridSize - 1), 0, 0, u16 (t.gridSize - 1)) := by
  have hnc : ∀ (P : Prop) (v : ℤ), ¬(P ∧ (0:ℚ) < t.errors v) := by
    rintro P v ⟨-, h⟩
    rw [hz] at h
    exact lt_irrefl _ h
  have hKM : t.gridSize - 1 + 1 ≤ (t.gridSize - 1) * t.gridSize := by nlinarith
  have n1 : ¬((t.gridSize - 1) * t.gridSize + (t.gridSize - 1) = 0) := by intro h; omega
  have n1' : ¬((0:ℤ) = (t.gridSize - 1) * t.gridSize + (t.gridSize - 1)) := by intro h; omega
  have n2 : ¬((t.gridSize - 1) * t.gridSize + (t.gridSize - 1) = t.gridSize - 1) := by
    intro h; omega
  have n2' : ¬(t.gridSize - 1 = (t.gridSize - 1) * t.gridSize + (t.gridSize - 1)) := by
    intro h; omega
  have n3 : ¬((t.gridSize - 1) * t.gridSize = 0) := by intro h; omega
  have n3' : ¬((0:ℤ) = (t.gridSize - 1) * t.gridSize) := by intro h; omega
  have n4 : ¬((t.gridSize - 1) * t.gridSize = t.gridSize - 1) := by intro h; omega
  have n4' : ¬(t.gridSize - 1 = (t.gridSize - 1) * t.gridSize) := by intro h; omega
  have n5 : ¬((t.gridSize - 1) * t.gridSize = (t.gridSize - 1) * t.gridSize + (t.gridSize - 1)) := by
    intro h; omega
  have n5' : ¬((t.gridSize - 1) * t.gridSize + (t.gridSize - 1) = (t.gridSize - 1) * t.gridSize) := by
    intro h; omega
  have n6 : ¬(t.gridSize - 1 = 0) := by omega
  have n6' : ¬((0:ℤ) = t.gridSize - 1) := by omega
  have hA : ∀ z : ℤ, 0 * z + 0 = 0 := fun z => by ring
  have hB : ∀ z w : ℤ, 0 * z + w = w := fun z w => by ring
  have hu0 : u16 0 = 0 := by decide
  have hu1 : u16 1 = 1 := by decide
  have hu2 : u16 2 = 2 := by decide
  have hu3 : u16 3 = 3 := by decide
  have hu4 : u16 4 = 4 := by decide
  have hu5 : u16 5 = 5 := by decide
  have hu6 : u16 6 = 6 := by decide
  have hu7 : u16 7 = 7 := by decide
  have hq1 : ¬((1:ℤ) = 0) := by omega
  have hq2 : ¬((2:ℤ) = 0) := by omega
  have hq3 : ¬((3:ℤ) = 0) := by omega
  have hq4 : ¬((4:ℤ) = 0) := by omega
  have ha11 : (1:ℤ) + 1 = 2 := by omega
  have ha21 : (2:ℤ) + 1 = 3 := by omega
  have ha31 : (3:ℤ) + 1 = 4 := by omega
  have ha32 : (3:ℤ) + 2 = 5 := by omega
  have ha33 : (3:ℤ) + 3 = 6 := by omega
  have ha41 : (4:ℤ) + 1 = 5 := by omega
  have ha61 : (6:ℤ) + 1 = 7 := by omega
  have hm20 : (2:ℤ) * 0 = 0 := by omega
  have hm21 : (2:ℤ) * 1 = 2 := by omega
  have hm22 : (2:ℤ) * 2 = 4 := by omega
  have hm23 : (2:ℤ) * 3 = 6 := by omega
  have hs11 : (1:ℤ) - 1 = 0 := by omega
  have hs21 : (2:ℤ) - 1 = 1 := by omega
  have hs31 : (3:ℤ) - 1 = 2 := by omega
  have hs41 : (4:ℤ) - 1 = 3 := by omega
  simp only [getMesh, countElements, processTriangle, leafAssign, assignVertex, emitLeaf,
    hnc, hu0, hu1, hu2, hu3, hu4, hu5, hu6, hu7,
    n1, n1', n2, n2', n3, n3', n4, n4', n5, n5', n6, n6',
    hq1, hq2, hq3, hq4, ha11, ha21, ha31, ha32, ha33, ha41, ha61,
    hm20, hm21, hm22, hm23, hs11, hs21, hs31, hs41, hA, hB,
    Function.update_apply, eq_self_iff_true,
    and_false, if_false, ite_false, if_true, ite_true,
    add_zero, zero_add, Option.some_bind, Option.map_some]
  norm_num [Function.update_apply]

/-- C2: for every valid grid size (`gridSize = 2^n + 1`), if every element
of the heightfield is the same constant then `computeErrors`
(`NewTile` + `Update`) produces an error field whose entries are all
exactly zero, and extracting a mesh from it with `maxError = 0` returns
exactly 4 vertices and exactly 2 triangles. -/
theorem claim_C2 (n : ℕ) (q : ℚ) (m : Martini)
    (hm : newMartini (2 ^ n + 1) = .ok m) (fuel : ℕ) :
    (∀ v, (newTile m (fun _ => q)).errors v = 0) ∧
    ∃ r, getMesh (newTile m (fun _ => q)) 0 (fuel + 1) = some r ∧
      r.2.numVertices = 4 ∧ r.2.numTriangles = 2 := by
  have hz := newTile_errors_zero m q
  have hgs : (newTile m (fun _ => q)).gridSize = 2 ^ n + 1 := by
    rw [newTile_gridSize, (newMartini_eq_ok _ _ hm).1]
  refine ⟨hz, ?_⟩
  have hpow : (0:ℤ) < 2 ^ n := by positivity
  have h2 : 2 ≤ (newTile m (fun _ => q)).gridSize := by rw [hgs]; omega
  have hev := getMesh_zero_errors _ hz h2 fuel
  rw [Option.map_eq_some'] at hev
  obtain ⟨r, hr, hval⟩ := hev
  simp only [Prod.mk.injEq] at hval
  exact ⟨r, hr, hval.1, hval.2.1⟩

/-- Witness for C2 at `n = 1` (grid 3×3), constant height 5. -/
theorem claim_C2_witness :
    (∀ v, (newTile martini3 (fun _ => (5:ℚ))).errors v = 0) ∧
    ∃ r, getMesh (newTile martini3 (fun _ => (5:ℚ))) 0 (0 + 1) = some r ∧
      r.2.numVertices = 4 ∧ r.2.numTriangles = 2 :=
  claim_C2 1 5 martini3 rfl 0

/-! ### The `tileSize & (tileSize-1)` power-of-two test -/

theorem nat_land_self (m : ℕ) : m &&& m = m := by
  apply Nat.eq_of_testBit_eq
  intro i
  simp [Nat.testBit_land]

theorem land_even_odd (a b : ℕ) : (2 * a) &&& (2 * b + 1) = 2 * (a &&& b) := by
  have h1 : 2 * a = Nat.bit false a := by simp [Nat.bit]
  have h2 : 2 * b + 1 = Nat.bit true b := by simp [Nat.bit]
  rw [h1, h2, Nat.land_bit]
  simp [Nat.bit]

theorem land_odd_even (a b : ℕ) : (2 * a + 1) &&& (2 * b) = 2 * (a &&& b) := by
  have h1 : 2 * a + 1 = Nat.bit true a := by simp [Nat.bit]
  have h2 : 2 * b = Nat.bit false b := by simp [Nat.bit]
  rw [h1, h2, Nat.land_bit]
  simp [Nat.bit]

/-- For `n ≥ 1`, `n & (n-1) = 0` iff `n` is a power of two: the classical
bit trick used by `NewMartini` to validate the tile size. -/
theorem land_pred_eq_zero_iff : ∀ n : ℕ, 1 ≤ n → (n &&& (n - 1) = 0 ↔ ∃ k : ℕ, n = 2 ^ k) := by
  intro n
  induction n using Nat.strong_induction_on with
  | _ n ih =>
    intro hn
    rcases Nat.even_or_odd n with ⟨m, hm⟩ | ⟨m, hm⟩
    · -- n = 2m, m ≥ 1
      have hm2 : n = 2 * m := by omega
      have hm1 : 1 ≤ m := by omega
      have hsub : n - 1 = 2 * (m - 1) + 1 := by omega
      have hbit : n &&& (n - 1) = 2 * (m &&& (m - 1)) := by
        rw [hsub, hm2, land_even_odd]
      rw [hbit]
      constructor
      · intro h
        obtain ⟨k, hk⟩ := (ih m (by omega) hm1).mp (by omega)
        exact ⟨k + 1, by rw [pow_succ]; omega⟩
      · rintro ⟨k, hk⟩
        rcases k with - | j
        · simp at hk; omega
        · have hj : m = 2 ^ j := by rw [pow_succ] at hk; omega
          have := (ih m (by omega) hm1).mpr ⟨j, hj⟩
          omega
    · -- n = 2m + 1
      have hm2 : n = 2 * m + 1 := hm
      rcases Nat.eq_or_lt_of_le hn with h1 | h3
      · -- n = 1
        obtain rfl : n = 1 := h1.symm
        constructor
        · intro _; exact ⟨0, rfl⟩
        · intro _; decide
      · -- n odd keyword ≥ 3, so m ≥ 1: land is 2m ≠ 0 and n is not a power of two
        have hm1 : 1 ≤ m := by omega
        have hsub : n - 1 = 2 * m := by omega
        have hbit : n &&& (n - 1) = 2 * m := by
          rw [hsub, hm2, land_odd_even, nat_land_self]
        rw [hbit]
        constructor
        · intro h; omega
        · rintro ⟨k, hk⟩
          rcases k with - | j
          · simp at hk; omega
          · rw [pow_succ] at hk; omega

/-- Bridge to `ℤ`: the test `tileSize & (tileSize-1) > 0` computed by
`NewMartini`, for positive tile sizes. -/
theorem int_land_pred_pos_iff (t : ℤ) (ht : 1 ≤ t) :
    (Int.land t (t - 1) > 0) ↔ ¬∃ k : ℕ, t = 2 ^ k := by
  obtain ⟨n, rfl⟩ := Int.eq_ofNat_of_zero_le (by omega : (0:ℤ) ≤ t)
  have hn : 1 ≤ n := by omega
  have hsub : (n : ℤ) - 1 = ((n - 1 : ℕ) : ℤ) := by omega
  have hland : Int.land (n : ℤ) ((n : ℤ) - 1) = ((n &&& (n - 1) : ℕ) : ℤ) := by
    rw [hsub]; rfl
  rw [hland]
  have hiff := land_pred_eq_zero_iff n hn
  constructor
  · rintro hpos ⟨k, hk⟩
    have hnk : n = 2 ^ k := by exact_mod_cast hk
    have h0 := hiff.mpr ⟨k, hnk⟩
    rw [h0] at hpos
    simp at hpos
  · intro hnp
    rcases Nat.eq_zero_or_pos (n &&& (n - 1)) with h0 | hpos
    · obtain ⟨k, hk⟩ := hiff.mp h0
      refine absurd ⟨k, ?_⟩ hnp
      rw [hk]
      push_cast
      ring
    · omega

/-- For `gridSize ≤ 1` the bitmask test never fires: the tile size is
non-positive and a two's-complement AND of non-positives is
non-positive. -/
theorem land_pred_not_pos (g : ℤ) (hg : g ≤ 1) :
    ¬Int.land (g - 1) (g - 1 - 1) > 0 := by
  rcases eq_or_lt_of_le hg with rfl | hlt
  · rw [show ((1:ℤ) - 1 - 1) = -1 by norm_num, show ((1:ℤ) - 1) = 0 by norm_num]
    have hld0 : Nat.ldiff 0 0 = 0 := by
      apply Nat.eq_of_testBit_eq
      intro i
      simp [Nat.testBit_ldiff]
    have hl : Int.land 0 (-1) = ((Nat.ldiff 0 0 : ℕ) : ℤ) := rfl
    rw [hl, hld0]
    decide
  · have hneg : ∃ m : ℕ, g - 1 = Int.negSucc m := by
      refine ⟨(-(g - 1) - 1).toNat, ?_⟩
      rw [Int.negSucc_eq]
      omega
    obtain ⟨m, hm⟩ := hneg
    have hm2 : g - 1 - 1 = Int.negSucc (m + 1) := by
      rw [Int.negSucc_eq] at hm ⊢
      omega
    rw [hm2, hm]
    have hld : Int.land (Int.negSucc m) (Int.negSucc (m + 1)) = Int.negSucc (m ||| (m + 1)) := rfl
    rw [hld]
    have hlt0 := Int.negSucc_lt_zero (m ||| (m + 1))
    omega

/-- At `gridSize = 1` the mask test passes but `NumTriangles = -2`, so the
`make` at line 29 asks for length `-8` and panics. -/
theorem newMartini_one : newMartini 1 = .error .makePanic := by
  simp only [newMartini]
  rw [if_neg (land_pred_not_pos 1 le_rfl), if_pos (by norm_num [numTris])]

/-- For `gridSize ≤ 0` the tile size is at most `-1`: the mask test never
fires and `NumTriangles = 2·tileSize² − 2 ≥ 0`, so construction
succeeds. -/
theorem newMartini_nonpos (g : ℤ) (hg : g ≤ 0) : ∃ m, newMartini g = .ok m := by
  have h1 : ¬Int.land (g - 1) (g - 1 - 1) > 0 := land_pred_not_pos g (by omega)
  have h2 : ¬numTris (g - 1) * 4 < 0 := by
    have hsq : 1 ≤ (g - 1) * (g - 1) := by nlinarith
    simp only [numTris]
    nlinarith
  exact ⟨_, by simp only [newMartini]; rw [if_neg h1, if_neg h2]⟩

theorem newMartini_invalid_iff (g : ℤ) :
    newMartini g = .error .invalidGridSize ↔ Int.land (g - 1) (g - 1 - 1) > 0 := by
  simp only [newMartini]
  constructor
  · intro heq
    by_contra hc
    rw [if_neg hc] at heq
    split at heq <;> simp_all
  · intro hc
    rw [if_pos hc]

/-- Counterexample to C7 as stated: `buildIndex(0)` succeeds (the mask
test does not fire on the negative tile size `-1`, and the `make` lengths
are non-negative) although `0 - 1 = -1` is not a power of two — so
"returns the InvalidGridSize error iff gridSize − 1 is not a power of two"
is false at `gridSize = 0`.  (At `gridSize = 1` the claim also fails
differently: the code panics in `make` instead of returning the
error.) -/
theorem claim_C7_counterexample :
    (∃ m, newMartini 0 = .ok m) ∧ ¬∃ k : ℕ, (0:ℤ) - 1 = 2 ^ k := by
  refine ⟨newMartini_nonpos 0 le_rfl, ?_⟩
  rintro ⟨k, hk⟩
  have : (0:ℤ) < 2 ^ k := by positivity
  omega

/-- C7 (amended): for `gridSize ≥ 2`, `NewMartini` returns the
`InvalidGridSize` error iff `gridSize − 1` is not a power of two (and on
failure only the error is returned, so no table state is exposed);
`buildIndex(513)` succeeds and `buildIndex(512)` fails.  Outside that
range the stated equivalence breaks: at `gridSize = 1` the code panics in
`make([]uint16, NumTriangles*4)` (length `-8`), and for `gridSize ≤ 0`
construction succeeds even though `gridSize − 1` is negative. -/
theorem claim_C7 (g : ℤ) (hg : 2 ≤ g) :
    (newMartini g = .error .invalidGridSize ↔ ¬∃ k : ℕ, g - 1 = 2 ^ k) ∧
    newMartini 1 = .error .makePanic ∧
    (∀ g' : ℤ, g' ≤ 0 → ∃ m, newMartini g' = .ok m) ∧
    (∃ m, newMartini 513 = .ok m) ∧ newMartini 512 = .error .invalidGridSize := by
  refine ⟨?_, newMartini_one, fun g' h => newMartini_nonpos g' h, ⟨_, rfl⟩, rfl⟩
  rw [newMartini_invalid_iff]
  exact int_land_pred_pos_iff (g - 1) (by omega)

/-- Witness for C7 at `gridSize = 513`. -/
theorem claim_C7_witness :
    (2:ℤ) ≤ 513 ∧
    ((newMartini 513 = .error .invalidGridSize ↔ ¬∃ k : ℕ, (513:ℤ) - 1 = 2 ^ k) ∧
     newMartini 1 = .error .makePanic ∧
     (∀ g' : ℤ, g' ≤ 0 → ∃ m, newMartini g' = .ok m) ∧
     (∃ m, newMartini 513 = .ok m) ∧ newMartini 512 = .error .invalidGridSize) :=
  ⟨by norm_num, claim_C7 513 (by norm_num)⟩

/-! ### The two passes as folds over the leaf list -/

theorem assignVertex_eq (t : Tile) (nv x y : ℤ) :
    assignVertex t nv x y =
      ({ t with indices := (assignStep (t.indices, nv) (y * t.gridSize + x)).1 },
        (assignStep (t.indices, nv) (y * t.gridSize + x)).2) := by
  simp only [assignVertex, assignStep]
  by_cases h : t.indices (y * t.gridSize + x) = 0 <;> simp [h]

theorem assignSeq_append (xs ys : List ℤ) (p : (ℤ → ℤ) × ℤ) :
    assignSeq (xs ++ ys) p = assignSeq ys (assignSeq xs p) := by
  induction xs generalizing p with
  | nil => rfl
  | cons v vs ih => simp only [List.cons_append, List.append_eq, assignSeq, ih]

theorem leafAssign_eq (t : Tile) (nt nv ax ay bx bY cx cy : ℤ) :
    leafAssign t nt nv ax ay bx bY cx cy =
      ({ t with indices :=
            (assignSeq [ay * t.gridSize + ax, bY * t.gridSize + bx, cy * t.gridSize + cx]
              (t.indices, nv)).1 },
        nt + 1,
        (assignSeq [ay * t.gridSize + ax, bY * t.gridSize + bx, cy * t.gridSize + cx]
          (t.indices, nv)).2) := by
  simp only [leafAssign, assignVertex_eq, assignSeq]

theorem assignLeaves_append (L1 L2 : List (ℤ × ℤ × ℤ × ℤ × ℤ × ℤ)) (s : Tile × ℤ × ℤ) :
    assignLeaves (L1 ++ L2) s = assignLeaves L2 (assignLeaves L1 s) := by
  induction L1 generalizing s with
  | nil => rfl
  | cons l ls ih => simp only [List.cons_append, List.append_eq, assignLeaves, ih]

theorem emitLeaves_append (t : Tile) (L1 L2 : List (ℤ × ℤ × ℤ × ℤ × ℤ × ℤ)) (st : EmitState) :
    emitLeaves t (L1 ++ L2) st = emitLeaves t L2 (emitLeaves t L1 st) := by
  induction L1 generalizing st with
  | nil => rfl
  | cons l ls ih => simp only [List.cons_append, List.append_eq, emitLeaves, ih]

theorem cornerList_cons (l : ℤ × ℤ × ℤ × ℤ × ℤ × ℤ) (ls : List (ℤ × ℤ × ℤ × ℤ × ℤ × ℤ)) :
    cornerList (l :: ls) =
      [(l.1, l.2.1), (l.2.2.1, l.2.2.2.1), (l.2.2.2.2.1, l.2.2.2.2.2)] ++ cornerList ls := by
  simp [cornerList]

theorem cornerList_append (L1 L2 : List (ℤ × ℤ × ℤ × ℤ × ℤ × ℤ)) :
    cornerList (L1 ++ L2) = cornerList L1 ++ cornerList L2 := by
  simp [cornerList]

/-- `assignLeaves` in closed form: only `indices` changes (driven by
`assignSeq` over the flattened corners), the triangle counter advances by
the number of leaves. -/
theorem assignLeaves_eq (L : List (ℤ × ℤ × ℤ × ℤ × ℤ × ℤ)) :
    ∀ s : Tile × ℤ × ℤ,
    assignLeaves L s =
      ({ s.1 with indices := (assignSeq (flatCorners s.1.gridSize L) (s.1.indices, s.2.2)).1 },
        s.2.1 + L.length,
        (assignSeq (flatCorners s.1.gridSize L) (s.1.indices, s.2.2)).2) := by
  induction L with
  | nil => intro s; simp [flatCorners, cornerList, assignSeq, assignLeaves]
  | cons l ls ih =>
    intro s
    rw [assignLeaves, leafAssign_eq, ih]
    have hfc : flatCorners s.1.gridSize (l :: ls) =
        [l.2.1 * s.1.gridSize + l.1, l.2.2.2.1 * s.1.gridSize + l.2.2.1,
         l.2.2.2.2.2 * s.1.gridSize + l.2.2.2.2.1] ++ flatCorners s.1.gridSize ls := by
      simp [flatCorners, cornerList_cons, flatIdx]
    rw [hfc, assignSeq_append]
    simp only [Prod.mk.injEq, List.length_cons, and_true, true_and]
    push_cast
    omega

theorem assignLeaves_fst_errors (L : List (ℤ × ℤ × ℤ × ℤ × ℤ × ℤ)) (s : Tile × ℤ × ℤ) :
    (assignLeaves L s).1.errors = s.1.errors := by
  rw [assignLeaves_eq]

theorem assignLeaves_fst_gridSize (L : List (ℤ × ℤ × ℤ × ℤ × ℤ × ℤ)) (s : Tile × ℤ × ℤ) :
    (assignLeaves L s).1.gridSize = s.1.gridSize := by
  rw [assignLeaves_eq]

/-- The count pass is the fold of leaf assignments over the leaf list. -/
theorem countElements_eq (maxError : ℚ) :
    ∀ (fuel : ℕ) (ax ay bx bY cx cy : ℤ) (s : Tile × ℤ × ℤ),
    countElements maxError fuel ax ay bx bY cx cy s =
      (leafTris s.1.errors s.1.gridSize maxError fuel ax ay bx bY cx cy).map
        (fun L => assignLeaves L s) := by
  intro fuel
  induction fuel with
  | zero => intros; rfl
  | succ fuel ih =>
    intro ax ay bx bY cx cy s
    simp only [countElements, leafTris]
    by_cases h : 1 < iabs (ax - cx) + iabs (ay - cy) ∧
        maxError < s.1.errors (asr (ay + bY) * s.1.gridSize + asr (ax + bx))
    · rw [if_pos h, if_pos h, ih]
      cases h1 : leafTris s.1.errors s.1.gridSize maxError fuel cx cy ax ay
          (asr (ax + bx)) (asr (ay + bY)) with
      | none => simp
      | some L1 =>
        simp only [Option.map_some', Option.some_bind]
        rw [ih, assignLeaves_fst_errors, assignLeaves_fst_gridSize]
        cases h2 : leafTris s.1.errors s.1.gridSize maxError fuel bx bY cx cy
            (asr (ax + bx)) (asr (ay + bY)) with
        | none => simp
        | some L2 => simp [assignLeaves_append]
    · rw [if_neg h, if_neg h]
      rfl

/-- The emit pass is the fold of leaf emissions over the same leaf list. -/
theorem processTriangle_eq (t : Tile) (maxError : ℚ) :
    ∀ (fuel : ℕ) (ax ay bx bY cx cy : ℤ) (st : EmitState),
    processTriangle t maxError fuel ax ay bx bY cx cy st =
      (leafTris t.errors t.gridSize maxError fuel ax ay bx bY cx cy).map
        (fun L => emitLeaves t L st) := by
  intro fuel
  induction fuel with
  | zero => intros; rfl
  | succ fuel ih =>
    intro ax ay bx bY cx cy st
    simp only [processTriangle, leafTris]
    by_cases h : 1 < iabs (ax - cx) + iabs (ay - cy) ∧
        maxError < t.errors (asr (ay + bY) * t.gridSize + asr (ax + bx))
    · rw [if_pos h, if_pos h, ih]
      cases h1 : leafTris t.errors t.gridSize maxError fuel cx cy ax ay
          (asr (ax + bx)) (asr (ay + bY)) with
      | none => simp
      | some L1 =>
        simp only [Option.map_some', Option.some_bind]
        rw [ih]
        cases h2 : leafTris t.errors t.gridSize maxError fuel bx bY cx cy
            (asr (ax + bx)) (asr (ay + bY)) with
        | none => simp
        | some L2 => simp [emitLeaves_append]
    · rw [if_neg h, if_neg h]
      rfl

/-- `GetMesh` in closed form, given that both root descents complete:
the returned tile has `Indices` rebuilt by `assignSeq` over the flattened
corners of `L1 ++ L2` starting from the zeroed scratch; the mesh counters
are the final assignment counter and the number of leaves; the arrays are
the fold of leaf emissions over the same list. -/
theorem getMesh_eq (t : Tile) (e : ℚ) (fuel : ℕ) :
    getMesh t e fuel =
      (leafTris t.errors t.gridSize e fuel 0 0 (t.gridSize - 1) (t.gridSize - 1)
          (t.gridSize - 1) 0).bind fun L1 =>
        (leafTris t.errors t.gridSize e fuel (t.gridSize - 1) (t.gridSize - 1) 0 0 0
            (t.gridSize - 1)).map fun L2 =>
          (({ t with indices :=
                (assignSeq (flatCorners t.gridSize (L1 ++ L2)) (fun _ => 0, 0)).1 },
            { numVertices := (assignSeq (flatCorners t.gridSize (L1 ++ L2)) (fun _ => 0, 0)).2
              numTriangles := ((L1 ++ L2).length : ℤ)
              vertices :=
                (emitLeaves
                  { t with indices :=
                      (assignSeq (flatCorners t.gridSize (L1 ++ L2)) (fun _ => 0, 0)).1 }
                  (L1 ++ L2)
                  { triIndex := 0, vertices := fun _ => 0, triangles := fun _ => 0 }).vertices
              triangles :=
                (emitLeaves
                  { t with indices :=
                      (assignSeq (flatCorners t.gridSize (L1 ++ L2)) (fun _ => 0, 0)).1 }
                  (L1 ++ L2)
                  { triIndex := 0, vertices := fun _ => 0,
                    triangles := fun _ => 0 }).triangles })) := by
  simp only [getMesh]
  rw [countElements_eq]
  dsimp only
  cases h1 : leafTris t.errors t.gridSize e fuel 0 0 (t.gridSize - 1) (t.gridSize - 1)
      (t.gridSize - 1) 0 with
  | none => simp
  | some L1 =>
    simp only [Option.map_some', Option.some_bind]
    rw [countElements_eq, assignLeaves_fst_errors, assignLeaves_fst_gridSize]
    dsimp only
    cases h2 : leafTris t.errors t.gridSize e fuel (t.gridSize - 1) (t.gridSize - 1) 0 0 0
        (t.gridSize - 1) with
    | none => simp
    | some L2 =>
      simp only [Option.map_some', Option.some_bind]
      rw [← assignLeaves_append, assignLeaves_eq]
      dsimp only
      rw [processTriangle_eq, h1]
      simp only [Option.map_some', Option.some_bind]
      rw [processTriangle_eq, h2]
      simp only [Option.map_some', Option.map_some]
      rw [emitLeaves_append]
      simp only [zero_add]

/-! ### Properties of the leaf list -/

/-- Every leaf in a completed descent fails the subdivision test (it is
either a unit triangle or its midpoint error is within the threshold). -/
theorem leafTris_mem_not (errors : ℤ → ℚ) (size : ℤ) (e : ℚ) :
    ∀ (fuel : ℕ) (ax ay bx bY cx cy : ℤ) (L : List (ℤ × ℤ × ℤ × ℤ × ℤ × ℤ)),
    leafTris errors size e fuel ax ay bx bY cx cy = some L →
    ∀ l ∈ L, ¬(1 < iabs (l.1 - l.2.2.2.2.1) + iabs (l.2.1 - l.2.2.2.2.2) ∧
        e < errors (asr (l.2.1 + l.2.2.2.1) * size + asr (l.1 + l.2.2.1))) := by
  intro fuel
  induction fuel with
  | zero => intro _ _ _ _ _ _ L h; exact absurd h (by simp [leafTris])
  | succ fuel ih =>
    intro ax ay bx bY cx cy L h l hl
    simp only [leafTris] at h
    by_cases hc : 1 < iabs (ax - cx) + iabs (ay - cy) ∧
        e < errors (asr (ay + bY) * size + asr (ax + bx))
    · rw [if_pos hc] at h
      cases ha : leafTris errors size e fuel cx cy ax ay (asr (ax + bx)) (asr (ay + bY)) with
      | none => rw [ha] at h; exact absurd h (by simp)
      | some A =>
        rw [ha] at h
        cases hb : leafTris errors size e fuel bx bY cx cy (asr (ax + bx)) (asr (ay + bY)) with
        | none => rw [hb] at h; exact absurd h (by simp)
        | some B =>
          rw [hb] at h
          simp only [Option.some_bind, Option.map_some', Option.some.injEq] at h
          subst h
          rcases List.mem_append.mp hl with hA | hB
          · exact ih cx cy ax ay (asr (ax + bx)) (asr (ay + bY)) A ha l hA
          · exact ih bx bY cx cy (asr (ax + bx)) (asr (ay + bY)) B hb l hB
    · rw [if_neg hc] at h
      obtain rfl := Option.some.inj h
      rcases List.mem_singleton.mp hl with rfl
      exact hc

/-- The three corners of the start triangle appear among the corners of
its leaf list (corners survive bisection), and the leaf list is
non-empty. -/
theorem leafTris_corners (errors : ℤ → ℚ) (size : ℤ) (e : ℚ) :
    ∀ (fuel : ℕ) (ax ay bx bY cx cy : ℤ) (L : List (ℤ × ℤ × ℤ × ℤ × ℤ × ℤ)),
    leafTris errors size e fuel ax ay bx bY cx cy = some L →
    ((ax, ay) ∈ cornerList L ∧ (bx, bY) ∈ cornerList L ∧ (cx, cy) ∈ cornerList L) ∧
      1 ≤ L.length := by
  intro fuel
  induction fuel with
  | zero => intro _ _ _ _ _ _ L h; exact absurd h (by simp [leafTris])
  | succ fuel ih =>
    intro ax ay bx bY cx cy L h
    simp only [leafTris] at h
    by_cases hc : 1 < iabs (ax - cx) + iabs (ay - cy) ∧
        e < errors (asr (ay + bY) * size + asr (ax + bx))
    · rw [if_pos hc] at h
      cases ha : leafTris errors size e fuel cx cy ax ay (asr (ax + bx)) (asr (ay + bY)) with
      | none => rw [ha] at h; exact absurd h (by simp)
      | some A =>
        rw [ha] at h
        cases hb : leafTris errors size e fuel bx bY cx cy (asr (ax + bx)) (asr (ay + bY)) with
        | none => rw [hb] at h; exact absurd h (by simp)
        | some B =>
          rw [hb] at h
          simp only [Option.some_bind, Option.map_some', Option.some.injEq] at h
          subst h
          obtain ⟨⟨hAc, hAa, _⟩, hAlen⟩ := ih cx cy ax ay (asr (ax + bx)) (asr (ay + bY)) A ha
          obtain ⟨⟨hBb, _, _⟩, _⟩ := ih bx bY cx cy (asr (ax + bx)) (asr (ay + bY)) B hb
          rw [cornerList_append]
          refine ⟨⟨?_, ?_, ?_⟩, ?_⟩
          · exact List.mem_append.mpr (Or.inl hAa)
          · exact List.mem_append.mpr (Or.inr hBb)
          · exact List.mem_append.mpr (Or.inl hAc)
          · simp only [List.length_append]; omega
    · rw [if_neg hc] at h
      obtain rfl := Option.some.inj h
      refine ⟨⟨?_, ?_, ?_⟩, by simp⟩ <;> simp [cornerList]

/-- Raising the threshold prunes the recursion tree: the coarser run
completes whenever the finer one does, with no more leaves and with its
leaf corners a subset of the finer run's leaf corners. -/
theorem leafTris_mono (errors : ℤ → ℚ) (size : ℤ) (e1 e2 : ℚ) (h12 : e1 ≤ e2) :
    ∀ (fuel : ℕ) (ax ay bx bY cx cy : ℤ) (L1 : List (ℤ × ℤ × ℤ × ℤ × ℤ × ℤ)),
    leafTris errors size e1 fuel ax ay bx bY cx cy = some L1 →
    ∃ L2, leafTris errors size e2 fuel ax ay bx bY cx cy = some L2 ∧
      L2.length ≤ L1.length ∧ ∀ p ∈ cornerList L2, p ∈ cornerList L1 := by
  intro fuel
  induction fuel with
  | zero => intro _ _ _ _ _ _ L h; exact absurd h (by simp [leafTris])
  | succ fuel ih =>
    intro ax ay bx bY cx cy L1 h1
    simp only [leafTris] at h1 ⊢
    by_cases hc2 : 1 < iabs (ax - cx) + iabs (ay - cy) ∧
        e2 < errors (asr (ay + bY) * size + asr (ax + bx))
    · have hc1 : 1 < iabs (ax - cx) + iabs (ay - cy) ∧
          e1 < errors (asr (ay + bY) * size + asr (ax + bx)) :=
        ⟨hc2.1, lt_of_le_of_lt h12 hc2.2⟩
      rw [if_pos hc1] at h1
      rw [if_pos hc2]
      cases ha : leafTris errors size e1 fuel cx cy ax ay (asr (ax + bx)) (asr (ay + bY)) with
      | none => rw [ha] at h1; exact absurd h1 (by simp)
      | some A1 =>
        rw [ha] at h1
        cases hb : leafTris errors size e1 fuel bx bY cx cy (asr (ax + bx)) (asr (ay + bY)) with
        | none => rw [hb] at h1; exact absurd h1 (by simp)
        | some B1 =>
          rw [hb] at h1
          simp only [Option.some_bind, Option.map_some', Option.some.injEq] at h1
          subst h1
          obtain ⟨A2, hA2, hAlen, hAsub⟩ := ih cx cy ax ay (asr (ax + bx)) (asr (ay + bY)) A1 ha
          obtain ⟨B2, hB2, hBlen, hBsub⟩ := ih bx bY cx cy (asr (ax + bx)) (asr (ay + bY)) B1 hb
          refine ⟨A2 ++ B2, ?_, ?_, ?_⟩
          · rw [hA2, hB2]; rfl
          · simp only [List.length_append]; omega
          · intro p hp
            rw [cornerList_append] at hp ⊢
            rcases List.mem_append.mp hp with h | h
            · exact List.mem_append.mpr (Or.inl (hAsub p h))
            · exact List.mem_append.mpr (Or.inr (hBsub p h))
    · rw [if_neg hc2]
      by_cases hc1 : 1 < iabs (ax - cx) + iabs (ay - cy) ∧
          e1 < errors (asr (ay + bY) * size + asr (ax + bx))
      · rw [if_pos hc1] at h1
        cases ha : leafTris errors size e1 fuel cx cy ax ay (asr (ax + bx)) (asr (ay + bY)) with
        | none => rw [ha] at h1; exact absurd h1 (by simp)
        | some A1 =>
          rw [ha] at h1
          cases hb : leafTris errors size e1 fuel bx bY cx cy (asr (ax + bx)) (asr (ay + bY)) with
          | none => rw [hb] at h1; exact absurd h1 (by simp)
          | some B1 =>
            rw [hb] at h1
            simp only [Option.some_bind, Option.map_some', Option.some.injEq] at h1
            subst h1
            obtain ⟨⟨hAc, hAa, _⟩, hAlen⟩ :=
              leafTris_corners errors size e1 fuel cx cy ax ay (asr (ax + bx)) (asr (ay + bY)) A1 ha
            obtain ⟨⟨hBb, _, _⟩, _⟩ :=
              leafTris_corners errors size e1 fuel bx bY cx cy (asr (ax + bx)) (asr (ay + bY)) B1 hb
            refine ⟨[(ax, ay, bx, bY, cx, cy)], rfl, ?_, ?_⟩
            · simp only [List.length_append, List.length_singleton]; omega
            · intro p hp
              rw [cornerList_append]
              simp only [cornerList, List.flatMap_cons, List.flatMap_nil, List.append_nil,
                List.mem_cons, List.not_mem_nil, or_false] at hp
              rcases hp with rfl | rfl | rfl
              · exact List.mem_append.mpr (Or.inl hAa)
              · exact List.mem_append.mpr (Or.inr hBb)
              · exact List.mem_append.mpr (Or.inl hAc)
      · rw [if_neg hc1] at h1
        obtain rfl := Option.some.inj h1
        exact ⟨_, rfl, le_refl _, fun p hp => hp⟩

/-! ### The vertex-assignment counter -/

theorem assignSeq_counter_le (vs : List ℤ) : ∀ p : (ℤ → ℤ) × ℤ, p.2 ≤ (assignSeq vs p).2 := by
  induction vs with
  | nil => intro p; exact le_refl _
  | cons v vs ih =>
    intro p
    have h1 : p.2 ≤ (assignStep p v).2 := by
      unfold assignStep
      split <;> simp
    exact le_trans h1 (ih _)

/-- Exact characterization of the assignment pass, under the a-priori
bound that the available counter room does not overflow `uint16`: the
final counter advances by the number of distinct not-yet-assigned
vertices in the list, and a vertex ends up assigned (nonzero index) iff
it was assigned before or occurs in the list. -/
theorem assignSeq_spec (vs : List ℤ) :
    ∀ (f : ℤ → ℤ) (nv : ℤ), 0 ≤ nv →
    nv + ((vs.toFinset.filter (fun v => f v = 0)).card : ℤ) ≤ 65535 →
    (assignSeq vs (f, nv)).2 = nv + ((vs.toFinset.filter (fun v => f v = 0)).card : ℤ) ∧
    ∀ v, ((assignSeq vs (f, nv)).1 v ≠ 0 ↔ (f v ≠ 0 ∨ v ∈ vs)) := by
  induction vs with
  | nil =>
    intro f nv h0 _
    refine ⟨by simp [assignSeq], ?_⟩
    intro v
    simp [assignSeq]
  | cons v vs ih =>
    intro f nv h0 hbound
    by_cases hv : f v = 0
    · -- v gets assigned value u16 (nv+1) = nv+1
      have hvS : v ∈ (v :: vs).toFinset.filter (fun w => f w = 0) := by
        simp [hv]
      have hS : (v :: vs).toFinset.filter (fun w => f w = 0) =
          insert v (vs.toFinset.filter (fun w => f w = 0)) := by
        rw [List.toFinset_cons, Finset.filter_insert, if_pos hv]
      have hcard : ((v :: vs).toFinset.filter (fun w => f w = 0)).card =
          ((vs.toFinset.filter (fun w => f w = 0)).erase v).card + 1 := by
        rw [hS]
        by_cases hm : v ∈ vs.toFinset.filter (fun w => f w = 0)
        · rw [Finset.insert_eq_self.mpr hm, Finset.card_erase_of_mem hm]
          have := Finset.card_pos.mpr ⟨v, hm⟩
          omega
        · rw [Finset.card_insert_of_not_mem hm, Finset.erase_eq_of_not_mem hm]
      have hcard1 : 1 ≤ ((v :: vs).toFinset.filter (fun w => f w = 0)).card :=
        Finset.card_pos.mpr ⟨v, hvS⟩
      have hnv1 : nv + 1 ≤ 65535 := by
        have : (1:ℤ) ≤ ((v :: vs).toFinset.filter (fun w => f w = 0)).card := by
          exact_mod_cast hcard1
        omega
      have hu : u16 (nv + 1) = nv + 1 := u16_eq_of_range _ (by omega) (by omega)
      have hstep : assignStep (f, nv) v = (Function.update f v (nv + 1), nv + 1) := by
        unfold assignStep
        rw [if_pos hv, hu]
      have hf' : ∀ w, Function.update f v (nv + 1) w = 0 ↔ (w ≠ v ∧ f w = 0) := by
        intro w
        rcases eq_or_ne w v with rfl | hne
        · simp [Function.update_same]
          omega
        · simp [Function.update_noteq hne, hne]
      have hT : vs.toFinset.filter (fun w => Function.update f v (nv + 1) w = 0) =
          (vs.toFinset.filter (fun w => f w = 0)).erase v := by
        ext w
        simp only [Finset.mem_filter, Finset.mem_erase]
        rw [hf' w]
        tauto
      have hbound' : (nv + 1) +
          ((vs.toFinset.filter (fun w => Function.update f v (nv + 1) w = 0)).card : ℤ)
          ≤ 65535 := by
        rw [hT]
        have : (((v :: vs).toFinset.filter (fun w => f w = 0)).card : ℤ) =
            (((vs.toFinset.filter (fun w => f w = 0)).erase v).card : ℤ) + 1 := by
          exact_mod_cast hcard
        omega
      obtain ⟨ihc, ihm⟩ := ih (Function.update f v (nv + 1)) (nv + 1) (by omega) hbound'
      constructor
      · rw [assignSeq, hstep, ihc, hT]
        have : (((v :: vs).toFinset.filter (fun w => f w = 0)).card : ℤ) =
            (((vs.toFinset.filter (fun w => f w = 0)).erase v).card : ℤ) + 1 := by
          exact_mod_cast hcard
        omega
      · intro w
        rw [assignSeq, hstep, ihm w]
        rcases eq_or_ne w v with rfl | hne
        · constructor
          · intro _
            exact Or.inr (List.mem_cons_self _ _)
          · intro _
            refine Or.inl ?_
            rw [Function.update_same]
            omega
        · rw [Function.update_noteq hne]
          simp only [List.mem_cons]
          tauto
    · -- v already assigned: no effect
      have hstep : assignStep (f, nv) v = (f, nv) := by
        unfold assignStep
        rw [if_neg hv]
      have hS : (v :: vs).toFinset.filter (fun w => f w = 0) =
          vs.toFinset.filter (fun w => f w = 0) := by
        rw [List.toFinset_cons, Finset.filter_insert, if_neg hv]
      rw [assignSeq, hstep, hS]
      obtain ⟨ihc, ihm⟩ := ih f nv h0 (by rw [hS] at hbound; exact hbound)
      refine ⟨ihc, ?_⟩
      intro w
      rw [ihm w]
      simp only [List.mem_cons]
      rcases eq_or_ne w v with rfl | hne
      · tauto
      · tauto

/-- Unconditionally, the assignment counter advances by at least the
number of distinct unassigned vertices in the list (wraparound can only
cause extra increments, never fewer). -/
theorem assignSeq_counter_ge (vs : List ℤ) :
    ∀ (f : ℤ → ℤ) (nv : ℤ),
    nv + ((vs.toFinset.filter (fun v => f v = 0)).card : ℤ) ≤ (assignSeq vs (f, nv)).2 := by
  induction vs with
  | nil => intro f nv; simp [assignSeq]
  | cons v vs ih =>
    intro f nv
    by_cases hv : f v = 0
    · have hstep : assignStep (f, nv) v = (Function.update f v (u16 (nv + 1)), nv + 1) := by
        unfold assignStep
        rw [if_pos hv]
      have hS : (v :: vs).toFinset.filter (fun w => f w = 0) =
          insert v (vs.toFinset.filter (fun w => f w = 0)) := by
        rw [List.toFinset_cons, Finset.filter_insert, if_pos hv]
      have hcard : ((v :: vs).toFinset.filter (fun w => f w = 0)).card =
          ((vs.toFinset.filter (fun w => f w = 0)).erase v).card + 1 := by
        rw [hS]
        by_cases hm : v ∈ vs.toFinset.filter (fun w => f w = 0)
        · rw [Finset.insert_eq_self.mpr hm, Finset.card_erase_of_mem hm]
          have := Finset.card_pos.mpr ⟨v, hm⟩
          omega
        · rw [Finset.card_insert_of_not_mem hm, Finset.erase_eq_of_not_mem hm]
      have hsub : (vs.toFinset.filter (fun w => f w = 0)).erase v ⊆
          vs.toFinset.filter (fun w => Function.update f v (u16 (nv + 1)) w = 0) := by
        intro w hw
        obtain ⟨hne, hmem⟩ := Finset.mem_erase.mp hw
        obtain ⟨hvs, hfw⟩ := Finset.mem_filter.mp hmem
        refine Finset.mem_filter.mpr ⟨hvs, ?_⟩
        rw [Function.update_noteq hne]
        exact hfw
      have hle := Finset.card_le_card hsub
      have ihg := ih (Function.update f v (u16 (nv + 1))) (nv + 1)
      rw [assignSeq, hstep]
      have hc : (((v :: vs).toFinset.filter (fun w => f w = 0)).card : ℤ) ≤
          ((vs.toFinset.filter (fun w => Function.update f v (u16 (nv + 1)) w = 0)).card : ℤ)
            + 1 := by
        rw [hcard]
        push_cast
        omega
      omega
    · have hstep : assignStep (f, nv) v = (f, nv) := by
        unfold assignStep
        rw [if_neg hv]
      have hS : (v :: vs).toFinset.filter (fun w => f w = 0) =
          vs.toFinset.filter (fun w => f w = 0) := by
        rw [List.toFinset_cons, Finset.filter_insert, if_neg hv]
      rw [assignSeq, hstep, hS]
      exact ih f nv

/-- Destructuring a successful `GetMesh` call into its two leaf lists and
the closed form of its result. -/
theorem getMesh_parts (t : Tile) (e : ℚ) (fuel : ℕ) (r : Tile × Mesh)
    (h : getMesh t e fuel = some r) :
    ∃ L1 L2,
      leafTris t.errors t.gridSize e fuel 0 0 (t.gridSize - 1) (t.gridSize - 1)
          (t.gridSize - 1) 0 = some L1 ∧
      leafTris t.errors t.gridSize e fuel (t.gridSize - 1) (t.gridSize - 1) 0 0 0
          (t.gridSize - 1) = some L2 ∧
      r = ({ t with indices :=
                (assignSeq (flatCorners t.gridSize (L1 ++ L2)) (fun _ => 0, 0)).1 },
            { numVertices := (assignSeq (flatCorners t.gridSize (L1 ++ L2)) (fun _ => 0, 0)).2
              numTriangles := ((L1 ++ L2).length : ℤ)
              vertices :=
                (emitLeaves
                  { t with indices :=
                      (assignSeq (flatCorners t.gridSize (L1 ++ L2)) (fun _ => 0, 0)).1 }
                  (L1 ++ L2)
                  { triIndex := 0, vertices := fun _ => 0, triangles := fun _ => 0 }).vertices
              triangles :=
                (emitLeaves
                  { t with indices :=
                      (assignSeq (flatCorners t.gridSize (L1 ++ L2)) (fun _ => 0, 0)).1 }
                  (L1 ++ L2)
                  { triIndex := 0, vertices := fun _ => 0,
                    triangles := fun _ => 0 }).triangles }) := by
  rw [getMesh_eq] at h
  cases hA : leafTris t.errors t.gridSize e fuel 0 0 (t.gridSize - 1) (t.gridSize - 1)
      (t.gridSize - 1) 0 with
  | none => rw [hA] at h; exact absurd h (by simp)
  | some L1 =>
    rw [hA] at h
    cases hB : leafTris t.errors t.gridSize e fuel (t.gridSize - 1) (t.gridSize - 1) 0 0 0
        (t.gridSize - 1) with
    | none => rw [hB] at h; exact absurd h (by simp)
    | some L2 =>
      rw [hB] at h
      simp only [Option.some_bind, Option.map_some', Option.some.injEq] at h
      exact ⟨L1, L2, rfl, rfl, h.symm⟩

/-- For a fixed tile (coordinate table and error field) and thresholds
`e1 ≤ e2`, the mesh extracted at `e2` has no more vertices and no more
triangles than the mesh extracted at `e1`, provided the finer mesh's
vertex counter stays within `uint16` range (at most 65535 vertices), so
that no stored index wraps to 0 and gets re-counted. -/
theorem getMesh_counts_mono_of_small (t : Tile) (e1 e2 : ℚ) (h12 : e1 ≤ e2) (fuel : ℕ)
    (r1 r2 : Tile × Mesh)
    (h1 : getMesh t e1 fuel = some r1)
    (h2 : getMesh t e2 fuel = some r2)
    (hw : r1.2.numVertices ≤ 65535) :
    r2.2.numVertices ≤ r1.2.numVertices ∧ r2.2.numTriangles ≤ r1.2.numTriangles := by
  obtain ⟨A1, B1, hA1, hB1, hr1⟩ := getMesh_parts t e1 fuel r1 h1
  obtain ⟨A2, B2, hA2, hB2, hr2⟩ := getMesh_parts t e2 fuel r2 h2
  obtain ⟨A2f, hA2f, hAlen0, hAsub0⟩ :=
    leafTris_mono t.errors t.gridSize e1 e2 h12 fuel 0 0 (t.gridSize - 1) (t.gridSize - 1)
      (t.gridSize - 1) 0 A1 hA1
  rw [hA2] at hA2f
  have hAeq : A2 = A2f := Option.some.inj hA2f
  have hAlen : A2.length ≤ A1.length := by rw [hAeq]; exact hAlen0
  have hAsub : ∀ p ∈ cornerList A2, p ∈ cornerList A1 := by rw [hAeq]; exact hAsub0
  obtain ⟨B2f, hB2f, hBlen0, hBsub0⟩ :=
    leafTris_mono t.errors t.gridSize e1 e2 h12 fuel (t.gridSize - 1) (t.gridSize - 1) 0 0 0
      (t.gridSize - 1) B1 hB1
  rw [hB2] at hB2f
  have hBeq : B2 = B2f := Option.some.inj hB2f
  have hBlen : B2.length ≤ B1.length := by rw [hBeq]; exact hBlen0
  have hBsub : ∀ p ∈ cornerList B2, p ∈ cornerList B1 := by rw [hBeq]; exact hBsub0
  -- the flattened corner lists
  have hsub : (flatCorners t.gridSize (A2 ++ B2)).toFinset ⊆
      (flatCorners t.gridSize (A1 ++ B1)).toFinset := by
    intro v hv
    rw [List.mem_toFinset] at hv ⊢
    obtain ⟨p, hp, rfl⟩ := List.mem_map.mp hv
    refine List.mem_map.mpr ⟨p, ?_, rfl⟩
    rw [cornerList_append] at hp ⊢
    rcases List.mem_append.mp hp with h | h
    · exact List.mem_append.mpr (Or.inl (hAsub p h))
    · exact List.mem_append.mpr (Or.inr (hBsub p h))
  have hfilter : ∀ vs : List ℤ,
      vs.toFinset.filter (fun v => (fun _ => (0:ℤ)) v = 0) = vs.toFinset := by
    intro vs
    apply Finset.filter_true_of_mem
    intro _ _
    rfl
  -- vertex counters
  have hv1 : r1.2.numVertices =
      (assignSeq (flatCorners t.gridSize (A1 ++ B1)) (fun _ => 0, 0)).2 := by
    rw [hr1]
  have hv2 : r2.2.numVertices =
      (assignSeq (flatCorners t.gridSize (A2 ++ B2)) (fun _ => 0, 0)).2 := by
    rw [hr2]
  have hge := assignSeq_counter_ge (flatCorners t.gridSize (A1 ++ B1)) (fun _ => 0) 0
  rw [hfilter] at hge
  have hcard1 : (((flatCorners t.gridSize (A1 ++ B1)).toFinset.card : ℤ)) ≤ 65535 := by
    rw [hv1] at hw
    omega
  have hcard2 : (((flatCorners t.gridSize (A2 ++ B2)).toFinset.card : ℤ)) ≤ 65535 := by
    have := Finset.card_le_card hsub
    have h2c : ((flatCorners t.gridSize (A2 ++ B2)).toFinset.card : ℤ) ≤
        ((flatCorners t.gridSize (A1 ++ B1)).toFinset.card : ℤ) := by exact_mod_cast this
    omega
  obtain ⟨hc1, -⟩ := assignSeq_spec (flatCorners t.gridSize (A1 ++ B1)) (fun _ => 0) 0
    le_rfl (by rw [hfilter]; omega)
  obtain ⟨hc2, -⟩ := assignSeq_spec (flatCorners t.gridSize (A2 ++ B2)) (fun _ => 0) 0
    le_rfl (by rw [hfilter]; omega)
  rw [hfilter] at hc1 hc2
  constructor
  · rw [hv1, hv2, hc1, hc2]
    have := Finset.card_le_card hsub
    have h2c : ((flatCorners t.gridSize (A2 ++ B2)).toFinset.card : ℤ) ≤
        ((flatCorners t.gridSize (A1 ++ B1)).toFinset.card : ℤ) := by exact_mod_cast this
    omega
  · have ht1 : r1.2.numTriangles = ((A1 ++ B1).length : ℤ) := by rw [hr1]
    have ht2 : r2.2.numTriangles = ((A2 ++ B2).length : ℤ) := by rw [hr2]
    rw [ht1, ht2]
    simp only [List.length_append]
    push_cast
    omega

/-- The monotonicity lemma instantiated on the 3×3 constant tile with
thresholds 0 ≤ 1. -/
theorem getMesh_counts_mono_example :
    ((0:ℚ) ≤ 1 ∧ getMesh tileC3 0 5 = some meshesC3a ∧ getMesh tileC3 1 5 = some meshesC3b ∧
      meshesC3a.2.numVertices ≤ 65535) ∧
    (meshesC3b.2.numVertices ≤ meshesC3a.2.numVertices ∧
     meshesC3b.2.numTriangles ≤ meshesC3a.2.numTriangles) :=
  ⟨⟨by norm_num, (Option.some_get _).symm, (Option.some_get _).symm, by decide⟩,
   getMesh_counts_mono_of_small tileC3 0 1 (by norm_num) 5 meshesC3a meshesC3b (Option.some_get _).symm
     (Option.some_get _).symm (by decide)⟩

/-! ### More facts about assignment and emission -/

theorem emitLeaves_triIndex (t : Tile) (L : List (ℤ × ℤ × ℤ × ℤ × ℤ × ℤ)) :
    ∀ st : EmitState, (emitLeaves t L st).triIndex = st.triIndex + 3 * L.length := by
  induction L with
  | nil => intro st; simp [emitLeaves]
  | cons l ls ih =>
    intro st
    rw [emitLeaves, ih]
    have : (emitLeaf t st l.1 l.2.1 l.2.2.1 l.2.2.2.1 l.2.2.2.2.1 l.2.2.2.2.2).triIndex =
        st.triIndex + 3 := rfl
    rw [this]
    simp only [List.length_cons]
    push_cast
    ring

/-- A vertex that already has an index keeps it through any further
assignments. -/
theorem assignSeq_persist (vs : List ℤ) :
    ∀ (p : (ℤ → ℤ) × ℤ) (v : ℤ), p.1 v ≠ 0 → (assignSeq vs p).1 v = p.1 v := by
  induction vs with
  | nil => intro p v _; rfl
  | cons w vs ih =>
    intro p v hv
    rw [assignSeq]
    by_cases hw : p.1 w = 0
    · have hstep : assignStep p w = (Function.update p.1 w (u16 (p.2 + 1)), p.2 + 1) := by
        unfold assignStep
        rw [if_pos hw]
      rw [hstep]
      have hne : v ≠ w := by
        intro h
        rw [h] at hv
        exact hv hw
      have hupd : Function.update p.1 w (u16 (p.2 + 1)) v = p.1 v := Function.update_noteq hne _ _
      have hper := ih (Function.update p.1 w (u16 (p.2 + 1)), p.2 + 1) v
        (by dsimp only; rw [hupd]; exact hv)
      dsimp only at hper
      rw [hper, hupd]
    · have hstep : assignStep p w = p := by
        unfold assignStep
        rw [if_neg hw]
      rw [hstep]
      exact ih p v hv

/-- Under the no-wraparound bound, every counter value in
`(nv, final]` is stored at some vertex of the list. -/
theorem assignSeq_surj (vs : List ℤ) :
    ∀ (f : ℤ → ℤ) (nv : ℤ), 0 ≤ nv →
    nv + ((vs.toFinset.filter (fun v => f v = 0)).card : ℤ) ≤ 65535 →
    ∀ k : ℤ, nv < k → k ≤ (assignSeq vs (f, nv)).2 →
      ∃ v ∈ vs, (assignSeq vs (f, nv)).1 v = k := by
  induction vs with
  | nil =>
    intro f nv _ _ k hk1 hk2
    simp only [assignSeq] at hk2
    omega
  | cons v vs ih =>
    intro f nv h0 hbound k hk1 hk2
    by_cases hv : f v = 0
    · have hvS : v ∈ (v :: vs).toFinset.filter (fun w => f w = 0) := by simp [hv]
      have hcard1 : 1 ≤ ((v :: vs).toFinset.filter (fun w => f w = 0)).card :=
        Finset.card_pos.mpr ⟨v, hvS⟩
      have hnv1 : nv + 1 ≤ 65535 := by
        have : (1:ℤ) ≤ ((v :: vs).toFinset.filter (fun w => f w = 0)).card := by
          exact_mod_cast hcard1
        omega
      have hu : u16 (nv + 1) = nv + 1 := u16_eq_of_range _ (by omega) (by omega)
      have hstep : assignStep (f, nv) v = (Function.update f v (nv + 1), nv + 1) := by
        unfold assignStep
        rw [if_pos hv, hu]
      have hS : (v :: vs).toFinset.filter (fun w => f w = 0) =
          insert v (vs.toFinset.filter (fun w => f w = 0)) := by
        rw [List.toFinset_cons, Finset.filter_insert, if_pos hv]
      have hcard : ((v :: vs).toFinset.filter (fun w => f w = 0)).card =
          ((vs.toFinset.filter (fun w => f w = 0)).erase v).card + 1 := by
        rw [hS]
        by_cases hm : v ∈ vs.toFinset.filter (fun w => f w = 0)
        · rw [Finset.insert_eq_self.mpr hm, Finset.card_erase_of_mem hm]
          have := Finset.card_pos.mpr ⟨v, hm⟩
          omega
        · rw [Finset.card_insert_of_not_mem hm, Finset.erase_eq_of_not_mem hm]
      have hT : vs.toFinset.filter (fun w => Function.update f v (nv + 1) w = 0) =
          (vs.toFinset.filter (fun w => f w = 0)).erase v := by
        ext w
        simp only [Finset.mem_filter, Finset.mem_erase]
        rcases eq_or_ne w v with rfl | hne
        · simp [Function.update_same]
          omega
        · rw [Function.update_noteq hne]
          tauto
      have hbound' : (nv + 1) +
          ((vs.toFinset.filter (fun w => Function.update f v (nv + 1) w = 0)).card : ℤ)
          ≤ 65535 := by
        rw [hT]
        have : (((v :: vs).toFinset.filter (fun w => f w = 0)).card : ℤ) =
            (((vs.toFinset.filter (fun w => f w = 0)).erase v).card : ℤ) + 1 := by
          exact_mod_cast hcard
        omega
      rw [assignSeq, hstep] at hk2 ⊢
      rcases eq_or_lt_of_le (by omega : nv + 1 ≤ k) with rfl | hk3
      · refine ⟨v, List.mem_cons_self _ _, ?_⟩
        have hval : Function.update f v (nv + 1) v = nv + 1 := Function.update_same _ _ _
        have hper := assignSeq_persist vs (Function.update f v (nv + 1), nv + 1) v
          (by dsimp only; rw [hval]; omega)
        dsimp only at hper
        rw [hper, hval]
      · obtain ⟨w, hw1, hw2⟩ := ih (Function.update f v (nv + 1)) (nv + 1) (by omega) hbound'
          k hk3 hk2
        exact ⟨w, List.mem_cons_of_mem _ hw1, hw2⟩
    · have hstep : assignStep (f, nv) v = (f, nv) := by
        unfold assignStep
        rw [if_neg hv]
      have hS : (v :: vs).toFinset.filter (fun w => f w = 0) =
          vs.toFinset.filter (fun w => f w = 0) := by
        rw [List.toFinset_cons, Finset.filter_insert, if_neg hv]
      rw [assignSeq, hstep] at hk2 ⊢
      obtain ⟨w, hw1, hw2⟩ := ih f nv h0 (by rw [hS] at hbound; exact hbound) k hk1 hk2
      exact ⟨w, List.mem_cons_of_mem _ hw1, hw2⟩

/-- `emitLeaf` reads only the tile's `GridSize` and `Indices`. -/
theorem emitLeaf_congr (t1 t2 : Tile) (h1 : t1.gridSize = t2.gridSize)
    (h2 : t1.indices = t2.indices) (st : EmitState) (ax ay bx bY cx cy : ℤ) :
    emitLeaf t1 st ax ay bx bY cx cy = emitLeaf t2 st ax ay bx bY cx cy := by
  simp only [emitLeaf, h1, h2]

/-- The emit pass depends on the tile only through `GridSize` and
`Indices`. -/
theorem emitLeaves_congr (t1 t2 : Tile) (h1 : t1.gridSize = t2.gridSize)
    (h2 : t1.indices = t2.indices) :
    ∀ (L : List (ℤ × ℤ × ℤ × ℤ × ℤ × ℤ)) (st : EmitState),
      emitLeaves t1 L st = emitLeaves t2 L st
  | [], _ => rfl
  | l :: ls, st => by
    rw [emitLeaves, emitLeaves, emitLeaf_congr t1 t2 h1 h2,
      emitLeaves_congr t1 t2 h1 h2 ls]

/-- C4: `GetMesh` is deterministic.  Any call on a tile with the same
table (`GridSize`) and the same `Errors` — in particular a second call on
the tile state left behind by the first, whose shared `Indices` scratch
has been mutated — returns a bit-identical mesh, and the repeated call
returns the identical tile state as well.  Moreover the count pass and
the emit pass make identical subdivision decisions at every node (both
are folds over the same leaf list), so the emit pass fills exactly the
arrays sized by the count pass: it performs one triangle write per
counted leaf, ending at write position `3 * numTriangles`. -/
theorem claim_C4 (t t' : Tile) (e : ℚ) (fuel : ℕ) (r : Tile × Mesh)
    (hg : t'.gridSize = t.gridSize) (herr : t'.errors = t.errors)
    (h : getMesh t e fuel = some r) :
    Option.map Prod.snd (getMesh t' e fuel) = some r.2 ∧
    getMesh r.1 e fuel = some r ∧
    (∃ L1 L2,
      leafTris t.errors t.gridSize e fuel 0 0 (t.gridSize - 1) (t.gridSize - 1)
          (t.gridSize - 1) 0 = some L1 ∧
      leafTris t.errors t.gridSize e fuel (t.gridSize - 1) (t.gridSize - 1) 0 0 0
          (t.gridSize - 1) = some L2 ∧
      r.2.numTriangles = ((L1 ++ L2).length : ℤ) ∧
      (emitLeaves r.1 (L1 ++ L2)
          { triIndex := 0, vertices := fun _ => 0, triangles := fun _ => 0 }).triIndex =
        3 * r.2.numTriangles) := by
  obtain ⟨L1, L2, hA, hB, hr⟩ := getMesh_parts t e fuel r h
  subst hr
  refine ⟨?_, ?_, ⟨L1, L2, hA, hB, rfl, ?_⟩⟩
  · rw [getMesh_eq]
    dsimp only
    rw [hg, herr, hA, hB]
    simp only [Option.some_bind, Option.map_some']
    have hcg := emitLeaves_congr
      { t' with gridSize := t.gridSize,
                indices := (assignSeq (flatCorners t.gridSize (L1 ++ L2)) (fun _ => 0, 0)).1,
                errors := t.errors }
      { t with indices := (assignSeq (flatCorners t.gridSize (L1 ++ L2)) (fun _ => 0, 0)).1 }
      rfl rfl (L1 ++ L2) { triIndex := 0, vertices := fun _ => 0, triangles := fun _ => 0 }
    rw [hcg]
  · rw [getMesh_eq]
    dsimp only
    rw [hA, hB]
    rfl
  · rw [emitLeaves_triIndex]
    dsimp only
    ring

/-- C9: `GetMesh` mutates only the shared `Indices` scratch — zeroing it
and then assigning 1-based vertex indices via `assignSeq` — and leaves
`Terrain`, `Errors`, `Coords`, `GridSize`, `NumTriangles` and
`NumParentTriangles` unchanged. -/
theorem claim_C9 (t : Tile) (e : ℚ) (fuel : ℕ) (r : Tile × Mesh)
    (h : getMesh t e fuel = some r) :
    r.1.terrain = t.terrain ∧ r.1.errors = t.errors ∧ r.1.coords = t.coords ∧
    r.1.gridSize = t.gridSize ∧ r.1.numTriangles = t.numTriangles ∧
    r.1.numParentTriangles = t.numParentTriangles ∧
    ∃ L1 L2,
      leafTris t.errors t.gridSize e fuel 0 0 (t.gridSize - 1) (t.gridSize - 1)
          (t.gridSize - 1) 0 = some L1 ∧
      leafTris t.errors t.gridSize e fuel (t.gridSize - 1) (t.gridSize - 1) 0 0 0
          (t.gridSize - 1) = some L2 ∧
      r.1.indices = (assignSeq (flatCorners t.gridSize (L1 ++ L2)) (fun _ => 0, 0)).1 := by
  obtain ⟨L1, L2, hA, hB, hr⟩ := getMesh_parts t e fuel r h
  subst hr
  exact ⟨rfl, rfl, rfl, rfl, rfl, rfl, L1, L2, hA, hB, rfl⟩

/-- Witness for C4 on the 3×3 zero-error tile at threshold 0. -/
theorem claim_C4_witness :
    (tileC3.gridSize = tileC3.gridSize ∧ tileC3.errors = tileC3.errors ∧
     getMesh tileC3 0 5 = some meshesC3a) ∧
    (Option.map Prod.snd (getMesh tileC3 0 5) = some meshesC3a.2 ∧
     getMesh meshesC3a.1 0 5 = some meshesC3a ∧
     (∃ L1 L2,
       leafTris tileC3.errors tileC3.gridSize 0 5 0 0 (tileC3.gridSize - 1)
           (tileC3.gridSize - 1) (tileC3.gridSize - 1) 0 = some L1 ∧
       leafTris tileC3.errors tileC3.gridSize 0 5 (tileC3.gridSize - 1)
           (tileC3.gridSize - 1) 0 0 0 (tileC3.gridSize - 1) = some L2 ∧
       meshesC3a.2.numTriangles = ((L1 ++ L2).length : ℤ) ∧
       (emitLeaves meshesC3a.1 (L1 ++ L2)
           { triIndex := 0, vertices := fun _ => 0, triangles := fun _ => 0 }).triIndex =
         3 * meshesC3a.2.numTriangles)) :=
  ⟨⟨rfl, rfl, (Option.some_get _).symm⟩,
   claim_C4 tileC3 tileC3 0 5 meshesC3a rfl rfl (Option.some_get _).symm⟩

/-- Witness for C9 on the 3×3 zero-error tile at threshold 0. -/
theorem claim_C9_witness :
    (getMesh tileC3 0 5 = some meshesC3a) ∧
    (meshesC3a.1.terrain = tileC3.terrain ∧ meshesC3a.1.errors = tileC3.errors ∧
     meshesC3a.1.coords = tileC3.coords ∧ meshesC3a.1.gridSize = tileC3.gridSize ∧
     meshesC3a.1.numTriangles = tileC3.numTriangles ∧
     meshesC3a.1.numParentTriangles = tileC3.numParentTriangles ∧
     ∃ L1 L2,
       leafTris tileC3.errors tileC3.gridSize 0 5 0 0 (tileC3.gridSize - 1)
           (tileC3.gridSize - 1) (tileC3.gridSize - 1) 0 = some L1 ∧
       leafTris tileC3.errors tileC3.gridSize 0 5 (tileC3.gridSize - 1)
           (tileC3.gridSize - 1) 0 0 0 (tileC3.gridSize - 1) = some L2 ∧
       meshesC3a.1.indices =
         (assignSeq (flatCorners tileC3.gridSize (L1 ++ L2)) (fun _ => 0, 0)).1) :=
  ⟨(Option.some_get _).symm, claim_C9 tileC3 0 5 meshesC3a (Option.some_get _).symm⟩

/-- Counterexample to C5 as stated: on the all-zero error field,
extraction with `maxError = 0` emits the two root triangles themselves
(the stored error `0` is not `> 0`), whose `a`-to-`c` Manhattan distance
is 2, not 1 — so `maxError = 0` does not force subdivision down to unit
triangles for every error field. -/
theorem claim_C5_counterexample :
    getMesh tileC3 0 5 = some meshesC3a ∧
    leafTris tileC3.errors tileC3.gridSize 0 5 0 0 2 2 2 0 = some [(0, 0, 2, 2, 2, 0)] ∧
    iabs (0 - 2) + iabs (0 - 0) ≠ 1 := by
  refine ⟨(Option.some_get _).symm, by rfl, by decide⟩

/-- C5 (amended): with `maxError = 0` the extraction subdivides exactly
where the stored error is positive: every emitted leaf triangle either
has Manhattan distance ≤ 1 between its corners `a` and `c` (unit
triangle) or has stored error ≤ 0 at its hypotenuse midpoint.  A
sufficiently large `maxError` — any value at least the error stored at
the root hypotenuse midpoint — yields exactly the two root triangles,
for every error field. -/
theorem claim_C5 (t : Tile) (fuel : ℕ) :
    (∀ L1 L2,
      leafTris t.errors t.gridSize 0 fuel 0 0 (t.gridSize - 1) (t.gridSize - 1)
          (t.gridSize - 1) 0 = some L1 →
      leafTris t.errors t.gridSize 0 fuel (t.gridSize - 1) (t.gridSize - 1) 0 0 0
          (t.gridSize - 1) = some L2 →
      ∀ l ∈ L1 ++ L2,
        iabs (l.1 - l.2.2.2.2.1) + iabs (l.2.1 - l.2.2.2.2.2) ≤ 1 ∨
        t.errors (asr (l.2.1 + l.2.2.2.1) * t.gridSize + asr (l.1 + l.2.2.1)) ≤ 0) ∧
    (∀ e : ℚ,
      t.errors (asr (0 + (t.gridSize - 1)) * t.gridSize + asr (0 + (t.gridSize - 1))) ≤ e →
      t.errors (asr ((t.gridSize - 1) + 0) * t.gridSize + asr ((t.gridSize - 1) + 0)) ≤ e →
      ∃ r, getMesh t e (fuel + 1) = some r ∧ r.2.numTriangles = 2) := by
  constructor
  · intro L1 L2 h1 h2 l hl
    have hnot : ∀ l' ∈ L1 ++ L2,
        ¬(1 < iabs (l'.1 - l'.2.2.2.2.1) + iabs (l'.2.1 - l'.2.2.2.2.2) ∧
          (0:ℚ) < t.errors (asr (l'.2.1 + l'.2.2.2.1) * t.gridSize + asr (l'.1 + l'.2.2.1))) := by
      intro l' hl'
      rcases List.mem_append.mp hl' with hmem | hmem
      · exact leafTris_mem_not t.errors t.gridSize 0 fuel 0 0 (t.gridSize - 1)
          (t.gridSize - 1) (t.gridSize - 1) 0 L1 h1 l' hmem
      · exact leafTris_mem_not t.errors t.gridSize 0 fuel (t.gridSize - 1) (t.gridSize - 1)
          0 0 0 (t.gridSize - 1) L2 h2 l' hmem
    have := hnot l hl
    by_cases hd : 1 < iabs (l.1 - l.2.2.2.2.1) + iabs (l.2.1 - l.2.2.2.2.2)
    · refine Or.inr ?_
      by_contra hgt
      exact this ⟨hd, not_le.mp hgt⟩
    · exact Or.inl (by omega)
  · intro e he1 he2
    have hL1 : leafTris t.errors t.gridSize e (fuel + 1) 0 0 (t.gridSize - 1)
        (t.gridSize - 1) (t.gridSize - 1) 0 =
        some [(0, 0, t.gridSize - 1, t.gridSize - 1, t.gridSize - 1, 0)] := by
      simp only [leafTris]
      rw [if_neg]
      rintro ⟨-, hlt⟩
      exact absurd hlt (not_lt.mpr he1)
    have hL2 : leafTris t.errors t.gridSize e (fuel + 1) (t.gridSize - 1) (t.gridSize - 1)
        0 0 0 (t.gridSize - 1) =
        some [(t.gridSize - 1, t.gridSize - 1, 0, 0, 0, t.gridSize - 1)] := by
      simp only [leafTris]
      rw [if_neg]
      rintro ⟨-, hlt⟩
      exact absurd hlt (not_lt.mpr he2)
    rw [getMesh_eq, hL1, hL2]
    simp only [Option.some_bind, Option.map_some']
    refine ⟨_, rfl, ?_⟩
    rfl

/-- Witness for C5 on the 3×3 zero-error tile. -/
theorem claim_C5_witness :
    (∀ l ∈ ([(0, 0, 2, 2, 2, 0)] ++ [(2, 2, 0, 0, 0, 2)] : List (ℤ × ℤ × ℤ × ℤ × ℤ × ℤ)),
        iabs (l.1 - l.2.2.2.2.1) + iabs (l.2.1 - l.2.2.2.2.2) ≤ 1 ∨
        tileC3.errors (asr (l.2.1 + l.2.2.2.1) * tileC3.gridSize + asr (l.1 + l.2.2.1)) ≤ 0) ∧
    (∃ r, getMesh tileC3 1 (5 + 1) = some r ∧ r.2.numTriangles = 2) :=
  ⟨(claim_C5 tileC3 5).1 _ _ (by rfl) (by rfl),
   (claim_C5 tileC3 5).2 1 (by decide) (by decide)⟩

/-- Under the no-wraparound bound, all stored vertex indices lie in
`[1, final counter]`. -/
theorem assignSeq_values (vs : List ℤ) :
    ∀ (f : ℤ → ℤ) (nv : ℤ), 0 ≤ nv →
    (∀ v, f v ≠ 0 → 1 ≤ f v ∧ f v ≤ nv) →
    nv + ((vs.toFinset.filter (fun v => f v = 0)).card : ℤ) ≤ 65535 →
    ∀ v, (assignSeq vs (f, nv)).1 v ≠ 0 →
      1 ≤ (assignSeq vs (f, nv)).1 v ∧ (assignSeq vs (f, nv)).1 v ≤ (assignSeq vs (f, nv)).2 := by
  induction vs with
  | nil =>
    intro f nv _ hval _ v hv
    exact hval v hv
  | cons v vs ih =>
    intro f nv h0 hval hbound w hw
    by_cases hv : f v = 0
    · have hvS : v ∈ (v :: vs).toFinset.filter (fun u => f u = 0) := by simp [hv]
      have hcard1 : 1 ≤ ((v :: vs).toFinset.filter (fun u => f u = 0)).card :=
        Finset.card_pos.mpr ⟨v, hvS⟩
      have hnv1 : nv + 1 ≤ 65535 := by
        have : (1:ℤ) ≤ ((v :: vs).toFinset.filter (fun u => f u = 0)).card := by
          exact_mod_cast hcard1
        omega
      have hu : u16 (nv + 1) = nv + 1 := u16_eq_of_range _ (by omega) (by omega)
      have hstep : assignStep (f, nv) v = (Function.update f v (nv + 1), nv + 1) := by
        unfold assignStep
        rw [if_pos hv, hu]
      have hS : (v :: vs).toFinset.filter (fun u => f u = 0) =
          insert v (vs.toFinset.filter (fun u => f u = 0)) := by
        rw [List.toFinset_cons, Finset.filter_insert, if_pos hv]
      have hcard : ((v :: vs).toFinset.filter (fun u => f u = 0)).card =
          ((vs.toFinset.filter (fun u => f u = 0)).erase v).card + 1 := by
        rw [hS]
        by_cases hm : v ∈ vs.toFinset.filter (fun u => f u = 0)
        · rw [Finset.insert_eq_self.mpr hm, Finset.card_erase_of_mem hm]
          have := Finset.card_pos.mpr ⟨v, hm⟩
          omega
        · rw [Finset.card_insert_of_not_mem hm, Finset.erase_eq_of_not_mem hm]
      have hT : vs.toFinset.filter (fun u => Function.update f v (nv + 1) u = 0) =
          (vs.toFinset.filter (fun u => f u = 0)).erase v := by
        ext u
        simp only [Finset.mem_filter, Finset.mem_erase]
        rcases eq_or_ne u v with rfl | hne
        · simp [Function.update_same]
          omega
        · rw [Function.update_noteq hne]
          tauto
      have hbound' : (nv + 1) +
          ((vs.toFinset.filter (fun u => Function.update f v (nv + 1) u = 0)).card : ℤ)
          ≤ 65535 := by
        rw [hT]
        have : (((v :: vs).toFinset.filter (fun u => f u = 0)).card : ℤ) =
            (((vs.toFinset.filter (fun u => f u = 0)).erase v).card : ℤ) + 1 := by
          exact_mod_cast hcard
        omega
      have hval' : ∀ u, Function.update f v (nv + 1) u ≠ 0 →
          1 ≤ Function.update f v (nv + 1) u ∧ Function.update f v (nv + 1) u ≤ nv + 1 := by
        intro u hu0
        rcases eq_or_ne u v with rfl | hne
        · rw [Function.update_same] at hu0 ⊢
          omega
        · rw [Function.update_noteq hne] at hu0 ⊢
          have := hval u hu0
          omega
      rw [assignSeq, hstep] at hw ⊢
      exact ih (Function.update f v (nv + 1)) (nv + 1) (by omega) hval' hbound' w hw
    · have hstep : assignStep (f, nv) v = (f, nv) := by
        unfold assignStep
        rw [if_neg hv]
      have hS : (v :: vs).toFinset.filter (fun u => f u = 0) =
          vs.toFinset.filter (fun u => f u = 0) := by
        rw [List.toFinset_cons, Finset.filter_insert, if_neg hv]
      rw [assignSeq, hstep] at hw ⊢
      exact ih f nv h0 hval (by rw [hS] at hbound; exact hbound) w hw

/-- Triangle-array entries already written are never overwritten by later
leaves (the write position only advances). -/
theorem emitLeaves_triangles_frozen (t : Tile) (L : List (ℤ × ℤ × ℤ × ℤ × ℤ × ℤ)) :
    ∀ (st : EmitState) (j : ℤ), j < st.triIndex →
    (emitLeaves t L st).triangles j = st.triangles j := by
  induction L with
  | nil => intro st j _; rfl
  | cons l ls ih =>
    intro st j hj
    rw [emitLeaves]
    have hE : (emitLeaf t st l.1 l.2.1 l.2.2.1 l.2.2.2.1 l.2.2.2.2.1 l.2.2.2.2.2).triIndex =
        st.triIndex + 3 := rfl
    rw [ih _ j (by rw [hE]; omega)]
    show (Function.update (Function.update (Function.update st.triangles st.triIndex _)
        (st.triIndex + 1) _) (st.triIndex + 2) _) j = st.triangles j
    rw [Function.update_noteq (by omega), Function.update_noteq (by omega),
      Function.update_noteq (by omega)]

/-- Every triangle-array entry produced by the emit pass is the `uint16`
decrement of the index stored for one of the leaf corners. -/
theorem emitLeaves_triangles_values (t : Tile) (L : List (ℤ × ℤ × ℤ × ℤ × ℤ × ℤ)) :
    ∀ (st : EmitState) (j : ℤ), st.triIndex ≤ j → j < st.triIndex + 3 * L.length →
    ∃ v ∈ flatCorners t.gridSize L,
      (emitLeaves t L st).triangles j = u16 (t.indices v - 1) := by
  induction L with
  | nil => intro st j h1 h2; simp at h2; omega
  | cons l ls ih =>
    intro st j h1 h2
    have hfc : flatCorners t.gridSize (l :: ls) =
        [l.2.1 * t.gridSize + l.1, l.2.2.2.1 * t.gridSize + l.2.2.1,
         l.2.2.2.2.2 * t.gridSize + l.2.2.2.2.1] ++ flatCorners t.gridSize ls := by
      simp [flatCorners, cornerList_cons, flatIdx]
    rw [emitLeaves]
    have hE : (emitLeaf t st l.1 l.2.1 l.2.2.1 l.2.2.2.1 l.2.2.2.2.1 l.2.2.2.2.2).triIndex =
        st.triIndex + 3 := rfl
    have hT3 : (emitLeaf t st l.1 l.2.1 l.2.2.1 l.2.2.2.1 l.2.2.2.2.1 l.2.2.2.2.2).triangles =
        Function.update (Function.update (Function.update st.triangles st.triIndex
          (u16 (t.indices (l.2.1 * t.gridSize + l.1) - 1)))
          (st.triIndex + 1) (u16 (t.indices (l.2.2.2.1 * t.gridSize + l.2.2.1) - 1)))
          (st.triIndex + 2) (u16 (t.indices (l.2.2.2.2.2 * t.gridSize + l.2.2.2.2.1) - 1)) := rfl
    by_cases hj : j < st.triIndex + 3
    · rw [emitLeaves_triangles_frozen t ls _ j (by rw [hE]; omega), hT3]
      have hcase : j = st.triIndex ∨ j = st.triIndex + 1 ∨ j = st.triIndex + 2 := by omega
      rcases hcase with rfl | rfl | rfl
      · refine ⟨l.2.1 * t.gridSize + l.1, ?_, ?_⟩
        · rw [hfc]; simp
        · rw [Function.update_noteq (by omega), Function.update_noteq (by omega),
            Function.update_same]
      · refine ⟨l.2.2.2.1 * t.gridSize + l.2.2.1, ?_, ?_⟩
        · rw [hfc]; simp
        · rw [Function.update_noteq (by omega), Function.update_same]
      · refine ⟨l.2.2.2.2.2 * t.gridSize + l.2.2.2.2.1, ?_, ?_⟩
        · rw [hfc]; simp
        · rw [Function.update_same]
    · obtain ⟨v, hv1, hv2⟩ := ih _ j (by rw [hE]; omega)
        (by rw [hE]; simp only [List.length_cons] at h2; push_cast at h2 ⊢; omega)
      refine ⟨v, ?_, hv2⟩
      rw [hfc]
      exact List.mem_append.mpr (Or.inr hv1)

/-- C10: vertex indices are stored as the 1-based assignment counter
reduced modulo 2^16 (the `uint16` conversion in `countElements`), and the
emitted triangle entries are that value minus one (at `uint16`).  For
every extraction producing at most 65535 vertices there is no wraparound:
the stored indices are exactly the true assignment order `1..numVertices`
(bounded and onto), and every emitted triangle entry lies in
`[0, numVertices)`. -/
theorem claim_C10 (t : Tile) (e : ℚ) (fuel : ℕ) (r : Tile × Mesh)
    (h : getMesh t e fuel = some r) (hw : r.2.numVertices ≤ 65535) :
    (∀ (tt : Tile) (nv x y : ℤ), tt.indices (y * tt.gridSize + x) = 0 →
      assignVertex tt nv x y =
        ({ tt with indices :=
            Function.update tt.indices (y * tt.gridSize + x) (u16 (nv + 1)) }, nv + 1)) ∧
    (∀ v, r.1.indices v ≠ 0 → 1 ≤ r.1.indices v ∧ r.1.indices v ≤ r.2.numVertices) ∧
    (∀ k : ℤ, 1 ≤ k → k ≤ r.2.numVertices → ∃ v, r.1.indices v = k) ∧
    (∀ j : ℤ, 0 ≤ j → j < 3 * r.2.numTriangles →
      0 ≤ r.2.triangles j ∧ r.2.triangles j < r.2.numVertices) := by
  obtain ⟨L1, L2, hA, hB, hr⟩ := getMesh_parts t e fuel r h
  subst hr
  have hfilter : ∀ vs : List ℤ,
      vs.toFinset.filter (fun v => (fun _ => (0:ℤ)) v = 0) = vs.toFinset := by
    intro vs
    apply Finset.filter_true_of_mem
    intro _ _
    rfl
  have hge := assignSeq_counter_ge (flatCorners t.gridSize (L1 ++ L2)) (fun _ => 0) 0
  rw [hfilter] at hge
  have hbound : (0:ℤ) + (((flatCorners t.gridSize (L1 ++ L2)).toFinset.filter
      (fun v => (fun _ => (0:ℤ)) v = 0)).card : ℤ) ≤ 65535 := by
    rw [hfilter]
    have hwv : (assignSeq (flatCorners t.gridSize (L1 ++ L2)) (fun _ => 0, 0)).2 ≤ 65535 := hw
    omega
  refine ⟨?_, ?_, ?_, ?_⟩
  · intro tt nv x y h0
    rw [assignVertex_eq]
    unfold assignStep
    rw [if_pos h0]
  · intro v hv
    exact assignSeq_values (flatCorners t.gridSize (L1 ++ L2)) (fun _ => 0) 0 le_rfl
      (by intro u hu; exact absurd rfl hu) hbound v hv
  · intro k hk1 hk2
    obtain ⟨v, _, hv⟩ := assignSeq_surj (flatCorners t.gridSize (L1 ++ L2)) (fun _ => 0) 0
      le_rfl hbound k (by omega) hk2
    exact ⟨v, hv⟩
  · intro j hj0 hj3
    have hlen : (3:ℤ) * ((L1 ++ L2).length : ℤ) = 0 + 3 * ((L1 ++ L2).length : ℤ) := by ring
    obtain ⟨v, hv1, hv2⟩ := emitLeaves_triangles_values
      { t with indices := (assignSeq (flatCorners t.gridSize (L1 ++ L2)) (fun _ => 0, 0)).1 }
      (L1 ++ L2) { triIndex := 0, vertices := fun _ => 0, triangles := fun _ => 0 } j
      (by exact hj0) (by dsimp only at hj3 ⊢; omega)
    dsimp only at hv2 ⊢
    rw [hv2]
    -- the corner v is assigned, with value in [1, numVertices]
    have hmem : (assignSeq (flatCorners t.gridSize (L1 ++ L2)) (fun _ => 0, 0)).1 v ≠ 0 := by
      obtain ⟨-, hmem⟩ := assignSeq_spec (flatCorners t.gridSize (L1 ++ L2)) (fun _ => 0) 0
        le_rfl hbound
      exact (hmem v).mpr (Or.inr (by simpa [flatCorners] using hv1))
    have hval := assignSeq_values (flatCorners t.gridSize (L1 ++ L2)) (fun _ => 0) 0 le_rfl
      (by intro u hu; exact absurd rfl hu) hbound v hmem
    have hu16 : u16 ((assignSeq (flatCorners t.gridSize (L1 ++ L2)) (fun _ => 0, 0)).1 v - 1) =
        (assignSeq (flatCorners t.gridSize (L1 ++ L2)) (fun _ => 0, 0)).1 v - 1 := by
      apply u16_eq_of_range
      · omega
      · have hwv : (assignSeq (flatCorners t.gridSize (L1 ++ L2)) (fun _ => 0, 0)).2 ≤ 65535 := hw
        omega
    rw [hu16]
    have hwv : (assignSeq (flatCorners t.gridSize (L1 ++ L2)) (fun _ => 0, 0)).2 ≤ 65535 := hw
    constructor
    · omega
    · dsimp only
      omega

/-- Witness for C10: at gridSize 3 with maxError 0 the extraction
succeeds, produces at most 65535 vertices, and the stored indices obey
the 1-based bound. -/
theorem claim_C10_witness :
    getMesh tileC3 0 5 = some meshesC3a ∧ meshesC3a.2.numVertices ≤ 65535 ∧
    (∀ v, meshesC3a.1.indices v ≠ 0 →
      1 ≤ meshesC3a.1.indices v ∧ meshesC3a.1.indices v ≤ meshesC3a.2.numVertices) :=
  ⟨(Option.some_get _).symm, by decide,
   (claim_C10 tileC3 0 5 meshesC3a (Option.some_get _).symm (by decide)).2.1⟩

theorem iabs_eq_pos_iff (n p : ℤ) (hp : 0 ≤ p) : iabs n = p ↔ n = p ∨ n = -p := by
  unfold iabs; split <;> omega

theorem iabs_pair_one (x y : ℤ)
    (h : (x = 1 ∨ x = -1) ∧ y = 0 ∨ x = 0 ∧ (y = 1 ∨ y = -1)) :
    iabs x + iabs y = 1 := by
  unfold iabs
  rcases h with ⟨h1 | h1, h2⟩ | ⟨h1, h2 | h2⟩ <;> split <;> split <;> omega

theorem asr_double (x : ℤ) (h : x % 2 = 0) : 2 * asr x = x := by
  unfold asr
  rw [Int.fdiv_eq_ediv _ (by norm_num)]
  omega

/-- A diagonal-class triangle bisects into two axis-class triangles of
the same scale. -/
theorem legsDiag_children (t : ℕ) (ax ay bx bY cx cy : ℤ)
    (h : legsDiag t ax ay bx bY cx cy) :
    legsAxis t cx cy ax ay (asr (ax + bx)) (asr (ay + bY)) ∧
    legsAxis t bx bY cx cy (asr (ax + bx)) (asr (ay + bY)) := by
  simp only [legsDiag] at h
  simp only [legsAxis]
  have hp : (0:ℤ) ≤ 2 ^ t := by positivity
  simp only [iabs_eq_pos_iff _ _ hp] at h ⊢
  obtain ⟨⟨hux, huy⟩, hrot⟩ := h
  rcases hux with hux | hux <;> rcases huy with huy | huy <;>
    rcases hrot with ⟨h1, h2⟩ | ⟨h1, h2⟩ <;>
  · have hmx := asr_double (ax + bx) (by omega)
    have hmy := asr_double (ay + bY) (by omega)
    omega

/-- An axis-class triangle bisects into two diagonal-class triangles of
half the scale. -/
theorem legsAxis_children (t : ℕ) (ax ay bx bY cx cy : ℤ)
    (h : legsAxis (t + 1) ax ay bx bY cx cy) :
    legsDiag t cx cy ax ay (asr (ax + bx)) (asr (ay + bY)) ∧
    legsDiag t bx bY cx cy (asr (ax + bx)) (asr (ay + bY)) := by
  simp only [legsAxis] at h
  simp only [legsDiag]
  have hp : (0:ℤ) ≤ 2 ^ t := by positivity
  have hp1 : (0:ℤ) ≤ 2 ^ (t + 1) := by positivity
  have hsplit : (2:ℤ) ^ (t + 1) = 2 * 2 ^ t := by ring
  simp only [iabs_eq_pos_iff _ _ hp1] at h
  simp only [iabs_eq_pos_iff _ _ hp]
  simp only [hsplit] at h
  obtain ⟨hu, hrot⟩ := h
  rcases hu with ⟨hux, huy⟩ | ⟨hux, huy⟩
  · rcases hux with hux | hux <;> rcases hrot with ⟨h1, h2⟩ | ⟨h1, h2⟩ <;>
    · have hmx := asr_double (ax + bx) (by omega)
      have hmy := asr_double (ay + bY) (by omega)
      omega
  · rcases huy with huy | huy <;> rcases hrot with ⟨h1, h2⟩ | ⟨h1, h2⟩ <;>
    · have hmx := asr_double (ax + bx) (by omega)
      have hmy := asr_double (ay + bY) (by omega)
      omega

theorem leafTris_succ (errors : ℤ → ℚ) (size : ℤ) (e : ℚ) (fuel : ℕ)
    (ax ay bx bY cx cy : ℤ) :
    leafTris errors size e (fuel + 1) ax ay bx bY cx cy =
      if 1 < iabs (ax - cx) + iabs (ay - cy) ∧
          e < errors (asr (ay + bY) * size + asr (ax + bx)) then
        (leafTris errors size e fuel cx cy ax ay (asr (ax + bx)) (asr (ay + bY))).bind
          fun L1 =>
            (leafTris errors size e fuel bx bY cx cy (asr (ax + bx))
                (asr (ay + bY))).map fun L2 => L1 ++ L2
      else some [(ax, ay, bx, bY, cx, cy)] := by
  simp only [leafTris]

/-- Fuel sufficiency for the extraction descent: an axis-class triangle
of scale `2^t` completes within call depth `2t+1`, a diagonal-class one
within `2t+2`, for every error field and threshold. -/
theorem leafTris_shape_some (errors : ℤ → ℚ) (size : ℤ) (e : ℚ) :
    ∀ t : ℕ,
    (∀ ax ay bx bY cx cy : ℤ, legsAxis t ax ay bx bY cx cy →
      (leafTris errors size e (2 * t + 1) ax ay bx bY cx cy).isSome = true) ∧
    (∀ ax ay bx bY cx cy : ℤ, legsDiag t ax ay bx bY cx cy →
      (leafTris errors size e (2 * t + 2) ax ay bx bY cx cy).isSome = true) := by
  intro t
  induction t with
  | zero =>
    have hax : ∀ ax ay bx bY cx cy : ℤ, legsAxis 0 ax ay bx bY cx cy →
        (leafTris errors size e (2 * 0 + 1) ax ay bx bY cx cy).isSome = true := by
      intro ax ay bx bY cx cy h
      obtain ⟨h1, -⟩ := h
      simp only [pow_zero] at h1
      have hd : iabs (ax - cx) + iabs (ay - cy) = 1 := by
        apply iabs_pair_one
        rcases h1 with ⟨ha, hb⟩ | ⟨ha, hb⟩
        · exact Or.inl ⟨(iabs_eq_pos_iff _ _ one_pos.le).mp ha, hb⟩
        · exact Or.inr ⟨ha, (iabs_eq_pos_iff _ _ one_pos.le).mp hb⟩
      have hneg : ¬(1 < iabs (ax - cx) + iabs (ay - cy) ∧
          e < errors (asr (ay + bY) * size + asr (ax + bx))) := by
        rw [hd]; rintro ⟨hlt, -⟩; exact absurd hlt (by norm_num)
      rw [leafTris_succ, if_neg hneg]
      rfl
    refine ⟨hax, ?_⟩
    intro ax ay bx bY cx cy h
    have h2 : 2 * 0 + 2 = (2 * 0 + 1) + 1 := rfl
    rw [h2, leafTris_succ]
    by_cases hc : 1 < iabs (ax - cx) + iabs (ay - cy) ∧
        e < errors (asr (ay + bY) * size + asr (ax + bx))
    · rw [if_pos hc]
      obtain ⟨hcl, hcr⟩ := legsDiag_children 0 ax ay bx bY cx cy h
      obtain ⟨L1, hL1⟩ := Option.isSome_iff_exists.mp
        (hax cx cy ax ay (asr (ax + bx)) (asr (ay + bY)) hcl)
      obtain ⟨L2, hL2⟩ := Option.isSome_iff_exists.mp
        (hax bx bY cx cy (asr (ax + bx)) (asr (ay + bY)) hcr)
      rw [hL1, hL2]
      rfl
    · rw [if_neg hc]
      rfl
  | succ t ih =>
    have hax : ∀ ax ay bx bY cx cy : ℤ, legsAxis (t + 1) ax ay bx bY cx cy →
        (leafTris errors size e (2 * (t + 1) + 1) ax ay bx bY cx cy).isSome = true := by
      intro ax ay bx bY cx cy h
      have h2 : 2 * (t + 1) + 1 = (2 * t + 2) + 1 := by omega
      rw [h2, leafTris_succ]
      by_cases hc : 1 < iabs (ax - cx) + iabs (ay - cy) ∧
          e < errors (asr (ay + bY) * size + asr (ax + bx))
      · rw [if_pos hc]
        obtain ⟨hcl, hcr⟩ := legsAxis_children t ax ay bx bY cx cy h
        obtain ⟨L1, hL1⟩ := Option.isSome_iff_exists.mp
          (ih.2 cx cy ax ay (asr (ax + bx)) (asr (ay + bY)) hcl)
        obtain ⟨L2, hL2⟩ := Option.isSome_iff_exists.mp
          (ih.2 bx bY cx cy (asr (ax + bx)) (asr (ay + bY)) hcr)
        rw [hL1, hL2]
        rfl
      · rw [if_neg hc]
        rfl
    refine ⟨hax, ?_⟩
    intro ax ay bx bY cx cy h
    have h2 : 2 * (t + 1) + 2 = (2 * (t + 1) + 1) + 1 := by omega
    rw [h2, leafTris_succ]
    by_cases hc : 1 < iabs (ax - cx) + iabs (ay - cy) ∧
        e < errors (asr (ay + bY) * size + asr (ax + bx))
    · rw [if_pos hc]
      obtain ⟨hcl, hcr⟩ := legsDiag_children (t + 1) ax ay bx bY cx cy h
      obtain ⟨L1, hL1⟩ := Option.isSome_iff_exists.mp
        (hax cx cy ax ay (asr (ax + bx)) (asr (ay + bY)) hcl)
      obtain ⟨L2, hL2⟩ := Option.isSome_iff_exists.mp
        (hax bx bY cx cy (asr (ax + bx)) (asr (ay + bY)) hcr)
      rw [hL1, hL2]
      rfl
    · rw [if_neg hc]
      rfl

/-- C8 (corrected): the spec's bound `log2(tileSize) + 1` on the
recursion depth of the extraction descent is wrong: at gridSize 3
(tileSize 2, claimed bound 2) with an everywhere-positive error field and
threshold 0, `countElements` from the first root does not complete within
call depth 2.  The correct bound, proved in `claim_C8`, is
`2*log2(tileSize) + 1`. -/
theorem claim_C8_counterexample :
    Nat.log2 2 + 1 = 2 ∧ countElements 0 2 0 0 2 2 2 0 (tileC8, 0, 0) = none :=
  ⟨by simp [Nat.log2], rfl⟩

/-- C8 (amended): for every valid grid size `2^k + 1`, every error field
and every threshold, the whole extraction (both `countElements` and both
`processTriangle` root descents, as packaged by `getMesh`) completes
within call depth `2*k + 1 = 2*log2(tileSize) + 1`.  The spec's claimed
bound `log2(tileSize) + 1` is refuted by `claim_C8_counterexample`. -/
theorem claim_C8 (k : ℕ) (t : Tile) (e : ℚ) (h : t.gridSize = 2 ^ k + 1) :
    (getMesh t e (2 * k + 1)).isSome = true := by
  rw [getMesh_eq]
  have hts : t.gridSize - 1 = (2 : ℤ) ^ k := by rw [h]; ring
  have hp : (0:ℤ) ≤ 2 ^ k := by positivity
  have hroot1 : legsAxis k 0 0 (t.gridSize - 1) (t.gridSize - 1) (t.gridSize - 1) 0 := by
    rw [hts]
    simp only [legsAxis]
    refine ⟨Or.inl ⟨?_, by ring⟩, Or.inr ⟨by ring, by ring⟩⟩
    rw [iabs_eq_pos_iff _ _ hp]
    right; ring
  have hroot2 : legsAxis k (t.gridSize - 1) (t.gridSize - 1) 0 0 0 (t.gridSize - 1) := by
    rw [hts]
    simp only [legsAxis]
    refine ⟨Or.inl ⟨?_, by ring⟩, Or.inr ⟨by ring, by ring⟩⟩
    rw [iabs_eq_pos_iff _ _ hp]
    left; ring
  obtain ⟨L1, hL1⟩ := Option.isSome_iff_exists.mp
    ((leafTris_shape_some t.errors t.gridSize e k).1 _ _ _ _ _ _ hroot1)
  obtain ⟨L2, hL2⟩ := Option.isSome_iff_exists.mp
    ((leafTris_shape_some t.errors t.gridSize e k).1 _ _ _ _ _ _ hroot2)
  rw [hL1, hL2]
  rfl

/-- Witness for the amended C8 at gridSize 3 (`k = 1`). -/
theorem claim_C8_witness :
    tileC3.gridSize = 2 ^ 1 + 1 ∧ (getMesh tileC3 0 (2 * 1 + 1)).isSome = true :=
  ⟨rfl, claim_C8 1 tileC3 0 rfl⟩

theorem bisectLoop_step (id : ℕ) (h : 1 < id) (ax ay bx bY cx cy : ℤ) :
    bisectLoop id ax ay bx bY cx cy =
      if id % 2 = 1 then
        bisectLoop (id / 2) cx cy ax ay (asr (ax + bx)) (asr (ay + bY))
      else
        bisectLoop (id / 2) bx bY cx cy (asr (ax + bx)) (asr (ay + bY)) := by
  rw [bisectLoop]
  rw [dif_pos h]

theorem bisectLoop_base (id : ℕ) (h : ¬ 1 < id) (ax ay bx bY cx cy : ℤ) :
    bisectLoop id ax ay bx bY cx cy = (ax, ay, bx, bY, cx, cy) := by
  rw [bisectLoop]
  rw [dif_neg h]

/-- Appending a new bit `s` directly below the top set bit of the loop
counter performs one additional bisection step after all the existing
ones: the loop consumes the counter's bits from least significant to most
significant. -/
theorem bisectLoop_top (s : ℕ) (hs : s ≤ 1) :
    ∀ j n : ℕ, 2 ^ j ≤ n → n < 2 ^ (j + 1) →
    ∀ ax ay bx bY cx cy : ℤ,
    bisectLoop (n + (1 + s) * 2 ^ j) ax ay bx bY cx cy =
      bisectStep s (bisectLoop n ax ay bx bY cx cy) := by
  intro j
  induction j with
  | zero =>
    intro n h1 h2 ax ay bx bY cx cy
    have hn : n = 1 := by norm_num at h1 h2; omega
    subst hn
    rcases Nat.le_one_iff_eq_zero_or_eq_one.mp hs with rfl | rfl
    · have h12 : 1 + (1 + 0) * 2 ^ 0 = 2 := by norm_num
      rw [h12, bisectLoop_step 2 (by norm_num), if_neg (by norm_num),
        bisectLoop_base 1 (by norm_num), bisectLoop_base 1 (by norm_num)]
      simp [bisectStep]
    · have h13 : 1 + (1 + 1) * 2 ^ 0 = 3 := by norm_num
      rw [h13, bisectLoop_step 3 (by norm_num), if_pos (by norm_num),
        bisectLoop_base 1 (by norm_num), bisectLoop_base 1 (by norm_num)]
      simp [bisectStep]
  | succ j ih =>
    intro n h1 h2 ax ay bx bY cx cy
    have hq : 1 ≤ 2 ^ j := Nat.one_le_two_pow
    have hps : (1 + s) * 2 ^ (j + 1) = 2 * ((1 + s) * 2 ^ j) := by ring
    have hp2 : 2 ^ (j + 1) = 2 * 2 ^ j := by ring
    have hp3 : 2 ^ (j + 1 + 1) = 2 * 2 ^ (j + 1) := by ring
    rw [hps]
    have hw1 : 2 ^ j ≤ (1 + s) * 2 ^ j := Nat.le_mul_of_pos_left _ (by omega)
    have hn1 : 1 < n := by omega
    rw [bisectLoop_step (n + 2 * ((1 + s) * 2 ^ j)) (by omega),
      bisectLoop_step n hn1]
    have hmod : (n + 2 * ((1 + s) * 2 ^ j)) % 2 = n % 2 := by omega
    have hdiv : (n + 2 * ((1 + s) * 2 ^ j)) / 2 = n / 2 + (1 + s) * 2 ^ j := by omega
    rw [hmod, hdiv]
    have hd1 : 2 ^ j ≤ n / 2 := by omega
    have hd2 : n / 2 < 2 ^ (j + 1) := by omega
    by_cases hpar : n % 2 = 1
    · rw [if_pos hpar, if_pos hpar]
      exact ih (n / 2) hd1 hd2 cx cy ax ay (asr (ax + bx)) (asr (ay + bY))
    · rw [if_neg hpar, if_neg hpar]
      exact ih (n / 2) hd1 hd2 bx bY cx cy (asr (ax + bx)) (asr (ay + bY))

/-- C6 counterexample: the initial corners of the two root triangles are
the opposite of what the claim says.  Table entry 0 (id 2) starts with
a = (tileSize, tileSize) and b = (0, 0) (here tileSize = 2), not
a = (0, 0), b = (tileSize, tileSize). -/
theorem claim_C6_counterexample :
    triangleCorners 2 0 = (2, 2, 0, 0, 0, 2) ∧
    ¬((triangleCorners 2 0).1 = 0 ∧ (triangleCorners 2 0).2.1 = 0 ∧
      (triangleCorners 2 0).2.2.1 = 2 ∧ (triangleCorners 2 0).2.2.2.1 = 2) := by
  have h : triangleCorners 2 0 = (2, 2, 0, 0, 0, 2) := by
    simp only [triangleCorners]
    norm_num
    exact bisectLoop_base 1 (by norm_num) 2 2 0 0 0 2
  refine ⟨h, ?_⟩
  rw [h]
  decide

/-- C6 (amended): the triangle with id 2 (table entry `i = 0`) starts
with corners a = (tileSize, tileSize), b = (0, 0), c = (0, tileSize),
and the triangle with id 3 (entry `i = 1`) with a = (0, 0),
b = (tileSize, tileSize), c = (tileSize, 0) — the opposite of the
claimed assignment.  The bits of the id below the top set bit are
consumed least-significant first, not most-significant first: appending
a bit `s` directly below the top set bit of the id performs one
additional left-half (`s = 1`: new b,a ← old a, old c) or right-half
(`s = 0`: new a,b ← old b, old c) bisection after all existing ones,
with the new third corner at the old hypotenuse midpoint. -/
theorem claim_C6 (ts : ℤ) :
    triangleCorners ts 0 = (ts, ts, 0, 0, 0, ts) ∧
    triangleCorners ts 1 = (0, 0, ts, ts, ts, 0) ∧
    (∀ i K s : ℕ, s ≤ 1 → 2 ^ K ≤ i + 2 → i + 2 < 2 ^ (K + 1) →
      triangleCorners ts (i + (1 + s) * 2 ^ K) =
        bisectStep s (triangleCorners ts i)) := by
  refine ⟨?_, ?_, ?_⟩
  · simp only [triangleCorners]
    norm_num
    exact bisectLoop_base 1 (by norm_num) ts ts 0 0 0 ts
  · simp only [triangleCorners]
    norm_num
    exact bisectLoop_base 1 (by norm_num) 0 0 ts ts ts 0
  · intro i K s hs hK1 hK2
    cases K with
    | zero => exfalso; norm_num at hK2
    | succ K =>
      have hq : 1 ≤ 2 ^ K := Nat.one_le_two_pow
      have hps : (1 + s) * 2 ^ (K + 1) = 2 * ((1 + s) * 2 ^ K) := by ring
      have hp2 : 2 ^ (K + 1) = 2 * 2 ^ K := by ring
      have hp3 : 2 ^ (K + 1 + 1) = 2 * 2 ^ (K + 1) := by ring
      simp only [triangleCorners]
      rw [hps]
      have hmod : (i + 2 * ((1 + s) * 2 ^ K) + 2) % 2 = (i + 2) % 2 := by omega
      have hdiv : (i + 2 * ((1 + s) * 2 ^ K) + 2) / 2 =
          (i + 2) / 2 + (1 + s) * 2 ^ K := by omega
      rw [hmod, hdiv]
      have hd1 : 2 ^ K ≤ (i + 2) / 2 := by omega
      have hd2 : (i + 2) / 2 < 2 ^ (K + 1) := by omega
      by_cases hpar : (i + 2) % 2 = 1
      · rw [if_pos hpar, if_pos hpar]
        exact bisectLoop_top s hs K ((i + 2) / 2) hd1 hd2 0 0 ts ts ts 0
      · rw [if_neg hpar, if_neg hpar]
        exact bisectLoop_top s hs K ((i + 2) / 2) hd1 hd2 ts ts 0 0 0 ts

/-- Witness for the amended C6: tileSize 4, id 3 with an appended
right-half bit (id 5, table entry 3). -/
theorem claim_C6_witness :
    triangleCorners 4 0 = (4, 4, 0, 0, 0, 4) ∧
    triangleCorners 4 (1 + (1 + 0) * 2 ^ 1) = bisectStep 0 (triangleCorners 4 1) :=
  ⟨(claim_C6 4).1, (claim_C6 4).2.2 1 1 0 (by norm_num) (by norm_num) (by norm_num)⟩

theorem asr_eq_div (x : ℤ) : asr x = x / 2 := Int.fdiv_eq_ediv x (by norm_num)

theorem bisectLoopF_eq : ∀ f id : ℕ, id ≤ f → ∀ ax ay bx bY cx cy : ℤ,
    bisectLoopF f id ax ay bx bY cx cy = bisectLoop id ax ay bx bY cx cy := by
  intro f
  induction f with
  | zero =>
    intro id h ax ay bx bY cx cy
    have hid : id = 0 := by omega
    subst hid
    rw [bisectLoop_base 0 (by norm_num)]
    rfl
  | succ f ih =>
    intro id h ax ay bx bY cx cy
    by_cases h1 : 1 < id
    · simp only [bisectLoopF]
      rw [if_pos h1, bisectLoop_step id h1]
      by_cases h2 : id % 2 = 1
      · rw [if_pos h2, if_pos h2]
        exact ih (id / 2) (by omega) _ _ _ _ _ _
      · rw [if_neg h2, if_neg h2]
        exact ih (id / 2) (by omega) _ _ _ _ _ _
    · simp only [bisectLoopF]
      rw [if_neg h1, bisectLoop_base id h1]

theorem triangleCornersF_eq (ts : ℤ) (i : ℕ) :
    triangleCornersF ts i = triangleCorners ts i := by
  simp only [triangleCornersF, triangleCorners]
  by_cases h : (i + 2) % 2 = 1
  · rw [if_pos h, if_pos h]
    exact bisectLoopF_eq (i + 2) ((i + 2) / 2) (Nat.div_le_self _ _) _ _ _ _ _ _
  · rw [if_neg h, if_neg h]
    exact bisectLoopF_eq (i + 2) ((i + 2) / 2) (Nat.div_le_self _ _) _ _ _ _ _ _

theorem coordsAt_eq_F (ts : ℤ) (i : ℕ) : coordsAt ts i =
    (u16 (triangleCornersF ts i).1, u16 (triangleCornersF ts i).2.1,
     u16 (triangleCornersF ts i).2.2.1, u16 (triangleCornersF ts i).2.2.2.1) := by
  unfold coordsAt
  rw [triangleCornersF_eq]

/-- `Tile.Update` loop body at a non-parent position, written with the
computed quantities as explicit parameters. -/
theorem updateStep_leaf_eval (t : Tile) (i : ℕ) (ax ay bx bY mi : ℤ)
    (hc : t.coords i = (ax, ay, bx, bY))
    (hmi : mi = u16 (ay + bY) / 2 * t.gridSize + u16 (ax + bx) / 2)
    (hnp : ¬ ((i : ℤ) < t.numParentTriangles)) :
    updateStep t i = { t with errors := (Function.update t.errors mi
      (max (t.errors mi)
        |(t.terrain (ay * t.gridSize + ax) + t.terrain (bY * t.gridSize + bx)) / 2 -
          t.terrain mi|)) } := by
  subst hmi
  simp only [updateStep]
  rw [hc]
  rw [if_neg hnp]

/-- `Tile.Update` loop body at a parent position, with the computed
quantities as explicit parameters and the two same-slot writes merged. -/
theorem updateStep_parent_eval (t : Tile) (i : ℕ)
    (ax ay bx bY mx my cx cy mi li ri : ℤ) (w1 : ℚ)
    (hc : t.coords i = (ax, ay, bx, bY))
    (hmx : mx = u16 (ax + bx) / 2) (hmy : my = u16 (ay + bY) / 2)
    (hcx : cx = u16 (mx + my - ay)) (hcy : cy = u16 (my + ax - mx))
    (hmi : mi = my * t.gridSize + mx)
    (hli : li = u16 (ay + cy) / 2 * t.gridSize + u16 (ax + cx) / 2)
    (hri : ri = u16 (bY + cy) / 2 * t.gridSize + u16 (bx + cx) / 2)
    (hw1 : w1 = max (t.errors mi)
      |(t.terrain (ay * t.gridSize + ax) + t.terrain (bY * t.gridSize + bx)) / 2 -
        t.terrain mi|)
    (hp : (i : ℤ) < t.numParentTriangles) :
    updateStep t i = { t with errors := (Function.update t.errors mi
      (max (max w1 (Function.update t.errors mi w1 li))
        (Function.update t.errors mi w1 ri))) } := by
  subst hmx
  subst hmy
  subst hcx
  subst hcy
  subst hmi
  subst hli
  subst hri
  subst hw1
  simp only [updateStep]
  rw [hc]
  rw [if_pos hp]
  simp only [Function.update_idem, Function.update_same]

theorem updateAux_succ (n : ℕ) (t : Tile) :
    updateAux (n + 1) t = updateAux n (updateStep t n) := rfl

/-- Full evaluation of `Tile.Update` on `tile5`. -/
theorem tileUpdate_tile5 : tileUpdate tile5 = { tile5 with errors := errU30 } := by
  have hco0 : coordsAt 4 0 = (4, 4, 0, 0) := by
    rw [coordsAt_eq_F]
    rfl
  have hco1 : coordsAt 4 1 = (0, 0, 4, 4) := by
    rw [coordsAt_eq_F]
    rfl
  have hco2 : coordsAt 4 2 = (0, 0, 0, 4) := by
    rw [coordsAt_eq_F]
    rfl
  have hco3 : coordsAt 4 3 = (4, 4, 4, 0) := by
    rw [coordsAt_eq_F]
    rfl
  have hco4 : coordsAt 4 4 = (0, 4, 4, 4) := by
    rw [coordsAt_eq_F]
    rfl
  have hco5 : coordsAt 4 5 = (4, 0, 0, 0) := by
    rw [coordsAt_eq_F]
    rfl
  have hco6 : coordsAt 4 6 = (0, 4, 2, 2) := by
    rw [coordsAt_eq_F]
    rfl
  have hco7 : coordsAt 4 7 = (4, 0, 2, 2) := by
    rw [coordsAt_eq_F]
    rfl
  have hco8 : coordsAt 4 8 = (4, 4, 2, 2) := by
    rw [coordsAt_eq_F]
    rfl
  have hco9 : coordsAt 4 9 = (0, 0, 2, 2) := by
    rw [coordsAt_eq_F]
    rfl
  have hco10 : coordsAt 4 10 = (2, 2, 0, 0) := by
    rw [coordsAt_eq_F]
    rfl
  have hco11 : coordsAt 4 11 = (2, 2, 4, 4) := by
    rw [coordsAt_eq_F]
    rfl
  have hco12 : coordsAt 4 12 = (2, 2, 0, 4) := by
    rw [coordsAt_eq_F]
    rfl
  have hco13 : coordsAt 4 13 = (2, 2, 4, 0) := by
    rw [coordsAt_eq_F]
    rfl
  have hco14 : coordsAt 4 14 = (2, 2, 0, 2) := by
    rw [coordsAt_eq_F]
    rfl
  have hco15 : coordsAt 4 15 = (2, 2, 4, 2) := by
    rw [coordsAt_eq_F]
    rfl
  have hco16 : coordsAt 4 16 = (2, 2, 2, 4) := by
    rw [coordsAt_eq_F]
    rfl
  have hco17 : coordsAt 4 17 = (2, 2, 2, 0) := by
    rw [coordsAt_eq_F]
    rfl
  have hco18 : coordsAt 4 18 = (0, 0, 0, 2) := by
    rw [coordsAt_eq_F]
    rfl
  have hco19 : coordsAt 4 19 = (4, 4, 4, 2) := by
    rw [coordsAt_eq_F]
    rfl
  have hco20 : coordsAt 4 20 = (0, 4, 2, 4) := by
    rw [coordsAt_eq_F]
    rfl
  have hco21 : coordsAt 4 21 = (4, 0, 2, 0) := by
    rw [coordsAt_eq_F]
    rfl
  have hco22 : coordsAt 4 22 = (0, 2, 0, 4) := by
    rw [coordsAt_eq_F]
    rfl
  have hco23 : coordsAt 4 23 = (4, 2, 4, 0) := by
    rw [coordsAt_eq_F]
    rfl
  have hco24 : coordsAt 4 24 = (2, 4, 4, 4) := by
    rw [coordsAt_eq_F]
    rfl
  have hco25 : coordsAt 4 25 = (2, 0, 0, 0) := by
    rw [coordsAt_eq_F]
    rfl
  have hco26 : coordsAt 4 26 = (0, 2, 2, 2) := by
    rw [coordsAt_eq_F]
    rfl
  have hco27 : coordsAt 4 27 = (4, 2, 2, 2) := by
    rw [coordsAt_eq_F]
    rfl
  have hco28 : coordsAt 4 28 = (2, 4, 2, 2) := by
    rw [coordsAt_eq_F]
    rfl
  have hco29 : coordsAt 4 29 = (2, 0, 2, 2) := by
    rw [coordsAt_eq_F]
    rfl
  have s29 : updateStep tile5 29 = ({ tile5 with errors := errU1 } : Tile) := by
    rw [updateStep_leaf_eval tile5 29 2 0 2 2 7
      hco29 (by norm_num [u16, tile5]) (by norm_num [tile5])]
    dsimp only [tile5, errU1]
    congr 1 <;> congr 1 <;> norm_num [Function.update_apply, max_def, tile5, errU1, errU2, errU3, errU4, errU5, errU6, errU7, errU8, errU9, errU10, errU11, errU12, errU13, errU14, errU15, errU16, errU17, errU18, errU19, errU20, errU21, errU22, errU23, errU24, errU25, errU26, errU27, errU28, errU29, errU30]
  have s28 : updateStep ({ tile5 with errors := errU1 } : Tile) 28 = ({ tile5 with errors := errU2 } : Tile) := by
    rw [updateStep_leaf_eval ({ tile5 with errors := errU1 } : Tile) 28 2 4 2 2 17
      hco28 (by norm_num [u16, tile5]) (by norm_num [tile5])]
    dsimp only [tile5, errU2]
    congr 1 <;> congr 1 <;> norm_num [Function.update_apply, max_def, tile5, errU1, errU2, errU3, errU4, errU5, errU6, errU7, errU8, errU9, errU10, errU11, errU12, errU13, errU14, errU15, errU16, errU17, errU18, errU19, errU20, errU21, errU22, errU23, errU24, errU25, errU26, errU27, errU28, errU29, errU30]
  have s27 : updateStep ({ tile5 with errors := errU2 } : Tile) 27 = ({ tile5 with errors := errU3 } : Tile) := by
    rw [updateStep_leaf_eval ({ tile5 with errors := errU2 } : Tile) 27 4 2 2 2 13
      hco27 (by norm_num [u16, tile5]) (by norm_num [tile5])]
    dsimp only [tile5, errU3]
    congr 1 <;> congr 1 <;> norm_num [Function.update_apply, max_def, tile5, errU1, errU2, errU3, errU4, errU5, errU6, errU7, errU8, errU9, errU10, errU11, errU12, errU13, errU14, errU15, errU16, errU17, errU18, errU19, errU20, errU21, errU22, errU23, errU24, errU25, errU26, errU27, errU28, errU29, errU30]
  have s26 : updateStep ({ tile5 with errors := errU3 } : Tile) 26 = ({ tile5 with errors := errU4 } : Tile) := by
    rw [updateStep_leaf_eval ({ tile5 with errors := errU3 } : Tile) 26 0 2 2 2 11
      hco26 (by norm_num [u16, tile5]) (by norm_num [tile5])]
    dsimp only [tile5, errU4]
    congr 1 <;> congr 1 <;> norm_num [Function.update_apply, max_def, tile5, errU1, errU2, errU3, errU4, errU5, errU6, errU7, errU8, errU9, errU10, errU11, errU12, errU13, errU14, errU15, errU16, errU17, errU18, errU19, errU20, errU21, errU22, errU23, errU24, errU25, errU26, errU27, errU28, errU29, errU30]
  have s25 : updateStep ({ tile5 with errors := errU4 } : Tile) 25 = ({ tile5 with errors := errU5 } : Tile) := by
    rw [updateStep_leaf_eval ({ tile5 with errors := errU4 } : Tile) 25 2 0 0 0 1
      hco25 (by norm_num [u16, tile5]) (by norm_num [tile5])]
    dsimp only [tile5, errU5]
    congr 1 <;> congr 1 <;> norm_num [Function.update_apply, max_def, tile5, errU1, errU2, errU3, errU4, errU5, errU6, errU7, errU8, errU9, errU10, errU11, errU12, errU13, errU14, errU15, errU16, errU17, errU18, errU19, errU20, errU21, errU22, errU23, errU24, errU25, errU26, errU27, errU28, errU29, errU30]
  have s24 : updateStep ({ tile5 with errors := errU5 } : Tile) 24 = ({ tile5 with errors := errU6 } : Tile) := by
    rw [updateStep_leaf_eval ({ tile5 with errors := errU5 } : Tile) 24 2 4 4 4 23
      hco24 (by norm_num [u16, tile5]) (by norm_num [tile5])]
    dsimp only [tile5, errU6]
    congr 1 <;> congr 1 <;> norm_num [Function.update_apply, max_def, tile5, errU1, errU2, errU3, errU4, errU5, errU6, errU7, errU8, errU9, errU10, errU11, errU12, errU13, errU14, errU15, errU16, errU17, errU18, errU19, errU20, errU21, errU22, errU23, errU24, errU25, errU26, errU27, errU28, errU29, errU30]
  have s23 : updateStep ({ tile5 with errors := errU6 } : Tile) 23 = ({ tile5 with errors := errU7 } : Tile) := by
    rw [updateStep_leaf_eval ({ tile5 with errors := errU6 } : Tile) 23 4 2 4 0 9
      hco23 (by norm_num [u16, tile5]) (by norm_num [tile5])]
    dsimp only [tile5, errU7]
    congr 1 <;> congr 1 <;> norm_num [Function.update_apply, max_def, tile5, errU1, errU2, errU3, errU4, errU5, errU6, errU7, errU8, errU9, errU10, errU11, errU12, errU13, errU14, errU15, errU16, errU17, errU18, errU19, errU20, errU21, errU22, errU23, errU24, errU25, errU26, errU27, errU28, errU29, errU30]
  have s22 : updateStep ({ tile5 with errors := errU7 } : Tile) 22 = ({ tile5 with errors := errU8 } : Tile) := by
    rw [updateStep_leaf_eval ({ tile5 with errors := errU7 } : Tile) 22 0 2 0 4 15
      hco22 (by norm_num [u16, tile5]) (by norm_num [tile5])]
    dsimp only [tile5, errU8]
    congr 1 <;> congr 1 <;> norm_num [Function.update_apply, max_def, tile5, errU1, errU2, errU3, errU4, errU5, errU6, errU7, errU8, errU9, errU10, errU11, errU12, errU13, errU14, errU15, errU16, errU17, errU18, errU19, errU20, errU21, errU22, errU23, errU24, errU25, errU26, errU27, errU28, errU29, errU30]
  have s21 : updateStep ({ tile5 with errors := errU8 } : Tile) 21 = ({ tile5 with errors := errU9 } : Tile) := by
    rw [updateStep_leaf_eval ({ tile5 with errors := errU8 } : Tile) 21 4 0 2 0 3
      hco21 (by norm_num [u16, tile5]) (by norm_num [tile5])]
    dsimp only [tile5, errU9]
    congr 1 <;> congr 1 <;> norm_num [Function.update_apply, max_def, tile5, errU1, errU2, errU3, errU4, errU5, errU6, errU7, errU8, errU9, errU10, errU11, errU12, errU13, errU14, errU15, errU16, errU17, errU18, errU19, errU20, errU21, errU22, errU23, errU24, errU25, errU26, errU27, errU28, errU29, errU30]
  have s20 : updateStep ({ tile5 with errors := errU9 } : Tile) 20 = ({ tile5 with errors := errU10 } : Tile) := by
    rw [updateStep_leaf_eval ({ tile5 with errors := errU9 } : Tile) 20 0 4 2 4 21
      hco20 (by norm_num [u16, tile5]) (by norm_num [tile5])]
    dsimp only [tile5, errU10]
    congr 1 <;> congr 1 <;> norm_num [Function.update_apply, max_def, tile5, errU1, errU2, errU3, errU4, errU5, errU6, errU7, errU8, errU9, errU10, errU11, errU12, errU13, errU14, errU15, errU16, errU17, errU18, errU19, errU20, errU21, errU22, errU23, errU24, errU25, errU26, errU27, errU28, errU29, errU30]
  have s19 : updateStep ({ tile5 with errors := errU10 } : Tile) 19 = ({ tile5 with errors := errU11 } : Tile) := by
    rw [updateStep_leaf_eval ({ tile5 with errors := errU10 } : Tile) 19 4 4 4 2 19
      hco19 (by norm_num [u16, tile5]) (by norm_num [tile5])]
    dsimp only [tile5, errU11]
    congr 1 <;> congr 1 <;> norm_num [Function.update_apply, max_def, tile5, errU1, errU2, errU3, errU4, errU5, errU6, errU7, errU8, errU9, errU10, errU11, errU12, errU13, errU14, errU15, errU16, errU17, errU18, errU19, errU20, errU21, errU22, errU23, errU24, errU25, errU26, errU27, errU28, errU29, errU30]
  have s18 : updateStep ({ tile5 with errors := errU11 } : Tile) 18 = ({ tile5 with errors := errU12 } : Tile) := by
    rw [updateStep_leaf_eval ({ tile5 with errors := errU11 } : Tile) 18 0 0 0 2 5
      hco18 (by norm_num [u16, tile5]) (by norm_num [tile5])]
    dsimp only [tile5, errU12]
    congr 1 <;> congr 1 <;> norm_num [Function.update_apply, max_def, tile5, errU1, errU2, errU3, errU4, errU5, errU6, errU7, errU8, errU9, errU10, errU11, errU12, errU13, errU14, errU15, errU16, errU17, errU18, errU19, errU20, errU21, errU22, errU23, errU24, errU25, errU26, errU27, errU28, errU29, errU30]
  have s17 : updateStep ({ tile5 with errors := errU12 } : Tile) 17 = ({ tile5 with errors := errU13 } : Tile) := by
    rw [updateStep_leaf_eval ({ tile5 with errors := errU12 } : Tile) 17 2 2 2 0 7
      hco17 (by norm_num [u16, tile5]) (by norm_num [tile5])]
    dsimp only [tile5, errU13]
    congr 1 <;> congr 1 <;> norm_num [Function.update_apply, max_def, tile5, errU1, errU2, errU3, errU4, errU5, errU6, errU7, errU8, errU9, errU10, errU11, errU12, errU13, errU14, errU15, errU16, errU17, errU18, errU19, errU20, errU21, errU22, errU23, errU24, errU25, errU26, errU27, errU28, errU29, errU30]
  have s16 : updateStep ({ tile5 with errors := errU13 } : Tile) 16 = ({ tile5 with errors := errU14 } : Tile) := by
    rw [updateStep_leaf_eval ({ tile5 with errors := errU13 } : Tile) 16 2 2 2 4 17
      hco16 (by norm_num [u16, tile5]) (by norm_num [tile5])]
    dsimp only [tile5, errU14]
    congr 1 <;> congr 1 <;> norm_num [Function.update_apply, max_def, tile5, errU1, errU2, errU3, errU4, errU5, errU6, errU7, errU8, errU9, errU10, errU11, errU12, errU13, errU14, errU15, errU16, errU17, errU18, errU19, errU20, errU21, errU22, errU23, errU24, errU25, errU26, errU27, errU28, errU29, errU30]
  have s15 : updateStep ({ tile5 with errors := errU14 } : Tile) 15 = ({ tile5 with errors := errU15 } : Tile) := by
    rw [updateStep_leaf_eval ({ tile5 with errors := errU14 } : Tile) 15 2 2 4 2 13
      hco15 (by norm_num [u16, tile5]) (by norm_num [tile5])]
    dsimp only [tile5, errU15]
    congr 1 <;> congr 1 <;> norm_num [Function.update_apply, max_def, tile5, errU1, errU2, errU3, errU4, errU5, errU6, errU7, errU8, errU9, errU10, errU11, errU12, errU13, errU14, errU15, errU16, errU17, errU18, errU19, errU20, errU21, errU22, errU23, errU24, errU25, errU26, errU27, errU28, errU29, errU30]
  have s14 : updateStep ({ tile5 with errors := errU15 } : Tile) 14 = ({ tile5 with errors := errU16 } : Tile) := by
    rw [updateStep_leaf_eval ({ tile5 with errors := errU15 } : Tile) 14 2 2 0 2 11
      hco14 (by norm_num [u16, tile5]) (by norm_num [tile5])]
    dsimp only [tile5, errU16]
    congr 1 <;> congr 1 <;> norm_num [Function.update_apply, max_def, tile5, errU1, errU2, errU3, errU4, errU5, errU6, errU7, errU8, errU9, errU10, errU11, errU12, errU13, errU14, errU15, errU16, errU17, errU18, errU19, errU20, errU21, errU22, errU23, errU24, errU25, errU26, errU27, errU28, errU29, errU30]
  have s13 : updateStep ({ tile5 with errors := errU16 } : Tile) 13 = ({ tile5 with errors := errU17 } : Tile) := by
    rw [updateStep_parent_eval ({ tile5 with errors := errU16 } : Tile) 13 2 2 4 0 3 1 2 0 8 7 3 0
      hco13 (by norm_num [u16, tile5]) (by norm_num [u16, tile5])
      (by norm_num [u16, tile5]) (by norm_num [u16, tile5])
      (by norm_num [u16, tile5]) (by norm_num [u16, tile5])
      (by norm_num [u16, tile5])
      (by norm_num [Function.update_apply, max_def, tile5, errU1, errU2, errU3, errU4, errU5, errU6, errU7, errU8, errU9, errU10, errU11, errU12, errU13, errU14, errU15, errU16, errU17, errU18, errU19, errU20, errU21, errU22, errU23, errU24, errU25, errU26, errU27, errU28, errU29, errU30]) (by norm_num [tile5])]
    dsimp only [tile5, errU17]
    congr 1 <;> congr 1 <;> norm_num [Function.update_apply, max_def, tile5, errU1, errU2, errU3, errU4, errU5, errU6, errU7, errU8, errU9, errU10, errU11, errU12, errU13, errU14, errU15, errU16, errU17, errU18, errU19, errU20, errU21, errU22, errU23, errU24, errU25, errU26, errU27, errU28, errU29, errU30]
  have s12 : updateStep ({ tile5 with errors := errU17 } : Tile) 12 = ({ tile5 with errors := errU18 } : Tile) := by
    rw [updateStep_parent_eval ({ tile5 with errors := errU17 } : Tile) 12 2 2 0 4 1 3 2 4 16 17 21 0
      hco12 (by norm_num [u16, tile5]) (by norm_num [u16, tile5])
      (by norm_num [u16, tile5]) (by norm_num [u16, tile5])
      (by norm_num [u16, tile5]) (by norm_num [u16, tile5])
      (by norm_num [u16, tile5])
      (by norm_num [Function.update_apply, max_def, tile5, errU1, errU2, errU3, errU4, errU5, errU6, errU7, errU8, errU9, errU10, errU11, errU12, errU13, errU14, errU15, errU16, errU17, errU18, errU19, errU20, errU21, errU22, errU23, errU24, errU25, errU26, errU27, errU28, errU29, errU30]) (by norm_num [tile5])]
    dsimp only [tile5, errU18]
    congr 1 <;> congr 1 <;> norm_num [Function.update_apply, max_def, tile5, errU1, errU2, errU3, errU4, errU5, errU6, errU7, errU8, errU9, errU10, errU11, errU12, errU13, errU14, errU15, errU16, errU17, errU18, errU19, errU20, errU21, errU22, errU23, errU24, errU25, errU26, errU27, errU28, errU29, errU30]
  have s11 : updateStep ({ tile5 with errors := errU18 } : Tile) 11 = ({ tile5 with errors := errU19 } : Tile) := by
    rw [updateStep_parent_eval ({ tile5 with errors := errU18 } : Tile) 11 2 2 4 4 3 3 4 2 18 13 19 0
      hco11 (by norm_num [u16, tile5]) (by norm_num [u16, tile5])
      (by norm_num [u16, tile5]) (by norm_num [u16, tile5])
      (by norm_num [u16, tile5]) (by norm_num [u16, tile5])
      (by norm_num [u16, tile5])
      (by norm_num [Function.update_apply, max_def, tile5, errU1, errU2, errU3, errU4, errU5, errU6, errU7, errU8, errU9, errU10, errU11, errU12, errU13, errU14, errU15, errU16, errU17, errU18, errU19, errU20, errU21, errU22, errU23, errU24, errU25, errU26, errU27, errU28, errU29, errU30]) (by norm_num [tile5])]
    dsimp only [tile5, errU19]
    congr 1 <;> congr 1 <;> norm_num [Function.update_apply, max_def, tile5, errU1, errU2, errU3, errU4, errU5, errU6, errU7, errU8, errU9, errU10, errU11, errU12, errU13, errU14, errU15, errU16, errU17, errU18, errU19, errU20, errU21, errU22, errU23, errU24, errU25, errU26, errU27, errU28, errU29, errU30]
  have s10 : updateStep ({ tile5 with errors := errU19 } : Tile) 10 = ({ tile5 with errors := errU20 } : Tile) := by
    rw [updateStep_parent_eval ({ tile5 with errors := errU19 } : Tile) 10 2 2 0 0 1 1 0 2 6 11 5 0
      hco10 (by norm_num [u16, tile5]) (by norm_num [u16, tile5])
      (by norm_num [u16, tile5]) (by norm_num [u16, tile5])
      (by norm_num [u16, tile5]) (by norm_num [u16, tile5])
      (by norm_num [u16, tile5])
      (by norm_num [Function.update_apply, max_def, tile5, errU1, errU2, errU3, errU4, errU5, errU6, errU7, errU8, errU9, errU10, errU11, errU12, errU13, errU14, errU15, errU16, errU17, errU18, errU19, errU20, errU21, errU22, errU23, errU24, errU25, errU26, errU27, errU28, errU29, errU30]) (by norm_num [tile5])]
    dsimp only [tile5, errU20]
    congr 1 <;> congr 1 <;> norm_num [Function.update_apply, max_def, tile5, errU1, errU2, errU3, errU4, errU5, errU6, errU7, errU8, errU9, errU10, errU11, errU12, errU13, errU14, errU15, errU16, errU17, errU18, errU19, errU20, errU21, errU22, errU23, errU24, errU25, errU26, errU27, errU28, errU29, errU30]
  have s9 : updateStep ({ tile5 with errors := errU20 } : Tile) 9 = ({ tile5 with errors := errU21 } : Tile) := by
    rw [updateStep_parent_eval ({ tile5 with errors := errU20 } : Tile) 9 0 0 2 2 1 1 2 0 6 1 7 0
      hco9 (by norm_num [u16, tile5]) (by norm_num [u16, tile5])
      (by norm_num [u16, tile5]) (by norm_num [u16, tile5])
      (by norm_num [u16, tile5]) (by norm_num [u16, tile5])
      (by norm_num [u16, tile5])
      (by norm_num [Function.update_apply, max_def, tile5, errU1, errU2, errU3, errU4, errU5, errU6, errU7, errU8, errU9, errU10, errU11, errU12, errU13, errU14, errU15, errU16, errU17, errU18, errU19, errU20, errU21, errU22, errU23, errU24, errU25, errU26, errU27, errU28, errU29, errU30]) (by norm_num [tile5])]
    dsimp only [tile5, errU21]
    congr 1 <;> congr 1 <;> norm_num [Function.update_apply, max_def, tile5, errU1, errU2, errU3, errU4, errU5, errU6, errU7, errU8, errU9, errU10, errU11, errU12, errU13, errU14, errU15, errU16, errU17, errU18, errU19, errU20, errU21, errU22, errU23, errU24, errU25, errU26, errU27, errU28, errU29, errU30]
  have s8 : updateStep ({ tile5 with errors := errU21 } : Tile) 8 = ({ tile5 with errors := errU22 } : Tile) := by
    rw [updateStep_parent_eval ({ tile5 with errors := errU21 } : Tile) 8 4 4 2 2 3 3 2 4 18 23 17 0
      hco8 (by norm_num [u16, tile5]) (by norm_num [u16, tile5])
      (by norm_num [u16, tile5]) (by norm_num [u16, tile5])
      (by norm_num [u16, tile5]) (by norm_num [u16, tile5])
      (by norm_num [u16, tile5])
      (by norm_num [Function.update_apply, max_def, tile5, errU1, errU2, errU3, errU4, errU5, errU6, errU7, errU8, errU9, errU10, errU11, errU12, errU13, errU14, errU15, errU16, errU17, errU18, errU19, errU20, errU21, errU22, errU23, errU24, errU25, errU26, errU27, errU28, errU29, errU30]) (by norm_num [tile5])]
    dsimp only [tile5, errU22]
    congr 1 <;> congr 1 <;> norm_num [Function.update_apply, max_def, tile5, errU1, errU2, errU3, errU4, errU5, errU6, errU7, errU8, errU9, errU10, errU11, errU12, errU13, errU14, errU15, errU16, errU17, errU18, errU19, errU20, errU21, errU22, errU23, errU24, errU25, errU26, errU27, errU28, errU29, errU30]
  have s7 : updateStep ({ tile5 with errors := errU22 } : Tile) 7 = ({ tile5 with errors := errU23 } : Tile) := by
    rw [updateStep_parent_eval ({ tile5 with errors := errU22 } : Tile) 7 4 0 2 2 3 1 4 2 8 9 13 0
      hco7 (by norm_num [u16, tile5]) (by norm_num [u16, tile5])
      (by norm_num [u16, tile5]) (by norm_num [u16, tile5])
      (by norm_num [u16, tile5]) (by norm_num [u16, tile5])
      (by norm_num [u16, tile5])
      (by norm_num [Function.update_apply, max_def, tile5, errU1, errU2, errU3, errU4, errU5, errU6, errU7, errU8, errU9, errU10, errU11, errU12, errU13, errU14, errU15, errU16, errU17, errU18, errU19, errU20, errU21, errU22, errU23, errU24, errU25, errU26, errU27, errU28, errU29, errU30]) (by norm_num [tile5])]
    dsimp only [tile5, errU23]
    congr 1 <;> congr 1 <;> norm_num [Function.update_apply, max_def, tile5, errU1, errU2, errU3, errU4, errU5, errU6, errU7, errU8, errU9, errU10, errU11, errU12, errU13, errU14, errU15, errU16, errU17, errU18, errU19, errU20, errU21, errU22, errU23, errU24, errU25, errU26, errU27, errU28, errU29, errU30]
  have s6 : updateStep ({ tile5 with errors := errU23 } : Tile) 6 = ({ tile5 with errors := errU24 } : Tile) := by
    rw [updateStep_parent_eval ({ tile5 with errors := errU23 } : Tile) 6 0 4 2 2 1 3 0 2 16 15 11 0
      hco6 (by norm_num [u16, tile5]) (by norm_num [u16, tile5])
      (by norm_num [u16, tile5]) (by norm_num [u16, tile5])
      (by norm_num [u16, tile5]) (by norm_num [u16, tile5])
      (by norm_num [u16, tile5])
      (by norm_num [Function.update_apply, max_def, tile5, errU1, errU2, errU3, errU4, errU5, errU6, errU7, errU8, errU9, errU10, errU11, errU12, errU13, errU14, errU15, errU16, errU17, errU18, errU19, errU20, errU21, errU22, errU23, errU24, errU25, errU26, errU27, errU28, errU29, errU30]) (by norm_num [tile5])]
    dsimp only [tile5, errU24]
    congr 1 <;> congr 1 <;> norm_num [Function.update_apply, max_def, tile5, errU1, errU2, errU3, errU4, errU5, errU6, errU7, errU8, errU9, errU10, errU11, errU12, errU13, errU14, errU15, errU16, errU17, errU18, errU19, errU20, errU21, errU22, errU23, errU24, errU25, errU26, errU27, errU28, errU29, errU30]
  have s5 : updateStep ({ tile5 with errors := errU24 } : Tile) 5 = ({ tile5 with errors := errU25 } : Tile) := by
    rw [updateStep_parent_eval ({ tile5 with errors := errU24 } : Tile) 5 4 0 0 0 2 0 2 2 2 8 6 0
      hco5 (by norm_num [u16, tile5]) (by norm_num [u16, tile5])
      (by norm_num [u16, tile5]) (by norm_num [u16, tile5])
      (by norm_num [u16, tile5]) (by norm_num [u16, tile5])
      (by norm_num [u16, tile5])
      (by norm_num [Function.update_apply, max_def, tile5, errU1, errU2, errU3, errU4, errU5, errU6, errU7, errU8, errU9, errU10, errU11, errU12, errU13, errU14, errU15, errU16, errU17, errU18, errU19, errU20, errU21, errU22, errU23, errU24, errU25, errU26, errU27, errU28, errU29, errU30]) (by norm_num [tile5])]
    dsimp only [tile5, errU25]
    congr 1 <;> congr 1 <;> norm_num [Function.update_apply, max_def, tile5, errU1, errU2, errU3, errU4, errU5, errU6, errU7, errU8, errU9, errU10, errU11, errU12, errU13, errU14, errU15, errU16, errU17, errU18, errU19, errU20, errU21, errU22, errU23, errU24, errU25, errU26, errU27, errU28, errU29, errU30]
  have s4 : updateStep ({ tile5 with errors := errU25 } : Tile) 4 = ({ tile5 with errors := errU26 } : Tile) := by
    rw [updateStep_parent_eval ({ tile5 with errors := errU25 } : Tile) 4 0 4 4 4 2 4 2 2 22 16 18 0
      hco4 (by norm_num [u16, tile5]) (by norm_num [u16, tile5])
      (by norm_num [u16, tile5]) (by norm_num [u16, tile5])
      (by norm_num [u16, tile5]) (by norm_num [u16, tile5])
      (by norm_num [u16, tile5])
      (by norm_num [Function.update_apply, max_def, tile5, errU1, errU2, errU3, errU4, errU5, errU6, errU7, errU8, errU9, errU10, errU11, errU12, errU13, errU14, errU15, errU16, errU17, errU18, errU19, errU20, errU21, errU22, errU23, errU24, errU25, errU26, errU27, errU28, errU29, errU30]) (by norm_num [tile5])]
    dsimp only [tile5, errU26]
    congr 1 <;> congr 1 <;> norm_num [Function.update_apply, max_def, tile5, errU1, errU2, errU3, errU4, errU5, errU6, errU7, errU8, errU9, errU10, errU11, errU12, errU13, errU14, errU15, errU16, errU17, errU18, errU19, errU20, errU21, errU22, errU23, errU24, errU25, errU26, errU27, errU28, errU29, errU30]
  have s3 : updateStep ({ tile5 with errors := errU26 } : Tile) 3 = ({ tile5 with errors := errU27 } : Tile) := by
    rw [updateStep_parent_eval ({ tile5 with errors := errU26 } : Tile) 3 4 4 4 0 4 2 2 2 14 18 8 0
      hco3 (by norm_num [u16, tile5]) (by norm_num [u16, tile5])
      (by norm_num [u16, tile5]) (by norm_num [u16, tile5])
      (by norm_num [u16, tile5]) (by norm_num [u16, tile5])
      (by norm_num [u16, tile5])
      (by norm_num [Function.update_apply, max_def, tile5, errU1, errU2, errU3, errU4, errU5, errU6, errU7, errU8, errU9, errU10, errU11, errU12, errU13, errU14, errU15, errU16, errU17, errU18, errU19, errU20, errU21, errU22, errU23, errU24, errU25, errU26, errU27, errU28, errU29, errU30]) (by norm_num [tile5])]
    dsimp only [tile5, errU27]
    congr 1 <;> congr 1 <;> norm_num [Function.update_apply, max_def, tile5, errU1, errU2, errU3, errU4, errU5, errU6, errU7, errU8, errU9, errU10, errU11, errU12, errU13, errU14, errU15, errU16, errU17, errU18, errU19, errU20, errU21, errU22, errU23, errU24, errU25, errU26, errU27, errU28, errU29, errU30]
  have s2 : updateStep ({ tile5 with errors := errU27 } : Tile) 2 = ({ tile5 with errors := errU28 } : Tile) := by
    rw [updateStep_parent_eval ({ tile5 with errors := errU27 } : Tile) 2 0 0 0 4 0 2 2 2 10 6 16 0
      hco2 (by norm_num [u16, tile5]) (by norm_num [u16, tile5])
      (by norm_num [u16, tile5]) (by norm_num [u16, tile5])
      (by norm_num [u16, tile5]) (by norm_num [u16, tile5])
      (by norm_num [u16, tile5])
      (by norm_num [Function.update_apply, max_def, tile5, errU1, errU2, errU3, errU4, errU5, errU6, errU7, errU8, errU9, errU10, errU11, errU12, errU13, errU14, errU15, errU16, errU17, errU18, errU19, errU20, errU21, errU22, errU23, errU24, errU25, errU26, errU27, errU28, errU29, errU30]) (by norm_num [tile5])]
    dsimp only [tile5, errU28]
    congr 1 <;> congr 1 <;> norm_num [Function.update_apply, max_def, tile5, errU1, errU2, errU3, errU4, errU5, errU6, errU7, errU8, errU9, errU10, errU11, errU12, errU13, errU14, errU15, errU16, errU17, errU18, errU19, errU20, errU21, errU22, errU23, errU24, errU25, errU26, errU27, errU28, errU29, errU30]
  have s1 : updateStep ({ tile5 with errors := errU28 } : Tile) 1 = ({ tile5 with errors := errU29 } : Tile) := by
    rw [updateStep_parent_eval ({ tile5 with errors := errU28 } : Tile) 1 0 0 4 4 2 2 4 0 12 2 14 0
      hco1 (by norm_num [u16, tile5]) (by norm_num [u16, tile5])
      (by norm_num [u16, tile5]) (by norm_num [u16, tile5])
      (by norm_num [u16, tile5]) (by norm_num [u16, tile5])
      (by norm_num [u16, tile5])
      (by norm_num [Function.update_apply, max_def, tile5, errU1, errU2, errU3, errU4, errU5, errU6, errU7, errU8, errU9, errU10, errU11, errU12, errU13, errU14, errU15, errU16, errU17, errU18, errU19, errU20, errU21, errU22, errU23, errU24, errU25, errU26, errU27, errU28, errU29, errU30]) (by norm_num [tile5])]
    dsimp only [tile5, errU29]
    congr 1 <;> congr 1 <;> norm_num [Function.update_apply, max_def, tile5, errU1, errU2, errU3, errU4, errU5, errU6, errU7, errU8, errU9, errU10, errU11, errU12, errU13, errU14, errU15, errU16, errU17, errU18, errU19, errU20, errU21, errU22, errU23, errU24, errU25, errU26, errU27, errU28, errU29, errU30]
  have s0 : updateStep ({ tile5 with errors := errU29 } : Tile) 0 = ({ tile5 with errors := errU30 } : Tile) := by
    rw [updateStep_parent_eval ({ tile5 with errors := errU29 } : Tile) 0 4 4 0 0 2 2 0 4 12 22 10 100
      hco0 (by norm_num [u16, tile5]) (by norm_num [u16, tile5])
      (by norm_num [u16, tile5]) (by norm_num [u16, tile5])
      (by norm_num [u16, tile5]) (by norm_num [u16, tile5])
      (by norm_num [u16, tile5])
      (by norm_num [Function.update_apply, max_def, tile5, errU1, errU2, errU3, errU4, errU5, errU6, errU7, errU8, errU9, errU10, errU11, errU12, errU13, errU14, errU15, errU16, errU17, errU18, errU19, errU20, errU21, errU22, errU23, errU24, errU25, errU26, errU27, errU28, errU29, errU30]) (by norm_num [tile5])]
    dsimp only [tile5, errU30]
    congr 1 <;> congr 1 <;> norm_num [Function.update_apply, max_def, tile5, errU1, errU2, errU3, errU4, errU5, errU6, errU7, errU8, errU9, errU10, errU11, errU12, errU13, errU14, errU15, errU16, errU17, errU18, errU19, errU20, errU21, errU22, errU23, errU24, errU25, errU26, errU27, errU28, errU29, errU30]
  show updateAux 30 tile5 = _
  rw [show (30:ℕ) = 29 + 1 from rfl, updateAux_succ, s29]
  rw [show (29:ℕ) = 28 + 1 from rfl, updateAux_succ, s28]
  rw [show (28:ℕ) = 27 + 1 from rfl, updateAux_succ, s27]
  rw [show (27:ℕ) = 26 + 1 from rfl, updateAux_succ, s26]
  rw [show (26:ℕ) = 25 + 1 from rfl, updateAux_succ, s25]
  rw [show (25:ℕ) = 24 + 1 from rfl, updateAux_succ, s24]
  rw [show (24:ℕ) = 23 + 1 from rfl, updateAux_succ, s23]
  rw [show (23:ℕ) = 22 + 1 from rfl, updateAux_succ, s22]
  rw [show (22:ℕ) = 21 + 1 from rfl, updateAux_succ, s21]
  rw [show (21:ℕ) = 20 + 1 from rfl, updateAux_succ, s20]
  rw [show (20:ℕ) = 19 + 1 from rfl, updateAux_succ, s19]
  rw [show (19:ℕ) = 18 + 1 from rfl, updateAux_succ, s18]
  rw [show (18:ℕ) = 17 + 1 from rfl, updateAux_succ, s17]
  rw [show (17:ℕ) = 16 + 1 from rfl, updateAux_succ, s16]
  rw [show (16:ℕ) = 15 + 1 from rfl, updateAux_succ, s15]
  rw [show (15:ℕ) = 14 + 1 from rfl, updateAux_succ, s14]
  rw [show (14:ℕ) = 13 + 1 from rfl, updateAux_succ, s13]
  rw [show (13:ℕ) = 12 + 1 from rfl, updateAux_succ, s12]
  rw [show (12:ℕ) = 11 + 1 from rfl, updateAux_succ, s11]
  rw [show (11:ℕ) = 10 + 1 from rfl, updateAux_succ, s10]
  rw [show (10:ℕ) = 9 + 1 from rfl, updateAux_succ, s9]
  rw [show (9:ℕ) = 8 + 1 from rfl, updateAux_succ, s8]
  rw [show (8:ℕ) = 7 + 1 from rfl, updateAux_succ, s7]
  rw [show (7:ℕ) = 6 + 1 from rfl, updateAux_succ, s6]
  rw [show (6:ℕ) = 5 + 1 from rfl, updateAux_succ, s5]
  rw [show (5:ℕ) = 4 + 1 from rfl, updateAux_succ, s4]
  rw [show (4:ℕ) = 3 + 1 from rfl, updateAux_succ, s3]
  rw [show (3:ℕ) = 2 + 1 from rfl, updateAux_succ, s2]
  rw [show (2:ℕ) = 1 + 1 from rfl, updateAux_succ, s1]
  rw [show (1:ℕ) = 0 + 1 from rfl, updateAux_succ, s0]
  rfl

theorem subErrMax_succ (terrain : ℤ → ℚ) (ts size : ℤ) (numT f i : ℕ) :
    subErrMax terrain ts size numT (f + 1) i =
      if i + 2 * topPowF (i + 2) (i + 2) < numT then
        max (localErr terrain ts size i)
          (max (subErrMax terrain ts size numT f (i + topPowF (i + 2) (i + 2)))
            (subErrMax terrain ts size numT f (i + 2 * topPowF (i + 2) (i + 2))))
      else localErr terrain ts size i := rfl

theorem localErr5_5 : localErr tile5.terrain 4 5 5 = 0 := by
  rw [show localErr tile5.terrain 4 5 5 =
    |(tile5.terrain 4 + tile5.terrain 0) / 2 - tile5.terrain 2| from rfl]
  norm_num [tile5]

theorem localErr5_9 : localErr tile5.terrain 4 5 9 = 0 := by
  rw [show localErr tile5.terrain 4 5 9 =
    |(tile5.terrain 0 + tile5.terrain 12) / 2 - tile5.terrain 6| from rfl]
  norm_num [tile5]

theorem localErr5_13 : localErr tile5.terrain 4 5 13 = 0 := by
  rw [show localErr tile5.terrain 4 5 13 =
    |(tile5.terrain 12 + tile5.terrain 4) / 2 - tile5.terrain 8| from rfl]
  norm_num [tile5]

theorem localErr5_17 : localErr tile5.terrain 4 5 17 = 0 := by
  rw [show localErr tile5.terrain 4 5 17 =
    |(tile5.terrain 12 + tile5.terrain 2) / 2 - tile5.terrain 7| from rfl]
  norm_num [tile5]

theorem localErr5_21 : localErr tile5.terrain 4 5 21 = 0 := by
  rw [show localErr tile5.terrain 4 5 21 =
    |(tile5.terrain 4 + tile5.terrain 2) / 2 - tile5.terrain 3| from rfl]
  norm_num [tile5]

theorem localErr5_25 : localErr tile5.terrain 4 5 25 = 0 := by
  rw [show localErr tile5.terrain 4 5 25 =
    |(tile5.terrain 2 + tile5.terrain 0) / 2 - tile5.terrain 1| from rfl]
  norm_num [tile5]

theorem localErr5_29 : localErr tile5.terrain 4 5 29 = 0 := by
  rw [show localErr tile5.terrain 4 5 29 =
    |(tile5.terrain 2 + tile5.terrain 12) / 2 - tile5.terrain 7| from rfl]
  norm_num [tile5]

theorem subErr5_29 : subErrMax tile5.terrain 4 5 30 6 29 = 0 := by
  rw [show (6:ℕ) = 5 + 1 from rfl, subErrMax_succ,
    show topPowF (29 + 2) (29 + 2) = 16 from rfl]
  rw [if_neg (by norm_num)]
  exact localErr5_29

theorem subErr5_25 : subErrMax tile5.terrain 4 5 30 6 25 = 0 := by
  rw [show (6:ℕ) = 5 + 1 from rfl, subErrMax_succ,
    show topPowF (25 + 2) (25 + 2) = 16 from rfl]
  rw [if_neg (by norm_num)]
  exact localErr5_25

theorem subErr5_21 : subErrMax tile5.terrain 4 5 30 6 21 = 0 := by
  rw [show (6:ℕ) = 5 + 1 from rfl, subErrMax_succ,
    show topPowF (21 + 2) (21 + 2) = 16 from rfl]
  rw [if_neg (by norm_num)]
  exact localErr5_21

theorem subErr5_17 : subErrMax tile5.terrain 4 5 30 6 17 = 0 := by
  rw [show (6:ℕ) = 5 + 1 from rfl, subErrMax_succ,
    show topPowF (17 + 2) (17 + 2) = 16 from rfl]
  rw [if_neg (by norm_num)]
  exact localErr5_17

theorem subErr5_13 : subErrMax tile5.terrain 4 5 30 7 13 = 0 := by
  rw [show (7:ℕ) = 6 + 1 from rfl, subErrMax_succ,
    show topPowF (13 + 2) (13 + 2) = 8 from rfl]
  rw [if_pos (by norm_num)]
  rw [show 13 + 8 = 21 from rfl, show 13 + 2 * 8 = 29 from rfl]
  rw [localErr5_13, subErr5_21, subErr5_29]
  norm_num

theorem subErr5_9 : subErrMax tile5.terrain 4 5 30 7 9 = 0 := by
  rw [show (7:ℕ) = 6 + 1 from rfl, subErrMax_succ,
    show topPowF (9 + 2) (9 + 2) = 8 from rfl]
  rw [if_pos (by norm_num)]
  rw [show 9 + 8 = 17 from rfl, show 9 + 2 * 8 = 25 from rfl]
  rw [localErr5_9, subErr5_17, subErr5_25]
  norm_num

theorem subErr5_5 : subErrMax tile5.terrain 4 5 30 8 5 = 0 := by
  rw [show (8:ℕ) = 7 + 1 from rfl, subErrMax_succ,
    show topPowF (5 + 2) (5 + 2) = 4 from rfl]
  rw [if_pos (by norm_num)]
  rw [show 5 + 4 = 9 from rfl, show 5 + 2 * 4 = 13 from rfl]
  rw [localErr5_5, subErr5_9, subErr5_13]
  norm_num

/-- C1 counterexample: after `Tile.Update` on a 5×5 tile whose terrain is
a single spike of height 100 at grid vertex (4,1), the error stored at
grid vertex (2,0) (flat index 2) is 100; but the only triangle in the
hierarchy whose hypotenuse midpoint is (2,0) is table entry 5, and the
maximum of the local interpolation errors over the sub-hierarchy rooted
there is 0.  The stored value is contaminated through a child slot shared
with a triangle outside that sub-hierarchy, so `Errors[v]` does not equal
the sub-hierarchy maximum. -/
theorem claim_C1_counterexample :
    (tileUpdate tile5).errors 2 = 100 ∧
    (∀ i : ℕ, i < 30 → triMid 4 5 i = 2 → i = 5) ∧
    subErrMax tile5.terrain 4 5 30 8 5 = 0 ∧ (100 : ℚ) ≠ 0 := by
  refine ⟨?_, by decide, subErr5_5, by norm_num⟩
  rw [tileUpdate_tile5]
  show errU30 2 = 100
  norm_num [errU1, errU2, errU3, errU4, errU5, errU6, errU7, errU8, errU9, errU10,
    errU11, errU12, errU13, errU14, errU15, errU16, errU17, errU18, errU19, errU20,
    errU21, errU22, errU23, errU24, errU25, errU26, errU27, errU28, errU29, errU30,
    Function.update_apply]

/-- Left child (`s = 1`) of an axis-class table triangle of scale
`2^(e+1)`: diagonal class of scale `2^e`, orientation and grid bounds
preserved. -/
theorem childAxis_left (e : ℕ) (ts ax ay bx bY cx cy : ℤ)
    (hsh : axisOri (e + 1) ax ay bx bY cx cy) (hg : inGrid ts ax ay bx bY cx cy) :
    diagOri e cx cy ax ay (asr (ax + bx)) (asr (ay + bY)) ∧
      inGrid ts cx cy ax ay (asr (ax + bx)) (asr (ay + bY)) := by
  obtain ⟨hu, ho1, ho2⟩ := hsh
  simp only [diagOri, oriented, inGrid] at *
  have hp : (0:ℤ) ≤ 2 ^ e := by positivity
  have hp1 : (0:ℤ) ≤ 2 ^ (e + 1) := by positivity
  have hsplit : (2:ℤ) ^ (e + 1) = 2 * 2 ^ e := by ring
  simp only [iabs_eq_pos_iff _ _ hp1] at hu
  simp only [hsplit] at hu
  simp only [iabs_eq_pos_iff _ _ hp]
  rcases hu with ⟨hux, huy⟩ | ⟨hux, huy⟩
  · rcases hux with hux | hux <;>
    · have hmx := asr_double (ax + bx) (by omega)
      have hmy := asr_double (ay + bY) (by omega)
      omega
  · rcases huy with huy | huy <;>
    · have hmx := asr_double (ax + bx) (by omega)
      have hmy := asr_double (ay + bY) (by omega)
      omega

/-- Right child (`s = 0`) of an axis-class table triangle. -/
theorem childAxis_right (e : ℕ) (ts ax ay bx bY cx cy : ℤ)
    (hsh : axisOri (e + 1) ax ay bx bY cx cy) (hg : inGrid ts ax ay bx bY cx cy) :
    diagOri e bx bY cx cy (asr (ax + bx)) (asr (ay + bY)) ∧
      inGrid ts bx bY cx cy (asr (ax + bx)) (asr (ay + bY)) := by
  obtain ⟨hu, ho1, ho2⟩ := hsh
  simp only [diagOri, oriented, inGrid] at *
  have hp : (0:ℤ) ≤ 2 ^ e := by positivity
  have hp1 : (0:ℤ) ≤ 2 ^ (e + 1) := by positivity
  have hsplit : (2:ℤ) ^ (e + 1) = 2 * 2 ^ e := by ring
  simp only [iabs_eq_pos_iff _ _ hp1] at hu
  simp only [hsplit] at hu
  simp only [iabs_eq_pos_iff _ _ hp]
  rcases hu with ⟨hux, huy⟩ | ⟨hux, huy⟩
  · rcases hux with hux | hux <;>
    · have hmx := asr_double (ax + bx) (by omega)
      have hmy := asr_double (ay + bY) (by omega)
      omega
  · rcases huy with huy | huy <;>
    · have hmx := asr_double (ax + bx) (by omega)
      have hmy := asr_double (ay + bY) (by omega)
      omega

/-- Left child (`s = 1`) of a diagonal-class table triangle of scale
`2^e`: axis class of the same scale, orientation and bounds preserved. -/
theorem childDiag_left (e : ℕ) (ts ax ay bx bY cx cy : ℤ)
    (hsh : diagOri e ax ay bx bY cx cy) (hg : inGrid ts ax ay bx bY cx cy) :
    axisOri e cx cy ax ay (asr (ax + bx)) (asr (ay + bY)) ∧
      inGrid ts cx cy ax ay (asr (ax + bx)) (asr (ay + bY)) := by
  obtain ⟨⟨hux, huy⟩, ho1, ho2⟩ := hsh
  simp only [axisOri, oriented, inGrid] at *
  have hp : (0:ℤ) ≤ 2 ^ e := by positivity
  simp only [iabs_eq_pos_iff _ _ hp] at hux huy ⊢
  rcases hux with hux | hux <;> rcases huy with huy | huy <;>
  · have hmx := asr_double (ax + bx) (by omega)
    have hmy := asr_double (ay + bY) (by omega)
    omega

/-- Right child (`s = 0`) of a diagonal-class table triangle. -/
theorem childDiag_right (e : ℕ) (ts ax ay bx bY cx cy : ℤ)
    (hsh : diagOri e ax ay bx bY cx cy) (hg : inGrid ts ax ay bx bY cx cy) :
    axisOri e bx bY cx cy (asr (ax + bx)) (asr (ay + bY)) ∧
      inGrid ts bx bY cx cy (asr (ax + bx)) (asr (ay + bY)) := by
  obtain ⟨⟨hux, huy⟩, ho1, ho2⟩ := hsh
  simp only [axisOri, oriented, inGrid] at *
  have hp : (0:ℤ) ≤ 2 ^ e := by positivity
  simp only [iabs_eq_pos_iff _ _ hp] at hux huy ⊢
  rcases hux with hux | hux <;> rcases huy with huy | huy <;>
  · have hmx := asr_double (ax + bx) (by omega)
    have hmy := asr_double (ay + bY) (by omega)
    omega

theorem bisectStep_zero (a b c d e f : ℤ) :
    bisectStep 0 (a, b, c, d, e, f) = (c, d, e, f, asr (a + c), asr (b + d)) := rfl

theorem bisectStep_one (a b c d e f : ℤ) :
    bisectStep 1 (a, b, c, d, e, f) = (e, f, a, b, asr (a + c), asr (b + d)) := rfl

theorem triangleCorners_root0 (ts : ℤ) : triangleCorners ts 0 = (ts, ts, 0, 0, 0, ts) := by
  simp only [triangleCorners]
  norm_num
  exact bisectLoop_base 1 (by norm_num) ts ts 0 0 0 ts

theorem triangleCorners_root1 (ts : ℤ) : triangleCorners ts 1 = (0, 0, ts, ts, ts, 0) := by
  simp only [triangleCorners]
  norm_num
  exact bisectLoop_base 1 (by norm_num) 0 0 ts ts ts 0

/-- Appending a bit `s` directly below the top set bit of the internal id
applies one further bisection step to the table corners. -/
theorem triangleCorners_child (ts : ℤ) (i K s : ℕ) (hs : s ≤ 1)
    (hK1 : 2 ^ K ≤ i + 2) (hK2 : i + 2 < 2 ^ (K + 1)) :
    triangleCorners ts (i + (1 + s) * 2 ^ K) = bisectStep s (triangleCorners ts i) := by
  cases K with
  | zero => exfalso; norm_num at hK2
  | succ K =>
    have hq : 1 ≤ 2 ^ K := Nat.one_le_two_pow
    have hps : (1 + s) * 2 ^ (K + 1) = 2 * ((1 + s) * 2 ^ K) := by ring
    have hp2 : 2 ^ (K + 1) = 2 * 2 ^ K := by ring
    have hp3 : 2 ^ (K + 1 + 1) = 2 * 2 ^ (K + 1) := by ring
    simp only [triangleCorners]
    rw [hps]
    have hmod : (i + 2 * ((1 + s) * 2 ^ K) + 2) % 2 = (i + 2) % 2 := by omega
    have hdiv : (i + 2 * ((1 + s) * 2 ^ K) + 2) / 2 =
        (i + 2) / 2 + (1 + s) * 2 ^ K := by omega
    rw [hmod, hdiv]
    have hd1 : 2 ^ K ≤ (i + 2) / 2 := by omega
    have hd2 : (i + 2) / 2 < 2 ^ (K + 1) := by omega
    by_cases hpar : (i + 2) % 2 = 1
    · rw [if_pos hpar, if_pos hpar]
      exact bisectLoop_top s hs K ((i + 2) / 2) hd1 hd2 0 0 ts ts ts 0
    · rw [if_neg hpar, if_neg hpar]
      exact bisectLoop_top s hs K ((i + 2) / 2) hd1 hd2 ts ts 0 0 0 ts

/-- Shape of every table triangle: grid bounds always hold, and at level
`ℓ` (ids in `[2^(ℓ+1), 2^(ℓ+2))`) the corners form an oriented axis-class
triangle of scale `2^(K−ℓ/2)` for even `ℓ`, and an oriented
diagonal-class triangle of scale `2^(K−(ℓ+1)/2)` for odd `ℓ`. -/
theorem tableShape (K : ℕ) (ts : ℤ) (hts : ts = 2 ^ K) :
    ∀ ℓ i : ℕ, ℓ + 1 ≤ 2 * K → 2 ^ (ℓ + 1) ≤ i + 2 → i + 2 < 2 ^ (ℓ + 2) →
    ∀ ax ay bx bY cx cy : ℤ, triangleCorners ts i = (ax, ay, bx, bY, cx, cy) →
    inGrid ts ax ay bx bY cx cy ∧
    (ℓ % 2 = 0 → ∃ e : ℕ, 2 * e + ℓ = 2 * K ∧ axisOri e ax ay bx bY cx cy) ∧
    (ℓ % 2 = 1 → ∃ e : ℕ, 2 * e + ℓ + 1 = 2 * K ∧ diagOri e ax ay bx bY cx cy) := by
  intro ℓ
  induction ℓ with
  | zero =>
    intro i h2K h1 h2 ax ay bx bY cx cy htc
    have hi : i = 0 ∨ i = 1 := by norm_num at h1 h2; omega
    have hts0 : (0:ℤ) ≤ ts := by rw [hts]; positivity
    have hp : (0:ℤ) ≤ 2 ^ K := by positivity
    rcases hi with rfl | rfl
    · rw [triangleCorners_root0] at htc
      simp only [Prod.mk.injEq] at htc
      obtain ⟨h1', h2', h3', h4', h5', h6'⟩ := htc
      subst h1'; subst h2'; subst h3'; subst h4'; subst h5'; subst h6'
      refine ⟨by simp only [inGrid]; omega, fun _ => ⟨K, by omega, ?_⟩, fun h => by simp at h⟩
      simp only [axisOri, oriented, iabs_eq_pos_iff _ _ hp]
      omega
    · rw [triangleCorners_root1] at htc
      simp only [Prod.mk.injEq] at htc
      obtain ⟨h1', h2', h3', h4', h5', h6'⟩ := htc
      subst h1'; subst h2'; subst h3'; subst h4'; subst h5'; subst h6'
      refine ⟨by simp only [inGrid]; omega, fun _ => ⟨K, by omega, ?_⟩, fun h => by simp at h⟩
      simp only [axisOri, oriented, iabs_eq_pos_iff _ _ hp]
      omega
  | succ ℓ ih =>
    intro i h2K h1 h2 ax ay bx bY cx cy htc
    have hA1 : 1 ≤ 2 ^ (ℓ + 1) := Nat.one_le_two_pow
    have hA2 : (2:ℕ) ≤ 2 ^ (ℓ + 1) := by
      calc (2:ℕ) = 2 ^ 1 := by norm_num
      _ ≤ 2 ^ (ℓ + 1) := Nat.pow_le_pow_right (by norm_num) (by omega)
    have hpA : (2:ℕ) ^ (ℓ + 1 + 1) = 2 * 2 ^ (ℓ + 1) := by ring
    have hpB : (2:ℕ) ^ (ℓ + 1 + 2) = 2 * 2 ^ (ℓ + 1 + 1) := by ring
    have hpC : (2:ℕ) ^ (ℓ + 2) = 2 ^ (ℓ + 1 + 1) := by ring
    set x := i + 2 - 2 ^ (ℓ + 2) with hx
    have hq : x / 2 ^ (ℓ + 1) ≤ 1 := by
      have hxlt : x < 2 * 2 ^ (ℓ + 1) := by omega
      have := (Nat.div_lt_iff_lt_mul (show 0 < 2 ^ (ℓ + 1) by omega)).mpr
        (by omega : x < 2 * 2 ^ (ℓ + 1))
      omega
    set r := x % 2 ^ (ℓ + 1) with hrdef
    have hr : r < 2 ^ (ℓ + 1) := Nat.mod_lt _ (by omega)
    have hdm := Nat.div_add_mod x (2 ^ (ℓ + 1))
    obtain ⟨s, hs, hsq⟩ : ∃ s : ℕ, s ≤ 1 ∧ x / 2 ^ (ℓ + 1) = s := ⟨_, hq, rfl⟩
    rw [hsq] at hdm
    have hmul : (1 + s) * 2 ^ (ℓ + 1) = 2 ^ (ℓ + 1) + s * 2 ^ (ℓ + 1) := by ring
    have hsmul : s * 2 ^ (ℓ + 1) = 2 ^ (ℓ + 1) * s := by ring
    have hn : i + 2 = 2 ^ (ℓ + 2) + s * 2 ^ (ℓ + 1) + r := by omega
    have hi2 : 2 ≤ 2 ^ (ℓ + 1) + r := by omega
    obtain ⟨i', hi'⟩ : ∃ i' : ℕ, i' + 2 = 2 ^ (ℓ + 1) + r := ⟨2 ^ (ℓ + 1) + r - 2, by omega⟩
    have hchild : i = i' + (1 + s) * 2 ^ (ℓ + 1) := by omega
    have htcc : triangleCorners ts i = bisectStep s (triangleCorners ts i') := by
      rw [hchild]
      exact triangleCorners_child ts i' (ℓ + 1) s hs (by omega) (by omega)
    obtain ⟨ax', ay', bx', bY', cx', cy', htc'⟩ :
        ∃ ax' ay' bx' bY' cx' cy', triangleCorners ts i' = (ax', ay', bx', bY', cx', cy') :=
      ⟨_, _, _, _, _, _, rfl⟩
    obtain ⟨hgrid, hax, hdi⟩ := ih i' (by omega) (by omega) (by omega) ax' ay' bx' bY' cx' cy' htc'
    rw [htc', htc] at htcc
    by_cases hpar : ℓ % 2 = 0
    · -- parent axis of scale e ≥ 1, children diagonal of scale e − 1
      obtain ⟨e, he, hsh⟩ := hax hpar
      obtain ⟨e', rfl⟩ : ∃ e', e = e' + 1 := ⟨e - 1, by omega⟩
      refine ⟨?_, fun h => by omega, fun _ => ⟨e', by omega, ?_⟩⟩ <;>
      · rcases Nat.le_one_iff_eq_zero_or_eq_one.mp hs with rfl | rfl
        · rw [bisectStep_zero] at htcc
          simp only [Prod.mk.injEq] at htcc
          obtain ⟨e1, e2, e3, e4, e5, e6⟩ := htcc
          rw [e1, e2, e3, e4, e5, e6]
          first
          | exact (childAxis_right e' ts ax' ay' bx' bY' cx' cy' hsh hgrid).2
          | exact (childAxis_right e' ts ax' ay' bx' bY' cx' cy' hsh hgrid).1
        · rw [bisectStep_one] at htcc
          simp only [Prod.mk.injEq] at htcc
          obtain ⟨e1, e2, e3, e4, e5, e6⟩ := htcc
          rw [e1, e2, e3, e4, e5, e6]
          first
          | exact (childAxis_left e' ts ax' ay' bx' bY' cx' cy' hsh hgrid).2
          | exact (childAxis_left e' ts ax' ay' bx' bY' cx' cy' hsh hgrid).1
    · -- parent diagonal of scale e, children axis of the same scale
      have hoddp : ℓ % 2 = 1 := by omega
      obtain ⟨e, he, hsh⟩ := hdi hoddp
      refine ⟨?_, fun _ => ⟨e, by omega, ?_⟩, fun h => by omega⟩ <;>
      · rcases Nat.le_one_iff_eq_zero_or_eq_one.mp hs with rfl | rfl
        · rw [bisectStep_zero] at htcc
          simp only [Prod.mk.injEq] at htcc
          obtain ⟨e1, e2, e3, e4, e5, e6⟩ := htcc
          rw [e1, e2, e3, e4, e5, e6]
          first
          | exact (childDiag_right e ts ax' ay' bx' bY' cx' cy' hsh hgrid).2
          | exact (childDiag_right e ts ax' ay' bx' bY' cx' cy' hsh hgrid).1
        · rw [bisectStep_one] at htcc
          simp only [Prod.mk.injEq] at htcc
          obtain ⟨e1, e2, e3, e4, e5, e6⟩ := htcc
          rw [e1, e2, e3, e4, e5, e6]
          first
          | exact (childDiag_left e ts ax' ay' bx' bY' cx' cy' hsh hgrid).2
          | exact (childDiag_left e ts ax' ay' bx' bY' cx' cy' hsh hgrid).1

/-- Every internal id has a unique binary-magnitude level. -/
theorem exists_level : ∀ B m : ℕ, 2 ≤ m → m < 2 ^ (B + 1) →
    ∃ ℓ : ℕ, ℓ + 1 ≤ B ∧ 2 ^ (ℓ + 1) ≤ m ∧ m < 2 ^ (ℓ + 2) := by
  intro B
  induction B with
  | zero => intro m h2 hm; norm_num at hm; omega
  | succ B ih =>
    intro m h2 hm
    by_cases hs : m < 2 ^ (B + 1)
    · obtain ⟨ℓ, h1, h2', h3⟩ := ih m h2 hs
      exact ⟨ℓ, by omega, h2', h3⟩
    · exact ⟨B, by omega, by omega, by
        have : (2:ℕ) ^ (B + 2) = 2 ^ (B + 1 + 1) := by ring
        omega⟩

theorem topPowF_eq : ∀ f n k : ℕ, n ≤ f → 2 ^ k ≤ n → n < 2 ^ (k + 1) →
    topPowF f n = 2 ^ k := by
  intro f
  induction f with
  | zero =>
    intro n k h0 hk1 hk2
    exfalso
    have : 1 ≤ 2 ^ k := Nat.one_le_two_pow
    omega
  | succ f ih =>
    intro n k h0 hk1 hk2
    by_cases h1 : n ≤ 1
    · have hk0 : k = 0 := by
        by_contra hk
        have h2k : (2:ℕ) ≤ 2 ^ k := by
          calc (2:ℕ) = 2 ^ 1 := by norm_num
          _ ≤ 2 ^ k := Nat.pow_le_pow_right (by norm_num) (by omega)
        omega
      subst hk0
      simp only [topPowF, if_pos h1]
      norm_num
    · have hk : 1 ≤ k := by
        by_contra hk
        have hk0 : k = 0 := by omega
        subst hk0
        norm_num at hk2
        omega
      obtain ⟨k', rfl⟩ : ∃ k', k = k' + 1 := ⟨k - 1, by omega⟩
      have hpA : (2:ℕ) ^ (k' + 1) = 2 * 2 ^ k' := by ring
      have hpB : (2:ℕ) ^ (k' + 1 + 1) = 2 * 2 ^ (k' + 1) := by ring
      simp only [topPowF, if_neg h1]
      rw [ih (n / 2) k' (by omega) (by omega) (by omega)]
      omega

/-- Reading through a value-raising `Function.update` never decreases. -/
theorem update_read_ge (f : ℤ → ℚ) (a : ℤ) (v : ℚ) (h : f a ≤ v) (x : ℤ) :
    f x ≤ Function.update f a v x := by
  by_cases hx : x = a
  · subst hx
    rw [Function.update_same]
    exact h
  · rw [Function.update_noteq hx]

set_option maxHeartbeats 1600000 in
/-- Structure of one `Tile.Update` step on a well-formed tile: position
`i` writes exactly the hypotenuse-midpoint slot `triMid i`, with a value
dominating the local interpolation error of triangle `i`, the slot's
previous content, and — for parents — the two child midpoint slots. -/
theorem updateStep_struct (K : ℕ) (hK1 : 1 ≤ K) (hK2 : K ≤ 14) (t : Tile) (i : ℕ)
    (hg : t.gridSize = 2 ^ K + 1) (hco : t.coords = coordsAt (2 ^ K))
    (hP : t.numParentTriangles = numParentTris (2 ^ K))
    (hiN : i + 2 < 2 ^ (2 * K + 1)) :
    ∃ w : ℚ,
      updateStep t i = { t with errors := (Function.update t.errors
        (triMid (2 ^ K) (2 ^ K + 1) i) w) } ∧
      localErr t.terrain (2 ^ K) (2 ^ K + 1) i ≤ w ∧
      t.errors (triMid (2 ^ K) (2 ^ K + 1) i) ≤ w ∧
      (i + 2 * topPowF (i + 2) (i + 2) < 2 * 4 ^ K - 2 →
        t.errors (triMid (2 ^ K) (2 ^ K + 1) (i + topPowF (i + 2) (i + 2))) ≤ w ∧
        t.errors (triMid (2 ^ K) (2 ^ K + 1) (i + 2 * topPowF (i + 2) (i + 2))) ≤ w) := by
  obtain ⟨ℓ, hℓB, hL1, hL2⟩ := exists_level (2 * K) (i + 2) (by omega) hiN
  obtain ⟨ax, ay, bx, bY, cx, cy, htc⟩ :
      ∃ ax ay bx bY cx cy, triangleCorners ((2:ℤ) ^ K) i = (ax, ay, bx, bY, cx, cy) :=
    ⟨_, _, _, _, _, _, rfl⟩
  obtain ⟨hgrid, haxp, hdip⟩ := tableShape K ((2:ℤ) ^ K) rfl ℓ i hℓB hL1 hL2
    ax ay bx bY cx cy htc
  have htsK : (2:ℤ) ^ K ≤ 16384 := by
    calc (2:ℤ) ^ K ≤ 2 ^ 14 := pow_le_pow_right (by norm_num) hK2
    _ = 16384 := by norm_num
  have hts1 : (1:ℤ) ≤ 2 ^ K := by
    have := pow_pos (show (0:ℤ) < 2 by norm_num) K
    omega
  simp only [inGrid] at hgrid
  have hfacts : (bx - cx = ay - cy) ∧ (bY - cy = -(ax - cx)) ∧
      (ax + bx) % 2 = 0 ∧ (ay + bY) % 2 = 0 ∧
      (i + 2 < 2 ^ (2 * K) →
        (ax + cx) % 2 = 0 ∧ (ay + cy) % 2 = 0 ∧
        (bx + cx) % 2 = 0 ∧ (bY + cy) % 2 = 0) := by
    by_cases hpar : ℓ % 2 = 0
    · obtain ⟨e, he, hsh⟩ := haxp hpar
      simp only [axisOri, oriented] at hsh
      obtain ⟨hsc, ho1, ho2⟩ := hsh
      have he1 : 1 ≤ e := by omega
      obtain ⟨e', rfl⟩ : ∃ e', e = e' + 1 := ⟨e - 1, by omega⟩
      have hpe : (0:ℤ) ≤ 2 ^ (e' + 1) := by positivity
      have hsplit : (2:ℤ) ^ (e' + 1) = 2 * 2 ^ e' := by ring
      simp only [iabs_eq_pos_iff _ _ hpe] at hsc
      simp only [hsplit] at hsc
      rcases hsc with ⟨hu | hu, hv⟩ | ⟨hu, hv | hv⟩ <;>
        exact ⟨ho1, ho2, by omega, by omega,
          fun _ => ⟨by omega, by omega, by omega, by omega⟩⟩
    · obtain ⟨e, he, hsh⟩ := hdip (by omega)
      simp only [diagOri, oriented] at hsh
      obtain ⟨⟨hux, huy⟩, ho1, ho2⟩ := hsh
      have hpe : (0:ℤ) ≤ 2 ^ e := by positivity
      rw [iabs_eq_pos_iff _ _ hpe] at hux huy
      have hparent_e : i + 2 < 2 ^ (2 * K) → 1 ≤ e := by
        intro hip
        have hlt : 2 ^ (ℓ + 1) < 2 ^ (2 * K) := by omega
        have := (Nat.pow_lt_pow_iff_right (by norm_num : 1 < 2)).mp hlt
        omega
      refine ⟨ho1, ho2, ?_, ?_, fun hip => ?_⟩
      · rcases hux with hu | hu <;> rcases huy with hv | hv <;> omega
      · rcases hux with hu | hu <;> rcases huy with hv | hv <;> omega
      · have he1 := hparent_e hip
        obtain ⟨e', rfl⟩ : ∃ e', e = e' + 1 := ⟨e - 1, by omega⟩
        have hsplit : (2:ℤ) ^ (e' + 1) = 2 * 2 ^ e' := by ring
        rw [hsplit] at hux huy
        rcases hux with hu | hu <;> rcases huy with hv | hv <;>
          exact ⟨by omega, by omega, by omega, by omega⟩
  obtain ⟨ho1, ho2, hev1, hev2, hevc⟩ := hfacts
  have hcoordsi : t.coords i = (ax, ay, bx, bY) := by
    rw [hco]
    unfold coordsAt
    rw [htc]
    dsimp only
    rw [u16_eq_of_range ax (by omega) (by omega), u16_eq_of_range ay (by omega) (by omega),
      u16_eq_of_range bx (by omega) (by omega), u16_eq_of_range bY (by omega) (by omega)]
  have hMI : triMid ((2:ℤ) ^ K) ((2:ℤ) ^ K + 1) i =
      u16 (ay + bY) / 2 * t.gridSize + u16 (ax + bx) / 2 := by
    rw [hg]
    unfold triMid
    rw [triangleCornersF_eq, htc]
    dsimp only
    rw [asr_eq_div, asr_eq_div,
      u16_eq_of_range (ay + bY) (by omega) (by omega),
      u16_eq_of_range (ax + bx) (by omega) (by omega)]
  have hLE : localErr t.terrain ((2:ℤ) ^ K) ((2:ℤ) ^ K + 1) i =
      |(t.terrain (ay * t.gridSize + ax) + t.terrain (bY * t.gridSize + bx)) / 2 -
        t.terrain (triMid ((2:ℤ) ^ K) ((2:ℤ) ^ K + 1) i)| := by
    rw [hg]
    unfold localErr
    rw [triangleCornersF_eq, htc]
  have h4K : (4:ℕ) ^ K = 2 ^ (2 * K) := by
    rw [show (4:ℕ) = 2 ^ 2 from rfl, ← pow_mul]
  have hp_eq : topPowF (i + 2) (i + 2) = 2 ^ (ℓ + 1) :=
    topPowF_eq (i + 2) (i + 2) (ℓ + 1) le_rfl hL1 hL2
  have hNP' : numParentTris ((2:ℤ) ^ K) = ((2 ^ (2 * K) : ℕ) : ℤ) - 2 := by
    unfold numParentTris numTris
    have hcst : ((2 ^ (2 * K) : ℕ) : ℤ) = (2:ℤ) ^ K * 2 ^ K := by push_cast; ring
    rw [hcst]
    ring
  have hgate_iff : (i + 2 * topPowF (i + 2) (i + 2) < 2 * 4 ^ K - 2) ↔
      i + 2 < 2 ^ (2 * K) := by
    rw [hp_eq, h4K]
    have hB : (2:ℕ) ^ (ℓ + 2) = 2 * 2 ^ (ℓ + 1) := by ring
    rcases Nat.lt_or_ge (ℓ + 1) (2 * K) with h | h
    · have hmono : (2:ℕ) ^ (ℓ + 2) ≤ 2 ^ (2 * K) :=
        Nat.pow_le_pow_right (by norm_num) (by omega)
      constructor <;> intro h' <;> omega
    · have hEq : ℓ + 1 = 2 * K := by omega
      have hpe2 : (2:ℕ) ^ (ℓ + 1) = 2 ^ (2 * K) := by rw [hEq]
      constructor <;> intro h' <;> omega
  have hparent_iff : ((i:ℤ) < t.numParentTriangles) ↔ i + 2 < 2 ^ (2 * K) := by
    rw [hP, hNP']
    constructor <;> intro <;> omega
  by_cases hparent : i + 2 < 2 ^ (2 * K)
  · -- parent triangle
    have hp' : (i:ℤ) < t.numParentTriangles := hparent_iff.mpr hparent
    obtain ⟨hec1, hec2, hec3, hec4⟩ := hevc hparent
    have hmxv : 2 * ((ax + bx) / 2) = ax + bx := by omega
    have hmyv : 2 * ((ay + bY) / 2) = ay + bY := by omega
    have hcx_id : (ax + bx) / 2 + (ay + bY) / 2 - ay = cx := by omega
    have hcy_id : (ay + bY) / 2 + ax - (ax + bx) / 2 = cy := by omega
    have hchild1 := triangleCorners_child ((2:ℤ) ^ K) i (ℓ + 1) 1 le_rfl hL1 hL2
    have hchild0 := triangleCorners_child ((2:ℤ) ^ K) i (ℓ + 1) 0 (by norm_num) hL1 hL2
    norm_num at hchild1 hchild0
    have hLIeq : triMid ((2:ℤ) ^ K) ((2:ℤ) ^ K + 1) (i + 2 * topPowF (i + 2) (i + 2)) =
        u16 (ay + cy) / 2 * t.gridSize + u16 (ax + cx) / 2 := by
      rw [hp_eq, hg]
      unfold triMid
      rw [triangleCornersF_eq, hchild1, htc, bisectStep_one]
      dsimp only
      rw [asr_eq_div, asr_eq_div,
        u16_eq_of_range (ay + cy) (by omega) (by omega),
        u16_eq_of_range (ax + cx) (by omega) (by omega),
        show cy + ay = ay + cy from by ring, show cx + ax = ax + cx from by ring]
    have hRIeq : triMid ((2:ℤ) ^ K) ((2:ℤ) ^ K + 1) (i + topPowF (i + 2) (i + 2)) =
        u16 (bY + cy) / 2 * t.gridSize + u16 (bx + cx) / 2 := by
      rw [hp_eq, hg]
      unfold triMid
      rw [triangleCornersF_eq, hchild0, htc, bisectStep_zero]
      dsimp only
      rw [asr_eq_div, asr_eq_div,
        u16_eq_of_range (bY + cy) (by omega) (by omega),
        u16_eq_of_range (bx + cx) (by omega) (by omega)]
    have hMI' : triMid ((2:ℤ) ^ K) ((2:ℤ) ^ K + 1) i =
        (ay + bY) / 2 * t.gridSize + (ax + bx) / 2 := by
      rw [hMI, u16_eq_of_range (ay + bY) (by omega) (by omega),
        u16_eq_of_range (ax + bx) (by omega) (by omega)]
    have hstep := updateStep_parent_eval t i ax ay bx bY ((ax + bx) / 2) ((ay + bY) / 2)
      cx cy (triMid ((2:ℤ) ^ K) ((2:ℤ) ^ K + 1) i)
      (triMid ((2:ℤ) ^ K) ((2:ℤ) ^ K + 1) (i + 2 * topPowF (i + 2) (i + 2)))
      (triMid ((2:ℤ) ^ K) ((2:ℤ) ^ K + 1) (i + topPowF (i + 2) (i + 2)))
      (max (t.errors (triMid ((2:ℤ) ^ K) ((2:ℤ) ^ K + 1) i))
        |(t.terrain (ay * t.gridSize + ax) + t.terrain (bY * t.gridSize + bx)) / 2 -
          t.terrain (triMid ((2:ℤ) ^ K) ((2:ℤ) ^ K + 1) i)|)
      hcoordsi
      (by rw [u16_eq_of_range (ax + bx) (by omega) (by omega)])
      (by rw [u16_eq_of_range (ay + bY) (by omega) (by omega)])
      (by rw [u16_eq_of_range ((ax + bx) / 2 + (ay + bY) / 2 - ay) (by omega) (by omega)]
          omega)
      (by rw [u16_eq_of_range ((ay + bY) / 2 + ax - (ax + bx) / 2) (by omega) (by omega)]
          omega)
      hMI' hLIeq hRIeq rfl hp'
    refine ⟨_, hstep, ?_, ?_, fun _ => ⟨?_, ?_⟩⟩
    · rw [hLE]
      exact le_trans (le_max_right _ _) (le_trans (le_max_left _ _) (le_max_left _ _))
    · exact le_trans (le_max_left _ _) (le_trans (le_max_left _ _) (le_max_left _ _))
    · exact le_trans (update_read_ge _ _ _ (le_max_left _ _) _) (le_max_right _ _)
    · exact le_trans (update_read_ge _ _ _ (le_max_left _ _) _)
        (le_trans (le_max_right _ _) (le_max_left _ _))
  · -- leaf triangle
    have hnp : ¬ ((i:ℤ) < t.numParentTriangles) := by
      rw [hparent_iff]
      exact hparent
    refine ⟨max (t.errors (triMid ((2:ℤ) ^ K) ((2:ℤ) ^ K + 1) i))
        |(t.terrain (ay * t.gridSize + ax) + t.terrain (bY * t.gridSize + bx)) / 2 -
          t.terrain (triMid ((2:ℤ) ^ K) ((2:ℤ) ^ K + 1) i)|,
      updateStep_leaf_eval t i ax ay bx bY _ hcoordsi hMI hnp, ?_, ?_, ?_⟩
    · rw [hLE]
      exact le_max_right _ _
    · exact le_max_left _ _
    · intro hgt
      exact absurd (hgate_iff.mp hgt) hparent

theorem updateStep_errors_mono (t : Tile) (i : ℕ) (v : ℤ) :
    t.errors v ≤ (updateStep t i).errors v := by
  simp only [updateStep]
  by_cases h : (i:ℤ) < t.numParentTriangles
  · rw [if_pos h]
    dsimp only
    refine le_trans (update_read_ge t.errors _ _ (le_max_left _ _) v)
      (update_read_ge _ _ _ ?_ v)
    exact le_trans (le_max_left _ _) (le_max_left _ _)
  · rw [if_neg h]
    dsimp only
    exact update_read_ge t.errors _ _ (le_max_left _ _) v

theorem updateAux_errors_mono : ∀ (n : ℕ) (t : Tile) (v : ℤ),
    t.errors v ≤ (updateAux n t).errors v := by
  intro n
  induction n with
  | zero => intro t v; exact le_rfl
  | succ n ih =>
    intro t v
    exact le_trans (updateStep_errors_mono t n v) (ih (updateStep t n) v)

/-- The error-propagation invariant of the descending `Tile.Update`
loop: if every not-yet-processed midpoint slot already dominates its
sub-hierarchy maximum, then after the remaining `n` steps every midpoint
slot dominates its sub-hierarchy maximum. -/
theorem update_invariant (K : ℕ) (hK1 : 1 ≤ K) (hK2 : K ≤ 14) :
    ∀ (n : ℕ) (t : Tile),
    t.gridSize = 2 ^ K + 1 → t.coords = coordsAt (2 ^ K) →
    t.numParentTriangles = numParentTris (2 ^ K) →
    n + 2 ≤ 2 ^ (2 * K + 1) →
    (∀ j : ℕ, n ≤ j → j + 2 < 2 ^ (2 * K + 1) → ∀ fuel : ℕ,
      subErrMax t.terrain (2 ^ K) (2 ^ K + 1) (2 * 4 ^ K - 2) fuel j ≤
        t.errors (triMid (2 ^ K) (2 ^ K + 1) j)) →
    ∀ j : ℕ, j + 2 < 2 ^ (2 * K + 1) → ∀ fuel : ℕ,
      subErrMax t.terrain (2 ^ K) (2 ^ K + 1) (2 * 4 ^ K - 2) fuel j ≤
        (updateAux n t).errors (triMid (2 ^ K) (2 ^ K + 1) j) := by
  intro n
  induction n with
  | zero =>
    intro t _ _ _ _ hpre j hj fuel
    exact hpre j (Nat.zero_le j) hj fuel
  | succ n ih =>
    intro t hg hco hP hn hpre j hj fuel
    have h4K : (4:ℕ) ^ K = 2 ^ (2 * K) := by
      rw [show (4:ℕ) = 2 ^ 2 from rfl, ← pow_mul]
    have hC : (2:ℕ) ^ (2 * K + 1) = 2 * 2 ^ (2 * K) := by ring
    obtain ⟨w, hw_eq, hw_loc, hw_cur, hw_child⟩ :=
      updateStep_struct K hK1 hK2 t n hg hco hP (by omega)
    have hter : (updateStep t n).terrain = t.terrain := updateStep_terrain t n
    have hg' : (updateStep t n).gridSize = 2 ^ K + 1 := by
      rw [updateStep_gridSize]; exact hg
    have hco' : (updateStep t n).coords = coordsAt (2 ^ K) := by
      rw [updateStep_coords]; exact hco
    have hP' : (updateStep t n).numParentTriangles = numParentTris (2 ^ K) := by
      rw [updateStep_numParentTriangles]; exact hP
    have hpre' : ∀ j' : ℕ, n ≤ j' → j' + 2 < 2 ^ (2 * K + 1) → ∀ fuel' : ℕ,
        subErrMax (updateStep t n).terrain (2 ^ K) (2 ^ K + 1) (2 * 4 ^ K - 2) fuel' j' ≤
          (updateStep t n).errors (triMid (2 ^ K) (2 ^ K + 1) j') := by
      intro j' hj' hjN fuel'
      rw [hter]
      rcases Nat.eq_or_lt_of_le hj' with rfl | hlt
      · rw [hw_eq]
        dsimp only
        rw [Function.update_same]
        cases fuel' with
        | zero => exact hw_loc
        | succ f =>
          rw [subErrMax_succ]
          by_cases hgt : n + 2 * topPowF (n + 2) (n + 2) < 2 * 4 ^ K - 2
          · rw [if_pos hgt]
            obtain ⟨hcR, hcL⟩ := hw_child hgt
            obtain ⟨l, hl1, hl2, hl3⟩ := exists_level (2 * K) (n + 2) (by omega) (by omega)
            have hb2 : (2:ℕ) ^ (l + 1 + 1) = 2 ^ (l + 2) := by ring
            have htp : topPowF (n + 2) (n + 2) = 2 ^ (l + 1) :=
              topPowF_eq (n + 2) (n + 2) (l + 1) le_rfl hl2 (by rw [hb2]; exact hl3)
            have htp1 : 1 ≤ topPowF (n + 2) (n + 2) := by
              rw [htp]
              exact Nat.one_le_two_pow
            refine max_le hw_loc (max_le ?_ ?_)
            · exact le_trans (hpre (n + topPowF (n + 2) (n + 2)) (by omega) (by omega) f) hcR
            · exact le_trans (hpre (n + 2 * topPowF (n + 2) (n + 2)) (by omega) (by omega) f)
                hcL
          · rw [if_neg hgt]
            exact hw_loc
      · exact le_trans (hpre j' (by omega) hjN fuel') (updateStep_errors_mono t n _)
    rw [updateAux_succ, show t.terrain = (updateStep t n).terrain from hter.symm]
    exact ih (updateStep t n) hg' hco' hP' (by omega) hpre' j hj fuel

/-- C1 (amended): the claimed equality is false (see the counterexample:
a stored error can strictly exceed its sub-hierarchy maximum through a
child slot shared with a foreign triangle), but the domination direction
holds universally.  After `Tile.Update` completes on a tile built by
`NewMartini` for a valid grid size `2^K + 1`, the error stored at the
hypotenuse midpoint of any table triangle `i` is at least the maximum of
the local interpolation errors over the whole sub-hierarchy rooted at
`i` — in particular it dominates both child midpoint slots, children
being finalized before parents by the descending id order. -/
theorem claim_C1 (K : ℕ) (hK1 : 1 ≤ K) (hK2 : K ≤ 14) (m : Martini)
    (hm : newMartini (2 ^ K + 1) = .ok m) (terrain : ℤ → ℚ)
    (i : ℕ) (hi : i + 2 < 2 ^ (2 * K + 1)) (fuel : ℕ) :
    subErrMax terrain (2 ^ K) (2 ^ K + 1) (2 * 4 ^ K - 2) fuel i ≤
      (newTile m terrain).errors (triMid (2 ^ K) (2 ^ K + 1) i) := by
  obtain ⟨h1, h2, h3, -, h5⟩ := newMartini_eq_ok _ _ hm
  rw [show ((2:ℤ) ^ K + 1 - 1) = 2 ^ K by ring] at h2 h3 h5
  have h4n : (1:ℕ) ≤ 4 ^ K := Nat.one_le_pow K 4 (by norm_num)
  have hB1 : (2:ℕ) ^ (2 * K + 1) = 2 * 4 ^ K := by
    rw [show (4:ℕ) = 2 ^ 2 from rfl, ← pow_mul, pow_succ]
    ring
  have hnum : m.numTriangles.toNat = 2 * 4 ^ K - 2 := by
    rw [h2]
    simp only [numTris]
    rw [show (2:ℤ) ^ K * 2 ^ K = (4:ℤ) ^ K by
      rw [show (4:ℤ) = 2 * 2 by norm_num, mul_pow]]
    have hc4 : ((4:ℕ) ^ K : ℤ) = (4:ℤ) ^ K := by push_cast; rfl
    omega
  have hn : 2 * 4 ^ K - 2 + 2 ≤ 2 ^ (2 * K + 1) := by omega
  have hpre : ∀ j : ℕ, 2 * 4 ^ K - 2 ≤ j → j + 2 < 2 ^ (2 * K + 1) → ∀ fuel' : ℕ,
      subErrMax terrain (2 ^ K) (2 ^ K + 1) (2 * 4 ^ K - 2) fuel' j ≤ (0:ℚ) := by
    intro j hj hjN fuel'
    exact absurd hjN (by omega)
  have hrec : ({ gridSize := m.gridSize
                 numTriangles := m.numTriangles
                 numParentTriangles := m.numParentTriangles
                 indices := m.indices
                 coords := m.coords
                 terrain := terrain
                 errors := fun _ => 0 } : Tile).numTriangles = m.numTriangles := rfl
  have hnt : newTile m terrain = updateAux (2 * 4 ^ K - 2)
      { gridSize := m.gridSize
        numTriangles := m.numTriangles
        numParentTriangles := m.numParentTriangles
        indices := m.indices
        coords := m.coords
        terrain := terrain
        errors := fun _ => 0 } := by
    unfold newTile tileUpdate
    rw [hrec, hnum]
  rw [hnt]
  exact update_invariant K hK1 hK2 (2 * 4 ^ K - 2) _ h1 h5 h3 hn hpre i hi fuel

/-- Witness for C1 at `K = 1` (grid 3×3), flat terrain, root entry 0. -/
theorem claim_C1_witness :
    ((1:ℕ) ≤ 1 ∧ (1:ℕ) ≤ 14 ∧ newMartini (2 ^ 1 + 1) = .ok martini3 ∧
      0 + 2 < 2 ^ (2 * 1 + 1)) ∧
    subErrMax (fun _ => (0:ℚ)) (2 ^ 1) (2 ^ 1 + 1) (2 * 4 ^ 1 - 2) 0 0 ≤
      (newTile martini3 (fun _ => (0:ℚ))).errors (triMid (2 ^ 1) (2 ^ 1 + 1) 0) :=
  ⟨⟨le_rfl, by norm_num, rfl, by norm_num⟩,
   claim_C1 1 le_rfl (by norm_num) martini3 rfl (fun _ => 0) 0 (by norm_num) 0⟩

end GoMartini
